import Mathlib

/-!
MemberSystem: member accounts and the member registry.

A shallow embedding of `src/Member.cpp` and `src/MemberManager.cpp`.

Modelling conventions

* A `double` value is the rational number it stands for (`ℚ`); the infinities and NaN are
  not values of the embedding.  The sums and products of `Member::addSpending` are those of
  `double`: each is rounded to the nearest double (`roundDouble`, IEEE 754 binary64, ties to
  even), and the rates `0.8`, `0.9`, `0.95` are the doubles nearest to them.  Comparisons are
  exact.  A theorem about these operations states among its hypotheses that the values are
  doubles and that no result overflows (`Member.typed`, `isDouble`, `Member.spendInRange`).
* An `int` value is a mathematical integer (`Int`).  The program stores it in 32 bits, and a
  signed overflow has no defined behaviour in C++: a theorem about a function that computes
  on `int` and can leave its range states the range among its hypotheses (`int32`,
  `Member.spendInRange`, `Op.counterFits`).
* `std::string` is `String`; file contents are lists of characters.
* Console output is not part of the state and is left out.
* The calendar year read from the system clock in `Member::addSpending` is an
  explicit argument `currentYear`.
* A C++ exception leaving a function is an `Except.error` result.
-/

namespace MemberSystem

/-! ## Arithmetic of `int` and `double` -/

/-- The value is in the range of a 32-bit `int`. -/
def int32 (v : Int) : Prop :=
  -2147483648 ≤ v ∧ v ≤ 2147483647

instance (v : Int) : Decidable (int32 v) := by
  unfold int32
  infer_instance

/-- The value that a 32-bit two's-complement `int` holds for the arithmetic result `v`
(wrap-around).  A signed overflow is undefined in C++; this is what the usual targets store. -/
def wrapInt32 (v : Int) : Int :=
  (v + 2147483648) % 4294967296 - 2147483648

/-- Round `n / d` to the nearest natural number, ties to even. -/
def roundHalfEven (n d : Nat) : Nat :=
  let q := n / d
  let r := n % d
  if 2 * r > d then q + 1
  else if 2 * r < d then q
  else if q % 2 = 0 then q else q + 1

/-- The position of the leading binary digit of `n`, that is `⌊log₂ n⌋`, for `n > 0`; `fuel`
bounds the number of halvings (`fuel = n` is enough). -/
def log2Floor : Nat → Nat → Nat
  | 0, _ => 0
  | fuel + 1, n => if n < 2 then 0 else log2Floor fuel (n / 2) + 1

/-- The binary exponent of the positive fraction `n / d`: the `e` with
`2 ^ e ≤ n / d < 2 ^ (e + 1)`. -/
def binaryExponent (n d : Nat) : Int :=
  let k : Int := (log2Floor n n : Int) - (log2Floor d d : Int)
  if 0 ≤ k then (if d * 2 ^ k.toNat ≤ n then k else k - 1)
  else (if d ≤ n * 2 ^ (-k).toNat then k else k - 1)

/-- The `double` that an exact result is rounded to (IEEE 754 binary64, round to nearest, ties
to even): 53 significant binary digits, and multiples of `2 ^ (-1074)` below `2 ^ (-1022)`.
A result of `2 ^ 1024` or more in absolute value stands for an overflow to an infinity. -/
def roundDouble (x : ℚ) : ℚ :=
  if x.num = 0 then 0
  else
    let n := x.num.natAbs
    let d := x.den
    let e : Int := max (binaryExponent n d) (-1022)
    let s : Int := e - 52
    let mag : ℚ :=
      if 0 ≤ s then ((roundHalfEven n (d * 2 ^ s.toNat) * 2 ^ s.toNat : Nat) : ℚ)
      else ((roundHalfEven (n * 2 ^ (-s).toNat) d : Nat) : ℚ) / ((2 ^ (-s).toNat : Nat) : ℚ)
    if x.num < 0 then -mag else mag

/-- The sum `x + y` of two doubles. -/
def doubleAdd (x y : ℚ) : ℚ :=
  roundDouble (x + y)

/-- The product `x * y` of two doubles. -/
def doubleMul (x y : ℚ) : ℚ :=
  roundDouble (x * y)

/-- The power `2 ^ 1024`, above every finite double. -/
def doubleLimit : ℚ :=
  ((2 ^ 256 * 2 ^ 256 * 2 ^ 256 * 2 ^ 256 : Nat) : ℚ)

/-- The value is below `2 ^ 1024` in absolute value: as the result of `roundDouble`, it is a
finite double and not an overflow. -/
def finiteDouble (x : ℚ) : Prop :=
  -doubleLimit < x ∧ x < doubleLimit

instance (x : ℚ) : Decidable (finiteDouble x) := by
  unfold finiteDouble
  infer_instance

/-- The value is a finite `double`. -/
def isDouble (x : ℚ) : Prop :=
  roundDouble x = x ∧ finiteDouble x

instance (x : ℚ) : Decidable (isDouble x) := by
  unfold isDouble
  infer_instance

/-! ## Member (src/include/Member.h, src/Member.cpp) -/

/-- The enum `Member::Level`, in declaration order (`NORMAL = 0` … `DIAMOND = 3`). -/
inductive Level where
  | NORMAL
  | SILVER
  | GOLD
  | DIAMOND
deriving DecidableEq, Repr

/-- The integer value of an enumerator, `static_cast<int>(level)`. -/
def Level.toInt : Level → Int
  | .NORMAL => 0
  | .SILVER => 1
  | .GOLD => 2
  | .DIAMOND => 3

/-- The order `NORMAL < SILVER < GOLD < DIAMOND` is the order of the enumerator values. -/
instance : LE Level := ⟨fun a b => a.toInt ≤ b.toInt⟩

instance (a b : Level) : Decidable (a ≤ b) := Int.decLe a.toInt b.toInt

/-- The data members of `class Member`. -/
structure Member where
  id : Int
  name : String
  phone : String
  birthday : String
  totalSpent : ℚ
  points : Int
  pointsPerDollar : Int
  consumptionHistory : List (ℚ × ℚ)
  annualSpent : ℚ
  currentLevel : Level
  lastYear : Int
deriving DecidableEq

/-- The tier thresholds of `Member::determineLevel`, as a function of the annual amount. -/
def levelOf (annualSpent : ℚ) : Level :=
  if annualSpent ≥ 20000 then Level.DIAMOND
  else if annualSpent ≥ 10000 then Level.GOLD
  else if annualSpent ≥ 5000 then Level.SILVER
  else Level.NORMAL

/-- `Member::determineLevel`: overwrite `currentLevel` from `annualSpent`. -/
def Member.determineLevel (m : Member) : Member :=
  { m with currentLevel := levelOf m.annualSpent }

/-- The `switch` of `Member::getDiscountRate`, on a level: the literals `0.8`, `0.9`, `0.95`
and `1.0`, each the double nearest to the decimal. -/
def discountRateOf : Level → ℚ
  | .DIAMOND => roundDouble (8 / 10)
  | .GOLD => roundDouble (9 / 10)
  | .SILVER => roundDouble (95 / 100)
  | _ => 1

/-- `Member::getDiscountRate`. -/
def Member.getDiscountRate (m : Member) : ℚ :=
  discountRateOf m.currentLevel

/-- `static_cast<int>(double)`: truncation toward zero.  The conversion is defined when the
truncated value is in the range of `int`. -/
def truncToInt (x : ℚ) : Int :=
  Int.tdiv x.num x.den

/-- The constructor `Member::Member(id, name, phone, birthday, rule, annualSpent, level, lastYear)`:
the initialiser list, the four assignments of the body, then `determineLevel()`.  The default
arguments of the declaration (`rule = 1`, `annualSpent = 0.0`, `level = NORMAL`, `lastYear = 0`)
are written out at each call. -/
def Member.ctor (id : Int) (name phone birthday : String) (rule : Int)
    (annualSpent : ℚ) (level : Level) (lastYear : Int) : Member :=
  let m0 : Member :=
    { id := id, name := name, phone := phone, birthday := birthday,
      totalSpent := 0, points := 0, pointsPerDollar := rule,
      consumptionHistory := [], annualSpent := 0,
      currentLevel := Level.NORMAL, lastYear := 0 }
  let m1 := { m0 with annualSpent := annualSpent }
  let m2 := { m1 with totalSpent := annualSpent }
  let m3 := { m2 with currentLevel := level }
  let m4 := { m3 with lastYear := lastYear }
  m4.determineLevel

/-- `Member::setPointsRule`. -/
def Member.setPointsRule (m : Member) (rule : Int) : Member :=
  if rule ≤ 0 then m
  else { m with pointsPerDollar := rule }

/-- `Member::redeemPoints`. -/
def Member.redeemPoints (m : Member) (pointsToRedeem : Int) : Member :=
  if pointsToRedeem ≤ 0 ∨ pointsToRedeem > m.points then m
  else { m with points := m.points - pointsToRedeem }

/-- `Member::addSpending`, with the year of the system clock as `currentYear`.  The sums and
products are those of `double`; in `actualAmount * pointsPerDollar` the `int` is converted to
`double` first, which is exact. -/
def Member.addSpending (currentYear : Int) (m : Member) (amount : ℚ) : Member :=
  let m1 :=
    if m.lastYear ≠ currentYear then { m with annualSpent := 0, lastYear := currentYear }
    else m
  let m2 := { m1 with annualSpent := doubleAdd m1.annualSpent amount }
  let m3 := m2.determineLevel
  let discountRate := m3.getDiscountRate
  let actualAmount := doubleMul amount discountRate
  let earnedPoints := truncToInt (doubleMul actualAmount (m3.pointsPerDollar : ℚ))
  let m4 := { m3 with totalSpent := doubleAdd m3.totalSpent amount }
  let m5 := { m4 with points := m4.points + earnedPoints }
  { m5 with consumptionHistory := m5.consumptionHistory ++ [(amount, discountRate)] }

/-- The account holds values of its C++ types: the `int` members are in the range of `int`
and the `double` members are finite doubles. -/
def Member.typed (m : Member) : Prop :=
  int32 m.id ∧ int32 m.points ∧ int32 m.pointsPerDollar ∧ int32 m.lastYear ∧
  isDouble m.totalSpent ∧ isDouble m.annualSpent

instance (m : Member) : Decidable m.typed := by
  unfold Member.typed
  infer_instance

/-- The points that `addSpending(amount)` computes before the conversion to `int`:
`(amount * discountRate) * pointsPerDollar` in `double`, the rate being that of the tier of the
new annual total. -/
def Member.spendProduct (currentYear : Int) (m : Member) (amount : ℚ) : ℚ :=
  let annual := doubleAdd (if m.lastYear ≠ currentYear then 0 else m.annualSpent) amount
  doubleMul (doubleMul amount (discountRateOf (levelOf annual))) (m.pointsPerDollar : ℚ)

/-- The call `addSpending(amount)` stays within `double` and `int`: no sum and no product
overflows to an infinity, the product of the points converts to an `int`, and the new points
are in the range of `int`. -/
def Member.spendInRange (currentYear : Int) (m : Member) (amount : ℚ) : Prop :=
  let annual := doubleAdd (if m.lastYear ≠ currentYear then 0 else m.annualSpent) amount
  finiteDouble annual ∧ finiteDouble (doubleAdd m.totalSpent amount) ∧
  finiteDouble (doubleMul amount (discountRateOf (levelOf annual))) ∧
  finiteDouble (m.spendProduct currentYear amount) ∧
  int32 (truncToInt (m.spendProduct currentYear amount)) ∧
  int32 (m.points + truncToInt (m.spendProduct currentYear amount))

instance (currentYear : Int) (m : Member) (amount : ℚ) :
    Decidable (m.spendInRange currentYear amount) := by
  unfold Member.spendInRange
  infer_instance

/-! ## MemberManager (src/include/MemberManager.h, src/MemberManager.cpp) -/

/-- The data members of `class MemberManager`. -/
structure MemberManager where
  members : List Member
  nextId : Int
  pointsRule : Int
deriving DecidableEq

/-- A default-constructed manager: no members, `nextId = 1`, `pointsRule = 1`. -/
def MemberManager.init : MemberManager :=
  { members := [], nextId := 1, pointsRule := 1 }

/-- The loop `for (auto& member : members) if (member.getId() == id) { …; return; }`:
apply `f` to the first member whose id is `id`, and stop. -/
def updateFirst (id : Int) (f : Member → Member) : List Member → List Member
  | [] => []
  | m :: ms => if m.id = id then f m :: ms else m :: updateFirst id f ms

/-- `MemberManager::addMember`. -/
def MemberManager.addMember (s : MemberManager) (name phone birthday : String) : MemberManager :=
  let newMember := Member.ctor s.nextId name phone birthday s.pointsRule 0 Level.NORMAL 0
  { s with nextId := s.nextId + 1, members := s.members ++ [newMember] }

/-- `MemberManager::deleteMember`: `find_if` on the id, then `erase` of that position. -/
def MemberManager.deleteMember (s : MemberManager) (memberId : Int) : MemberManager :=
  { s with members := s.members.eraseP (fun m => decide (m.id = memberId)) }

/-- `MemberManager::updateMemberPhone`. -/
def MemberManager.updateMemberPhone (s : MemberManager) (id : Int) (newPhone : String) :
    MemberManager :=
  let rebuilt := fun (member : Member) =>
    Member.ctor id member.name newPhone member.birthday member.pointsPerDollar 0 Level.NORMAL 0
  { s with members := updateFirst id rebuilt s.members }

/-- `MemberManager::getMemberIdByPhone`. -/
def MemberManager.getMemberIdByPhone (s : MemberManager) (phone : String) : Int :=
  match s.members.find? (fun m => decide (m.phone = phone)) with
  | some m => m.id
  | none => -1

/-- `MemberManager::addSpending`. -/
def MemberManager.addSpending (currentYear : Int) (s : MemberManager) (id : Int) (amount : ℚ) :
    MemberManager :=
  let spend := fun (member : Member) => member.addSpending currentYear amount
  { s with members := updateFirst id spend s.members }

/-- `MemberManager::redeemPoints`. -/
def MemberManager.redeemPoints (s : MemberManager) (id : Int) (pointsToRedeem : Int) :
    MemberManager :=
  let redeem := fun (member : Member) => member.redeemPoints pointsToRedeem
  { s with members := updateFirst id redeem s.members }

/-- `MemberManager::setPointsRule`. -/
def MemberManager.setPointsRule (s : MemberManager) (rule : Int) : MemberManager :=
  { s with pointsRule := rule, members := s.members.map (fun member => member.setPointsRule rule) }

/-! ## Text input and output used by the persistence functions -/

/-- The exceptions thrown by `std::stoi` and `std::stod`. -/
inductive StoError where
  | invalid_argument
  | out_of_range
deriving DecidableEq, Repr

/-- `isspace` in the "C" locale. -/
def isSpace (c : Char) : Bool :=
  c.toNat = 32 || (9 ≤ c.toNat && c.toNat ≤ 13)

/-- `isdigit`. -/
def isDigit (c : Char) : Bool :=
  48 ≤ c.toNat && c.toNat ≤ 57

/-- The values of the leading decimal digits of a text. -/
def takeDigits : List Char → List Nat
  | [] => []
  | c :: cs => if isDigit c then (c.toNat - 48) :: takeDigits cs else []

/-- The text after its leading decimal digits. -/
def dropDigits : List Char → List Char
  | [] => []
  | c :: cs => if isDigit c then dropDigits cs else c :: cs

/-- The number written by a list of decimal digits, most significant first. -/
def digitsValue (ds : List Nat) : Nat :=
  ds.foldl (fun a d => 10 * a + d) 0

/-- The text without its leading white space. -/
def skipSpaces : List Char → List Char
  | [] => []
  | c :: cs => if isSpace c then skipSpaces cs else c :: cs

/-- An optional sign: whether it is `-`, and the text after it. -/
def readSign : List Char → Bool × List Char
  | '-' :: cs => (true, cs)
  | '+' :: cs => (false, cs)
  | cs => (false, cs)

/-- `std::stoi(str)` (base 10): leading white space, an optional sign, then the longest run of
digits; what follows is ignored.  No digit: `invalid_argument`; a value outside the range of
`int` (32 bits): `out_of_range`. -/
def stoi (str : List Char) : Except StoError Int :=
  let (neg, rest) := readSign (skipSpaces str)
  let ds := takeDigits rest
  if ds = [] then Except.error StoError.invalid_argument
  else
    let v : Int := if neg then -(digitsValue ds : Int) else (digitsValue ds : Int)
    if v < -2147483648 ∨ v > 2147483647 then Except.error StoError.out_of_range
    else Except.ok v

/-- `operator<<(std::ostream&, int)`: decimal digits, with `-` for a negative value. -/
def putInt : Int → List Char
  | Int.ofNat n => Nat.toDigits 10 n
  | Int.negSucc n => '-' :: Nat.toDigits 10 (n + 1)

/-- The two library functions that convert between `double` and text.  They are not code of
this repository, and what they do depends on the binary format of `double`, so the
persistence functions take them as a parameter:
`put` is `operator<<(std::ostream&, double)`, `stod` is `std::stod`.  A result of `stod` is a
finite value: the texts for which `std::stod` returns an infinity or NaN (`inf`, `nan`) are
outside the embedding of the persistence functions; `restoredTotals` follows such a value. -/
structure DoubleText where
  put : ℚ → List Char
  stod : List Char → Except StoError ℚ

/-- Repeated `std::getline(stream, piece, delim)` until it fails: the pieces of the text
between delimiters.  A final piece without delimiter is read when it is not empty; an empty
text yields no piece. -/
def getlines (delim : Char) : List Char → List (List Char)
  | [] => []
  | c :: cs =>
    if c = delim then [] :: getlines delim cs
    else
      match getlines delim cs with
      | [] => [[c]]
      | piece :: pieces => (c :: piece) :: pieces

/-- `static_cast<Member::Level>(level)` for `level` in `0..3`. -/
def Level.ofInt (level : Int) : Level :=
  if level = 3 then Level.DIAMOND
  else if level = 2 then Level.GOLD
  else if level = 1 then Level.SILVER
  else Level.NORMAL

/-! ## Persistence (src/MemberManager.cpp) -/

/-- One iteration of the loop of `MemberManager::saveToFile`: the line written for a member. -/
def saveLine (io : DoubleText) (member : Member) : List Char :=
  putInt member.id ++ [','] ++ member.name.data ++ [','] ++ member.phone.data ++ [','] ++
    member.birthday.data ++ [','] ++ io.put member.totalSpent ++ [','] ++
    putInt member.points ++ [','] ++ putInt member.pointsPerDollar ++ [','] ++
    io.put member.annualSpent ++ [','] ++ putInt member.currentLevel.toInt ++ [','] ++
    putInt member.lastYear ++ ['\n']

/-- `MemberManager::saveToFile` when the file can be opened: the text written to the file.
The function is `const`: the manager is not changed. -/
def MemberManager.saveToFile (io : DoubleText) (s : MemberManager) : List Char :=
  (s.members.map (saveLine io)).flatten

/-- The body of the `while (std::getline(file, line))` loop of `MemberManager::loadFromFile`
for one line. -/
def loadLine (io : DoubleText) (s : MemberManager) (line : List Char) :
    Except StoError MemberManager :=
  match getlines ',' line with
  | [d0, d1, d2, d3, d4, d5, d6, d7, d8, d9] => do
    let id ← stoi d0
    let s1 := { s with nextId := max s.nextId (id + 1) }
    let totalSpent ← io.stod d4
    let points ← stoi d5
    let pointsRule ← stoi d6
    let annualSpent ← io.stod d7
    let level ← stoi d8
    let lastYear ← stoi d9
    let _totalSpent : ℚ := if totalSpent < 0 then 0 else totalSpent
    let _points : Int := if points < 0 then 0 else points
    let pointsRule : Int := if pointsRule < 1 then 1 else pointsRule
    let annualSpent : ℚ := if annualSpent < 0 then 0 else annualSpent
    let level : Int := if level < 0 ∨ level > 3 then 0 else level
    let lastYear : Int := if lastYear < 0 then 0 else lastYear
    let member := Member.ctor id (String.mk d1) (String.mk d2) (String.mk d3) pointsRule
      annualSpent (Level.ofInt level) lastYear
    let member := member.setPointsRule pointsRule
    pure { s1 with members := s1.members ++ [member] }
  | _ => pure s

/-- The `while` loop of `MemberManager::loadFromFile` over the lines of the file. -/
def loadLines (io : DoubleText) (s : MemberManager) : List (List Char) →
    Except StoError MemberManager
  | [] => pure s
  | line :: lines =>
    match loadLine io s line with
    | Except.ok s1 => loadLines io s1 lines
    | Except.error e => Except.error e

/-- `MemberManager::loadFromFile`.  `file` is the content of the file, or `none` when the file
cannot be opened (the manager is then left as it is).  An exception of `std::stoi` or
`std::stod` is not caught in the function and leaves it. -/
def MemberManager.loadFromFile (io : DoubleText) (s : MemberManager)
    (file : Option (List Char)) : Except StoError MemberManager :=
  match file with
  | none => pure s
  | some text => loadLines io { s with members := [], nextId := 1 } (getlines '\n' text)

/-! ## A concrete `DoubleText` for decimal texts

Used to run the persistence functions on concrete registries.  `putDouble` follows the default
stream format (`%g` with 6 significant digits); `stodDecimal` reads the decimal forms
`digits[.digits][e[±]digits]` and rounds their value to the nearest double.  The hexadecimal,
`inf` and `nan` forms of `std::stod` and its range errors are outside this instance. -/

/-- For `n ≥ d > 0`: the largest `k` (from `k` on) with `d * 10 ^ k ≤ n`. -/
def expUp : Nat → Nat → Nat → Nat → Nat
  | 0, _, _, k => k
  | fuel + 1, n, d, k => if d * 10 ^ (k + 1) ≤ n then expUp fuel n d (k + 1) else k

/-- For `0 < n < d`: the smallest `k` (from `k` on) with `d ≤ n * 10 ^ k`. -/
def expDown : Nat → Nat → Nat → Nat → Nat
  | 0, _, _, k => k
  | fuel + 1, n, d, k => if d ≤ n * 10 ^ k then k else expDown fuel n d (k + 1)

/-- The decimal exponent of `n / d` (`n, d > 0`): the `X` with `10 ^ X ≤ n / d < 10 ^ (X + 1)`. -/
def decExponent (n d : Nat) : Int :=
  if d ≤ n then (expUp n n d 0 : Int) else -(expDown d n d 1 : Int)

/-- The text without its trailing zeros. -/
def stripZeros (l : List Char) : List Char :=
  (l.reverse.dropWhile (fun c => c = '0')).reverse

/-- A fraction part: nothing when it is empty, else a point and the digits. -/
def fracPart (l : List Char) : List Char :=
  if l = [] then [] else '.' :: l

/-- The exponent part of the scientific form: a sign and at least two digits. -/
def expPart (e : Int) : List Char :=
  let ds := Nat.toDigits 10 e.natAbs
  let ds := if ds.length < 2 then '0' :: ds else ds
  'e' :: (if e < 0 then '-' else '+') :: ds

/-- The `%g` form of `n / d` (`n, d > 0`) with 6 significant digits. -/
def putPositive (n d : Nat) : List Char :=
  let x0 := decExponent n d
  let scaled (x : Int) : Nat :=
    if x ≤ 5 then roundHalfEven (n * 10 ^ (5 - x).toNat) d
    else roundHalfEven n (d * 10 ^ (x - 5).toNat)
  let m0 := scaled x0
  let x := if m0 = 1000000 then x0 + 1 else x0
  let m := if m0 = 1000000 then 100000 else m0
  let ds := Nat.toDigits 10 m
  if x < -4 ∨ x ≥ 6 then
    ds.take 1 ++ fracPart (stripZeros (ds.drop 1)) ++ expPart x
  else if x ≥ 0 then
    ds.take (x.toNat + 1) ++ fracPart (stripZeros (ds.drop (x.toNat + 1)))
  else
    '0' :: fracPart (stripZeros (List.replicate ((-x).toNat - 1) '0' ++ ds))

/-- `operator<<(std::ostream&, double)` with the default format. -/
def putDouble (x : ℚ) : List Char :=
  if x.num = 0 then ['0']
  else if x.num < 0 then '-' :: putPositive x.num.natAbs x.den
  else putPositive x.num.natAbs x.den

/-- The decimal forms of `std::stod`: the value written, rounded to the nearest double. -/
def stodDecimal (str : List Char) : Except StoError ℚ :=
  let (neg, rest) := readSign (skipSpaces str)
  let intDs := takeDigits rest
  let rest := dropDigits rest
  let fracDs := match rest with
    | '.' :: r => takeDigits r
    | _ => []
  let rest := match rest with
    | '.' :: r => dropDigits r
    | r => r
  let expo : Int := match rest with
    | 'e' :: r | 'E' :: r =>
      let (eneg, r) := readSign r
      if eneg then -(digitsValue (takeDigits r) : Int) else (digitsValue (takeDigits r) : Int)
    | _ => 0
  if intDs = [] ∧ fracDs = [] then Except.error StoError.invalid_argument
  else
    let mant : ℚ := (digitsValue (intDs ++ fracDs) : ℚ) / (10 : ℚ) ^ fracDs.length
    let v : ℚ := mant * (10 : ℚ) ^ expo
    Except.ok (roundDouble (if neg then -v else v))

/-- The concrete conversions between `double` and decimal text. -/
def decimalText : DoubleText :=
  { put := putDouble, stod := stodDecimal }

/-! ## Sequences of operations -/

/-- The mutating member functions of `class Member`, as data. -/
inductive MemberOp where
  | addSpending (currentYear : Int) (amount : ℚ)
  | redeemPoints (pointsToRedeem : Int)
  | setPointsRule (rule : Int)

/-- Run one member function. -/
def Member.run (m : Member) : MemberOp → Member
  | .addSpending currentYear amount => m.addSpending currentYear amount
  | .redeemPoints pointsToRedeem => m.redeemPoints pointsToRedeem
  | .setPointsRule rule => m.setPointsRule rule

/-- Run member functions one after the other. -/
def Member.runAll (m : Member) (ops : List MemberOp) : Member :=
  ops.foldl Member.run m

/-- The public functions of `class MemberManager` that take part in the claims, as data. -/
inductive Op where
  | addMember (name phone birthday : String)
  | deleteMember (memberId : Int)
  | updateMemberPhone (id : Int) (newPhone : String)
  | addSpending (currentYear : Int) (id : Int) (amount : ℚ)
  | redeemPoints (id : Int) (pointsToRedeem : Int)
  | setPointsRule (rule : Int)
  | saveToFile (io : DoubleText)
  | loadFromFile (io : DoubleText) (file : Option (List Char))

/-- Run one manager function on a manager; an exception that leaves the function is an error. -/
def MemberManager.run (s : MemberManager) : Op → Except StoError MemberManager
  | .addMember name phone birthday => pure (s.addMember name phone birthday)
  | .deleteMember memberId => pure (s.deleteMember memberId)
  | .updateMemberPhone id newPhone => pure (s.updateMemberPhone id newPhone)
  | .addSpending currentYear id amount => pure (s.addSpending currentYear id amount)
  | .redeemPoints id pointsToRedeem => pure (s.redeemPoints id pointsToRedeem)
  | .setPointsRule rule => pure (s.setPointsRule rule)
  | .saveToFile _ => pure s
  | .loadFromFile io file => s.loadFromFile io file

/-- Run manager functions one after the other, stopping at the first exception. -/
def MemberManager.runAll (s : MemberManager) : List Op → Except StoError MemberManager
  | [] => pure s
  | op :: ops =>
    match s.run op with
    | Except.ok s1 => s1.runAll ops
    | Except.error e => Except.error e

/-- An operation whose purchase amount, when it is a purchase, is positive. -/
def Op.positiveAmount : Op → Prop
  | .addSpending _ _ amount => 0 < amount
  | _ => True

/-- An operation whose points rule, when it sets one at the manager, is at least 1. -/
def Op.validRule : Op → Prop
  | .setPointsRule rule => 1 ≤ rule
  | _ => True

/-- The balances of an account are in their domain: points rate at least 1, points not
negative. -/
def Member.balancesValid (m : Member) : Prop :=
  1 ≤ m.pointsPerDollar ∧ 0 ≤ m.points

/-- A gold member in the middle of year 2024, used as a concrete input. -/
def goldMember : Member :=
  { id := 7, name := "Li", phone := "13800000000", birthday := "1990-05-17",
    totalSpent := 31000, points := 500, pointsPerDollar := 2,
    consumptionHistory := [(12000, 9 / 10)], annualSpent := 12000,
    currentLevel := Level.GOLD, lastYear := 2024 }

/-- A gold member of year 2024 whose next purchase of 100 reaches the diamond threshold. -/
def nearDiamondMember : Member :=
  { goldMember with annualSpent := 19950 }

/-- A registry holding `goldMember`, used as a concrete input. -/
def goldRegistry : MemberManager :=
  { members := [goldMember], nextId := 8, pointsRule := 2 }

/-- The account that `MemberManager::updateMemberPhone` puts in the place of `m`, field by
field as the claim describes it. -/
def phoneReset (m : Member) (newPhone : String) : Member :=
  { id := m.id, name := m.name, phone := newPhone, birthday := m.birthday,
    totalSpent := 0, points := 0, pointsPerDollar := m.pointsPerDollar,
    consumptionHistory := [], annualSpent := 0, currentLevel := Level.NORMAL, lastYear := 0 }

/-- A second member, used with `goldMember` in concrete registries. -/
def baseMember : Member :=
  { id := 9, name := "Wu", phone := "13900000000", birthday := "1985-01-02",
    totalSpent := 300, points := 0, pointsPerDollar := 2,
    consumptionHistory := [(300, 1)], annualSpent := 300,
    currentLevel := Level.NORMAL, lastYear := 2023 }

/-- A registry with two members, ids 7 and 9. -/
def pairRegistry : MemberManager :=
  { members := [goldMember, baseMember], nextId := 10, pointsRule := 2 }

/-- A silver member of year 2024 with points rate 5. -/
def silverMember : Member :=
  { id := 3, name := "Hu", phone := "13700000000", birthday := "1988-08-08",
    totalSpent := 5000, points := 0, pointsPerDollar := 5,
    consumptionHistory := [(5000, 1)], annualSpent := 5000,
    currentLevel := Level.SILVER, lastYear := 2024 }

/-- An account last seen in 2023 whose lifetime total is `2 ^ 53`. -/
def largeTotalMember : Member :=
  { baseMember with totalSpent := 9007199254740992 }

/-- The operation is `loadFromFile`. -/
def Op.isLoad : Op → Bool
  | .loadFromFile _ _ => true
  | _ => false

/-- The conversion succeeded (no exception). -/
def parsed {α : Type} : Except StoError α → Bool
  | Except.ok _ => true
  | Except.error _ => false

/-- The line has exactly 10 fields: `data.size() == 10` in `loadFromFile`. -/
def tenFields (line : List Char) : Bool :=
  decide ((getlines ',' line).length = 10)

/-- "Each 10-field line has parseable numeric fields": on a line of 10 fields the seven
conversions of `loadFromFile` succeed; a line with another number of fields is not
constrained. -/
def lineParses (io : DoubleText) (line : List Char) : Bool :=
  match getlines ',' line with
  | [d0, _, _, _, d4, d5, d6, d7, d8, d9] =>
    parsed (stoi d0) && parsed (io.stod d4) && parsed (stoi d5) && parsed (stoi d6) &&
      parsed (io.stod d7) && parsed (stoi d8) && parsed (stoi d9)
  | _ => true

/-- The clamping of C20, between a 10-field line and an account: the account has the stored
points rate raised to 1, the stored annual total and year raised to 0, points and lifetime
total not negative, and one of the four tiers. -/
def ClampedRecord (io : DoubleText) (line : List Char) (m : Member) : Prop :=
  ∃ (d0 d1 d2 d3 d4 d5 d6 d7 d8 d9 : List Char) (rate : Int) (annual : ℚ) (year : Int),
    getlines ',' line = [d0, d1, d2, d3, d4, d5, d6, d7, d8, d9] ∧
    stoi d6 = Except.ok rate ∧ io.stod d7 = Except.ok annual ∧ stoi d9 = Except.ok year ∧
    m.pointsPerDollar = max 1 rate ∧ m.annualSpent = max 0 annual ∧ m.lastYear = max 0 year ∧
    0 ≤ m.points ∧ 0 ≤ m.totalSpent ∧
    m.currentLevel ∈ [Level.NORMAL, Level.SILVER, Level.GOLD, Level.DIAMOND]

/-- The id read from a line: the value of `std::stoi(data[0])` when the line has 10 fields and
the conversion succeeds. -/
def lineId (line : List Char) : Option Int :=
  match getlines ',' line with
  | [d0, _, _, _, _, _, _, _, _, _] =>
    match stoi d0 with
    | Except.ok id => some id
    | Except.error _ => none
  | _ => none

/-- The ids read from the 10-field lines of a text, in line order. -/
def textIds (text : List Char) : List Int :=
  (getlines '\n' text).filterMap lineId

/-- The ids of the accounts of a registry, in registry order. -/
def MemberManager.ids (s : MemberManager) : List Int :=
  s.members.map (fun m => m.id)

/-- An operation that, when it loads a file, loads one whose 10-field lines carry pairwise
distinct ids. -/
def Op.distinctIds : Op → Prop
  | .loadFromFile _ (some text) => (textIds text).Nodup
  | _ => True

/-- A text with a record below every clamp (rate -3, annual total -50, tier index 9, year -1)
and a line that is not a record. -/
def clampText : List Char :=
  "1,An,13800000001,1991-01-01,0,5,-3,-50,9,-1\nnot a record\n".data

/-- A text with two records of id 5. -/
def twinText : List Char :=
  "5,An,13800000001,1991-01-01,0,0,1,0,0,0\n5,Bo,13800000002,1992-02-02,0,0,1,0,0,0\n".data

/-- The text contains neither the field separator nor the line separator. -/
def cleanText (t : List Char) : Prop :=
  ',' ∉ t ∧ '\n' ∉ t

instance (t : List Char) : Decidable (cleanText t) := by
  unfold cleanText
  infer_instance

/-- The text that `io` writes for the value contains no separator and is read back by
`io.stod` without an exception. -/
def cleanDouble (io : DoubleText) (x : ℚ) : Prop :=
  cleanText (io.put x) ∧ parsed (io.stod (io.put x)) = true

instance (io : DoubleText) (x : ℚ) : Decidable (cleanDouble io x) := by
  unfold cleanDouble
  infer_instance

/-- An account that `saveToFile` writes as one readable record: its `int` members are in the
range of `int`, its name, phone and birthday contain no comma and no newline, and so do the
texts of its two `double` members. -/
def Member.storable (io : DoubleText) (m : Member) : Prop :=
  int32 m.id ∧ int32 m.points ∧ int32 m.pointsPerDollar ∧ int32 m.lastYear ∧
  cleanText m.name.data ∧ cleanText m.phone.data ∧ cleanText m.birthday.data ∧
  cleanDouble io m.totalSpent ∧ cleanDouble io m.annualSpent

instance (io : DoubleText) (m : Member) : Decidable (m.storable io) := by
  unfold Member.storable
  infer_instance

/-- The ten fields that `saveToFile` writes for an account, in order. -/
def saveFields (io : DoubleText) (m : Member) : List (List Char) :=
  [putInt m.id, m.name.data, m.phone.data, m.birthday.data, io.put m.totalSpent,
   putInt m.points, putInt m.pointsPerDollar, io.put m.annualSpent,
   putInt m.currentLevel.toInt, putInt m.lastYear]

/-- The line that `saveToFile` writes for an account, without its final newline. -/
def recordText (io : DoubleText) (m : Member) : List Char :=
  putInt m.id ++ ',' :: (m.name.data ++ ',' :: (m.phone.data ++ ',' :: (m.birthday.data ++
    ',' :: (io.put m.totalSpent ++ ',' :: (putInt m.points ++ ',' :: (putInt m.pointsPerDollar ++
    ',' :: (io.put m.annualSpent ++ ',' :: (putInt m.currentLevel.toInt ++
    ',' :: putInt m.lastYear))))))))

/-- The empty registry after one `addMember` with a name that contains a comma. -/
def commaRegistry : MemberManager :=
  MemberManager.init.addMember "Li,Wei" "13800000000" "1990-05-17"

/-- `Utils::isValidPhoneNumber`. -/
def Utils.isValidPhoneNumber (phone : String) : Bool :=
  if phone.data = [] then false
  else if ¬ phone.data.all isDigit then false
  else if phone.data.length ≠ 11 ∧ phone.data.length ≠ 7 ∧ phone.data.length ≠ 8 then false
  else if phone.data.length = 11 ∧ phone.data.head? ≠ some '1' then false
  else true

/-- `Utils::isInRange(int, int, int)`. -/
def Utils.isInRange (value min max : Int) : Bool :=
  decide (value ≥ min) && decide (value ≤ max)

/-- `std::regex_match(birthday, R"(^\d{4}-\d{2}-\d{2}$)")`: four digits, a dash, two digits, a
dash, two digits, and nothing else. -/
def matchesDatePattern : List Char → Bool
  | [y1, y2, y3, y4, '-', m1, m2, '-', d1, d2] =>
    isDigit y1 && isDigit y2 && isDigit y3 && isDigit y4 && isDigit m1 && isDigit m2 &&
      isDigit d1 && isDigit d2
  | _ => false

/-- `stream >> value` for an `int`: leading white space, an optional sign, then the longest run
of decimal digits; the result is the value and the rest of the stream, or nothing when the
extraction fails (no digit, or a value outside the range of `int`). -/
def extractInt (s : List Char) : Option (Int × List Char) :=
  let (neg, rest) := readSign (skipSpaces s)
  let ds := takeDigits rest
  if ds = [] then none
  else
    let v : Int := if neg then -(digitsValue ds : Int) else (digitsValue ds : Int)
    if v < -2147483648 ∨ v > 2147483647 then none
    else some (v, dropDigits rest)

/-- `stream >> c` for a `char`: leading white space is skipped, then one character is read. -/
def extractChar (s : List Char) : Option (Char × List Char) :=
  match skipSpaces s with
  | [] => none
  | c :: cs => some (c, cs)

/-- `Utils::isValidBirthday`.  The three values read from the system clock,
`tm_year + 1900`, `tm_mon + 1` and `tm_mday`, are the arguments `currentYear`, `currentMonth`
and `currentDay`. -/
def Utils.isValidBirthday (currentYear currentMonth currentDay : Int) (birthday : String) :
    Bool :=
  if birthday.data = [] then false
  else if ¬ matchesDatePattern birthday.data then false
  else
    match extractInt birthday.data with
    | none => false
    | some (year, s1) =>
    match extractChar s1 with
    | none => false
    | some (dash1, s2) =>
    match extractInt s2 with
    | none => false
    | some (month, s3) =>
    match extractChar s3 with
    | none => false
    | some (dash2, s4) =>
    match extractInt s4 with
    | none => false
    | some (day, _) =>
      if dash1 ≠ '-' ∨ dash2 ≠ '-' then false
      else if year < 1900 ∨ year > 2100 then false
      else if month < 1 ∨ month > 12 then false
      else
        let table : List Int := [31, 28, 31, 30, 31, 30, 31, 31, 30, 31, 30, 31]
        let daysInMonth : List Int :=
          if month = 2 ∧ ((year % 4 = 0 ∧ year % 100 ≠ 0) ∨ year % 400 = 0) then table.set 1 29
          else table
        if day < 1 ∨ day > daysInMonth.getD (month - 1).toNat 0 then false
        else if year > currentYear then false
        else if year = currentYear ∧ month > currentMonth then false
        else if year = currentYear ∧ month = currentMonth ∧ day > currentDay then false
        else true

/-! ## System (src/System.cpp) -/

/-- `System::handleAddSpending` on its `manager`: `input` is the text returned by
`Utils::getStringInput`, `amount` the value returned by `Utils::getDoubleInput` when the flow
reaches it.  Each `return` after an error message leaves the manager as it is; an exception of
`std::stoi` is caught by `catch (...)`. -/
def System.handleAddSpending (currentYear : Int) (manager : MemberManager) (input : String)
    (amount : ℚ) : MemberManager :=
  if input.data ≠ [] ∧ (input.data.head?.map isDigit = some true) then
    match stoi input.data with
    | Except.error _ => manager
    | Except.ok id =>
      if ¬ Utils.isInRange id 1 999999 then manager
      else if ¬ manager.members.any (fun member => decide (member.id = id)) then manager
      else manager.addSpending currentYear id amount
  else
    if ¬ Utils.isValidPhoneNumber input then manager
    else
      let id := manager.getMemberIdByPhone input
      if id = -1 then manager
      else manager.addSpending currentYear id amount

/-! ## History view (src/Member.cpp) -/

/-- A registry in which the digits of one member's phone, read as a number, are the id of
another member. -/
def crossRegistry : MemberManager :=
  { members := [{ baseMember with id := 1, phone := "0000002" },
                { goldMember with id := 2, phone := "13900000000" }],
    nextId := 3, pointsRule := 2 }

/-- The text whose lines are the given ones, each ended by a newline. -/
def joinLines (lines : List (List Char)) : List Char :=
  (lines.map (fun line => line ++ ['\n'])).flatten

/-- A text whose first field is not a number. -/
def badIdText : List Char :=
  "x,An,13800000001,1991-01-01,0,0,1,0,0,0\n".data

/-- A text whose first field is a number outside the range of `int`. -/
def hugeIdText : List Char :=
  "99999999999,An,13800000001,1991-01-01,0,0,1,0,0,0\n".data

/-- The amounts of the `addSpending` calls of a sequence, in call order. -/
def spendAmounts : List MemberOp → List ℚ
  | [] => []
  | .addSpending _ amount :: ops => amount :: spendAmounts ops
  | _ :: ops => spendAmounts ops

/-- Two lines that are equal, or that have 10 fields and differ at most in field 5 (lifetime
total) and field 6 (points), both fields holding values that convert without exception in
both lines. -/
def SameButSpendPoints (io : DoubleText) (line line' : List Char) : Prop :=
  line = line' ∨
  ∃ (d0 d1 d2 d3 d4 d5 d6 d7 d8 d9 e4 e5 : List Char),
    getlines ',' line = [d0, d1, d2, d3, d4, d5, d6, d7, d8, d9] ∧
    getlines ',' line' = [d0, d1, d2, d3, e4, e5, d6, d7, d8, d9] ∧
    parsed (io.stod d4) = true ∧ parsed (stoi d5) = true ∧
    parsed (io.stod e4) = true ∧ parsed (stoi e5) = true

/-- The value of a decimal digit character. -/
def digitOf (c : Char) : Int :=
  (c.toNat : Int) - 48

/-- The leap years of the claim: divisible by 4 and not by 100, or divisible by 400. -/
def isLeapYear (year : Int) : Prop :=
  (year % 4 = 0 ∧ year % 100 ≠ 0) ∨ year % 400 = 0

instance (year : Int) : Decidable (isLeapYear year) := by
  unfold isLeapYear
  infer_instance

/-- The number of days of a month, as the claim states it: February has 29 days in a leap
year and 28 otherwise; April, June, September and November have 30 days, the others 31. -/
def daysOfMonth (year month : Int) : Int :=
  if month = 2 then (if isLeapYear year then 29 else 28)
  else if month = 4 ∨ month = 6 ∨ month = 9 ∨ month = 11 then 30
  else 31

/-- The date `year-month-day` is not later than the date `cy-cm-cd`. -/
def notLater (year month day cy cm cd : Int) : Prop :=
  year < cy ∨ (year = cy ∧ month < cm) ∨ (year = cy ∧ month = cm ∧ day ≤ cd)

/-- The valid birthdays of the claim, for today's date `cy-cm-cd`: a text `YYYY-MM-DD` of
decimal digits with year in 1900..2100, month in 1..12, day in 1..days of the month, and not
later than today. -/
def BirthdaySpec (cy cm cd : Int) (b : List Char) : Prop :=
  ∃ y1 y2 y3 y4 m1 m2 d1 d2 : Char,
    b = [y1, y2, y3, y4, '-', m1, m2, '-', d1, d2] ∧
    isDigit y1 = true ∧ isDigit y2 = true ∧ isDigit y3 = true ∧ isDigit y4 = true ∧
    isDigit m1 = true ∧ isDigit m2 = true ∧ isDigit d1 = true ∧ isDigit d2 = true ∧
    1900 ≤ 1000 * digitOf y1 + 100 * digitOf y2 + 10 * digitOf y3 + digitOf y4 ∧
    1000 * digitOf y1 + 100 * digitOf y2 + 10 * digitOf y3 + digitOf y4 ≤ 2100 ∧
    1 ≤ 10 * digitOf m1 + digitOf m2 ∧ 10 * digitOf m1 + digitOf m2 ≤ 12 ∧
    1 ≤ 10 * digitOf d1 + digitOf d2 ∧
    10 * digitOf d1 + digitOf d2 ≤
      daysOfMonth (1000 * digitOf y1 + 100 * digitOf y2 + 10 * digitOf y3 + digitOf y4)
        (10 * digitOf m1 + digitOf m2) ∧
    notLater (1000 * digitOf y1 + 100 * digitOf y2 + 10 * digitOf y3 + digitOf y4)
      (10 * digitOf m1 + digitOf m2) (10 * digitOf d1 + digitOf d2) cy cm cd

/-! ## The range of the id counter -/

/-- The id counter stays in the range of `int` during the operation: `nextId++` in `addMember`
needs `nextId` below 2147483647, and `id + 1` in `loadFromFile` needs every id read from a
10-field line below 2147483647.  The other functions do not compute on the counter. -/
def Op.counterFits (s : MemberManager) : Op → Bool
  | .addMember _ _ _ => decide (s.nextId < 2147483647)
  | .loadFromFile _ (some text) => (textIds text).all (fun i => decide (i < 2147483647))
  | _ => true

/-- The id counter stays in the range of `int` during every operation of the sequence, run
from `s`. -/
def MemberManager.countersFit (s : MemberManager) : List Op → Bool
  | [] => true
  | op :: ops =>
    op.counterFits s &&
      match s.run op with
      | Except.ok s1 => s1.countersFit ops
      | Except.error _ => true

/-- A text with one record, of id 2147483646. -/
def lastIdText : List Char :=
  "2147483646,Wu,13900000000,1985-01-02,0,0,1,0,0,0\n".data

/-- The registry restored from `lastIdText`: one account of id 2147483646, and `nextId` is
2147483647, the largest `int`. -/
def lastIdRegistry : MemberManager :=
  { members := [Member.ctor 2147483646 "Wu" "13900000000" "1985-01-02" 1 0 Level.NORMAL 0],
    nextId := 2147483647, pointsRule := 1 }

/-! ## Values of `double` that are not numbers -/

theorem truncToInt_of_nonneg (x : ℚ) (h : 0 ≤ x) : truncToInt x = ⌊x⌋ := by
  unfold truncToInt
  rw [Rat.floor_def, Int.tdiv_eq_ediv (Rat.num_nonneg.mpr h) (by positivity)]

theorem truncToInt_neg (x : ℚ) : truncToInt (-x) = -truncToInt x := by
  unfold truncToInt
  rw [Rat.neg_num, Rat.neg_den, Int.neg_tdiv]

theorem truncToInt_of_nonpos (x : ℚ) (h : x ≤ 0) : truncToInt x = ⌈x⌉ := by
  have h1 : truncToInt (-x) = ⌊-x⌋ := truncToInt_of_nonneg (-x) (by linarith)
  rw [truncToInt_neg, Int.floor_neg] at h1
  linarith

theorem truncToInt_nonneg (x : ℚ) (h : 0 ≤ x) : 0 ≤ truncToInt x := by
  rw [truncToInt_of_nonneg x h]
  exact Int.floor_nonneg.mpr h

theorem roundDouble_nonneg (x : ℚ) (h : 0 ≤ x) : 0 ≤ roundDouble x := by
  have hn : ¬ x.num < 0 := not_lt.mpr (Rat.num_nonneg.mpr h)
  unfold roundDouble
  simp only [hn, if_false]
  split_ifs <;> positivity

theorem roundDouble_neg (x : ℚ) : roundDouble (-x) = -roundDouble x := by
  unfold roundDouble
  by_cases h0 : x.num = 0
  · simp [h0]
  · have hneg : (-x).num = -x.num := Rat.neg_num x
    have hden : (-x).den = x.den := Rat.neg_den x
    rw [hneg, hden, Int.natAbs_neg]
    have h1 : ¬ -x.num = 0 := by omega
    rw [if_neg h0, if_neg h1]
    by_cases hlt : x.num < 0
    · have hgt : ¬ -x.num < 0 := by omega
      simp only [hlt, hgt, if_true, if_false, neg_neg]
    · have hgt : -x.num < 0 := by omega
      simp only [hlt, hgt, if_true, if_false]

theorem log2Floor_spec (fuel n : Nat) (hn : 0 < n) (hf : n ≤ fuel) :
    2 ^ log2Floor fuel n ≤ n ∧ n < 2 ^ (log2Floor fuel n + 1) := by
  induction fuel generalizing n with
  | zero => omega
  | succ fuel ih =>
    unfold log2Floor
    by_cases h2 : n < 2
    · rw [if_pos h2]
      constructor <;> simp <;> omega
    · rw [if_neg h2]
      obtain ⟨h1, h3⟩ := ih (n / 2) (by omega) (by omega)
      constructor
      · rw [pow_succ]
        omega
      · rw [pow_succ]
        omega

theorem roundHalfEven_one (n : Nat) : roundHalfEven n 1 = n := by
  unfold roundHalfEven
  simp [Nat.mod_one]

theorem roundDouble_natCast (a : Nat) (h : a ≤ 2 ^ 53) : roundDouble (a : ℚ) = (a : ℚ) := by
  by_cases h0 : a = 0
  · subst h0
    rfl
  have hpos : 0 < a := Nat.pos_of_ne_zero h0
  obtain ⟨h1, h2⟩ := log2Floor_spec a a hpos (le_refl a)
  have hL : log2Floor a a ≤ 53 := by
    by_contra hc
    have : 2 ^ 54 ≤ 2 ^ log2Floor a a := Nat.pow_le_pow_right (by norm_num) (by omega)
    omega
  have hone : log2Floor 1 1 = 0 := rfl
  unfold roundDouble
  have hnum : (a : ℚ).num = (a : Int) := Rat.num_natCast a
  have hden : (a : ℚ).den = 1 := Rat.den_natCast a
  rw [hnum, hden]
  have hne : ¬ (a : Int) = 0 := by exact_mod_cast h0
  have hnn : ¬ (a : Int) < 0 := by omega
  rw [if_neg hne, if_neg hnn, Int.natAbs_ofNat]
  have hexp : binaryExponent a 1 = (log2Floor a a : Int) := by
    unfold binaryExponent
    rw [hone]
    simp only [Nat.cast_zero, sub_zero, Nat.cast_nonneg, if_true, Int.toNat_ofNat, one_mul]
    rw [if_pos h1]
  rw [hexp]
  have hmax : max (log2Floor a a : Int) (-1022) = (log2Floor a a : Int) := by omega
  rw [hmax]
  by_cases hs : (0 : Int) ≤ (log2Floor a a : Int) - 52
  · rw [if_pos hs]
    have hcases : log2Floor a a = 52 ∨ log2Floor a a = 53 := by omega
    rcases hcases with h52 | h53
    · rw [h52]
      norm_num [roundHalfEven_one]
    · rw [h53] at h1 ⊢
      have ha : a = 2 ^ 53 := by omega
      subst ha
      with_unfolding_all rfl
  · rw [if_neg hs, roundHalfEven_one]
    push_cast
    rw [mul_div_assoc, div_self (by positivity), mul_one]

/-- The conversion of an `int` to `double` is exact: every integer of absolute value up to
`2 ^ 53` is a double. -/
theorem roundDouble_intCast (v : Int) (h : v.natAbs ≤ 2 ^ 53) : roundDouble (v : ℚ) = (v : ℚ) := by
  obtain ⟨n, rfl | rfl⟩ := Int.eq_nat_or_neg v
  · have hn : n ≤ 2 ^ 53 := by simpa using h
    exact_mod_cast roundDouble_natCast n hn
  · have hn : n ≤ 2 ^ 53 := by simpa using h
    have := roundDouble_natCast n hn
    push_cast
    rw [roundDouble_neg, this]

theorem isDouble_int32 (v : Int) (h : int32 v) : isDouble (v : ℚ) := by
  obtain ⟨h1, h2⟩ := h
  refine ⟨roundDouble_intCast v (by omega), ?_, ?_⟩
  · have : (-2147483648 : ℚ) ≤ (v : ℚ) := by exact_mod_cast h1
    unfold doubleLimit
    norm_num
    linarith
  · have : (v : ℚ) ≤ 2147483647 := by exact_mod_cast h2
    unfold doubleLimit
    norm_num
    linarith

theorem roundHalfEven_exact (m b : Nat) (hb : 0 < b) : roundHalfEven (m * b) b = m := by
  unfold roundHalfEven
  have h1 : m * b / b = m := Nat.mul_div_cancel m hb
  have h2 : m * b % b = 0 := Nat.mul_mod_left m b
  simp only [h1, h2, Nat.mul_zero]
  rw [if_neg (by omega), if_pos hb]

theorem roundHalfEven_ge (lo a b : Nat) (hb : 0 < b) (h : lo * b ≤ a) :
    lo ≤ roundHalfEven a b := by
  have hq : lo ≤ a / b := (Nat.le_div_iff_mul_le hb).mpr h
  unfold roundHalfEven
  simp only []
  split_ifs <;> omega

theorem roundHalfEven_le (hi a b : Nat) (hb : 0 < b) (h : a ≤ hi * b) :
    roundHalfEven a b ≤ hi := by
  have hq : a / b ≤ hi := by
    calc a / b ≤ hi * b / b := Nat.div_le_div_right h
      _ = hi := Nat.mul_div_cancel hi hb
  rcases Nat.lt_or_eq_of_le hq with hlt | heq
  · unfold roundHalfEven
    simp only []
    split_ifs <;> omega
  · have hmul : a / b * b ≤ a := Nat.div_mul_le_self a b
    rw [heq] at hmul
    have ha : a = hi * b := le_antisymm h hmul
    rw [ha, roundHalfEven_exact hi b hb]


theorem binaryExponent_test (n d : Nat) (hd : 0 < d) (k : Int) :
    (if 0 ≤ k then (if d * 2 ^ k.toNat ≤ n then k else k - 1)
      else (if d ≤ n * 2 ^ (-k).toNat then k else k - 1)) =
    if (2 : ℚ) ^ k ≤ (n : ℚ) / d then k else k - 1 := by
  have hdq : (0 : ℚ) < d := by exact_mod_cast hd
  by_cases hk : 0 ≤ k
  · rw [if_pos hk]
    obtain ⟨j, rfl⟩ := Int.eq_ofNat_of_zero_le hk
    have hiff : d * 2 ^ j ≤ n ↔ (2 : ℚ) ^ (j : Int) ≤ (n : ℚ) / d := by
      rw [zpow_natCast, le_div_iff₀ hdq]
      constructor
      · intro h
        have : ((d * 2 ^ j : Nat) : ℚ) ≤ (n : ℚ) := by exact_mod_cast h
        push_cast at this
        linarith
      · intro h
        have : ((d * 2 ^ j : Nat) : ℚ) ≤ (n : ℚ) := by
          push_cast
          linarith
        exact_mod_cast this
    simp only [Int.toNat_ofNat]
    by_cases hc : d * 2 ^ j ≤ n
    · rw [if_pos hc, if_pos (hiff.mp hc)]
    · rw [if_neg hc, if_neg (fun h => hc (hiff.mpr h))]
  · rw [if_neg hk]
    obtain ⟨j, hj⟩ := Int.eq_ofNat_of_zero_le (by omega : 0 ≤ -k)
    have hkj : k = -(j : Int) := by omega
    rw [hj, Int.toNat_ofNat]
    have hiff : d ≤ n * 2 ^ j ↔ (2 : ℚ) ^ k ≤ (n : ℚ) / d := by
      rw [hkj, zpow_neg, zpow_natCast, le_div_iff₀ hdq]
      have h2 : (0 : ℚ) < 2 ^ j := by positivity
      rw [inv_mul_le_iff₀ h2]
      constructor
      · intro h
        have : ((d : Nat) : ℚ) ≤ ((n * 2 ^ j : Nat) : ℚ) := by exact_mod_cast h
        push_cast at this
        linarith
      · intro h
        have : ((d : Nat) : ℚ) ≤ ((n * 2 ^ j : Nat) : ℚ) := by
          push_cast
          linarith
        exact_mod_cast this
    by_cases hc : d ≤ n * 2 ^ j
    · rw [if_pos hc, if_pos (hiff.mp hc)]
    · rw [if_neg hc, if_neg (fun h => hc (hiff.mpr h))]

theorem binaryExponent_spec (n d : Nat) (hn : 0 < n) (hd : 0 < d) :
    (2 : ℚ) ^ binaryExponent n d ≤ (n : ℚ) / d ∧
    (n : ℚ) / d < (2 : ℚ) ^ (binaryExponent n d + 1) := by
  have hdq : (0 : ℚ) < d := by exact_mod_cast hd
  obtain ⟨n1, n2⟩ := log2Floor_spec n n hn (le_refl n)
  obtain ⟨d1, d2⟩ := log2Floor_spec d d hd (le_refl d)
  have hn1 : (2 : ℚ) ^ (log2Floor n n : Int) ≤ n := by
    rw [zpow_natCast]; exact_mod_cast n1
  have hn2 : (n : ℚ) < (2 : ℚ) ^ ((log2Floor n n : Int) + 1) := by
    have : (n : ℚ) < ((2 ^ (log2Floor n n + 1) : Nat) : ℚ) := by exact_mod_cast n2
    rw [show ((log2Floor n n : Int) + 1) = ((log2Floor n n + 1 : Nat) : Int) by push_cast; rfl,
      zpow_natCast]
    exact_mod_cast this
  have hd1 : (2 : ℚ) ^ (log2Floor d d : Int) ≤ d := by
    rw [zpow_natCast]; exact_mod_cast d1
  have hd2 : (d : ℚ) < (2 : ℚ) ^ ((log2Floor d d : Int) + 1) := by
    have : (d : ℚ) < ((2 ^ (log2Floor d d + 1) : Nat) : ℚ) := by exact_mod_cast d2
    rw [show ((log2Floor d d : Int) + 1) = ((log2Floor d d + 1 : Nat) : Int) by push_cast; rfl,
      zpow_natCast]
    exact_mod_cast this
  have hexp : binaryExponent n d =
      if (2 : ℚ) ^ ((log2Floor n n : Int) - (log2Floor d d : Int)) ≤ (n : ℚ) / d
        then (log2Floor n n : Int) - (log2Floor d d : Int)
        else (log2Floor n n : Int) - (log2Floor d d : Int) - 1 := by
    unfold binaryExponent
    exact binaryExponent_test n d hd _
  have h2pos : ∀ j : Int, (0 : ℚ) < (2 : ℚ) ^ j := fun j => zpow_pos (by norm_num) j
  -- the quotient lies strictly between 2^(k-1) and 2^(k+1)
  have hlo : (2 : ℚ) ^ ((log2Floor n n : Int) - (log2Floor d d : Int) - 1) < (n : ℚ) / d := by
    rw [lt_div_iff₀ hdq]
    have e1 : (2 : ℚ) ^ ((log2Floor n n : Int) - (log2Floor d d : Int) - 1) *
        (2 : ℚ) ^ ((log2Floor d d : Int) + 1) = (2 : ℚ) ^ (log2Floor n n : Int) := by
      rw [← zpow_add₀ (by norm_num : (2 : ℚ) ≠ 0)]
      congr 1
      ring
    calc (2 : ℚ) ^ ((log2Floor n n : Int) - (log2Floor d d : Int) - 1) * d
        < (2 : ℚ) ^ ((log2Floor n n : Int) - (log2Floor d d : Int) - 1) *
            (2 : ℚ) ^ ((log2Floor d d : Int) + 1) :=
          mul_lt_mul_of_pos_left hd2 (h2pos _)
      _ = (2 : ℚ) ^ (log2Floor n n : Int) := e1
      _ ≤ n := hn1
  have hhi : (n : ℚ) / d < (2 : ℚ) ^ ((log2Floor n n : Int) - (log2Floor d d : Int) + 1) := by
    rw [div_lt_iff₀ hdq]
    have e1 : (2 : ℚ) ^ ((log2Floor n n : Int) - (log2Floor d d : Int) + 1) *
        (2 : ℚ) ^ (log2Floor d d : Int) = (2 : ℚ) ^ ((log2Floor n n : Int) + 1) := by
      rw [← zpow_add₀ (by norm_num : (2 : ℚ) ≠ 0)]
      congr 1
      ring
    calc (n : ℚ) < (2 : ℚ) ^ ((log2Floor n n : Int) + 1) := hn2
      _ = (2 : ℚ) ^ ((log2Floor n n : Int) - (log2Floor d d : Int) + 1) *
            (2 : ℚ) ^ (log2Floor d d : Int) := e1.symm
      _ ≤ (2 : ℚ) ^ ((log2Floor n n : Int) - (log2Floor d d : Int) + 1) * d :=
          mul_le_mul_of_nonneg_left hd1 (le_of_lt (h2pos _))
  rw [hexp]
  split_ifs with hc
  · exact ⟨hc, hhi⟩
  · refine ⟨le_of_lt hlo, ?_⟩
    rw [sub_add_cancel]
    exact not_le.mp hc


/-- A positive fraction is its numerator's absolute value over its denominator. -/
theorem pos_eq_natAbs_div (x : ℚ) (hx : 0 < x) : ((x.num.natAbs : Nat) : ℚ) / (x.den : ℚ) = x := by
  have hnum : (0 : Int) < x.num := Rat.num_pos.mpr hx
  have h2 : ((x.num.natAbs : Nat) : ℚ) = (x.num : ℚ) := by
    rw [Nat.cast_natAbs, abs_of_pos hnum]
  rw [h2]
  exact Rat.num_div_den x

theorem exponent_unique (q : ℚ) (e e' : Int) (h1 : (2 : ℚ) ^ e ≤ q) (h2 : q < (2 : ℚ) ^ (e + 1))
    (h1' : (2 : ℚ) ^ e' ≤ q) (h2' : q < (2 : ℚ) ^ (e' + 1)) : e = e' := by
  have a : e < e' + 1 :=
    (zpow_lt_zpow_iff_right₀ (by norm_num : (1 : ℚ) < 2)).mp (lt_of_le_of_lt h1 h2')
  have b : e' < e + 1 :=
    (zpow_lt_zpow_iff_right₀ (by norm_num : (1 : ℚ) < 2)).mp (lt_of_le_of_lt h1' h2)
  omega

theorem binaryExponent_eq (x : ℚ) (hx : 0 < x) (e : Int) (h1 : (2 : ℚ) ^ e ≤ x)
    (h2 : x < (2 : ℚ) ^ (e + 1)) : binaryExponent x.num.natAbs x.den = e := by
  have hnum : (0 : Int) < x.num := Rat.num_pos.mpr hx
  have hn : 0 < x.num.natAbs := Int.natAbs_pos.mpr (by omega)
  obtain ⟨s1, s2⟩ := binaryExponent_spec x.num.natAbs x.den hn x.den_pos
  rw [pos_eq_natAbs_div x hx] at s1 s2
  exact exponent_unique x _ _ s1 s2 h1 h2

/-- The rounding of a positive value: an integer nearest to `x / 2 ^ s`, times `2 ^ s`, where
`s` is 52 below the binary exponent of `x`, and at least -1074. -/
theorem roundDouble_pos (x : ℚ) (hx : 0 < x) :
    ∃ a b : Nat, 0 < b ∧
      (a : ℚ) / b = x / (2 : ℚ) ^ (max (binaryExponent x.num.natAbs x.den) (-1022) - 52) ∧
      roundDouble x = (roundHalfEven a b : ℚ) *
        (2 : ℚ) ^ (max (binaryExponent x.num.natAbs x.den) (-1022) - 52) := by
  have hnum : (0 : Int) < x.num := Rat.num_pos.mpr hx
  have hx' := pos_eq_natAbs_div x hx
  have hdq : (0 : ℚ) < x.den := by exact_mod_cast x.den_pos
  unfold roundDouble
  rw [if_neg (by omega), if_neg (by omega)]
  generalize max (binaryExponent x.num.natAbs x.den) (-1022) - 52 = s
  by_cases hs : 0 ≤ s
  · rw [if_pos hs]
    obtain ⟨j, rfl⟩ := Int.eq_ofNat_of_zero_le hs
    simp only [Int.toNat_ofNat, zpow_natCast]
    refine ⟨x.num.natAbs, x.den * 2 ^ j, by positivity, ?_, ?_⟩
    · push_cast
      rw [← div_div, hx']
    · push_cast
      rfl
  · rw [if_neg hs]
    obtain ⟨j, hj⟩ := Int.eq_ofNat_of_zero_le (by omega : 0 ≤ -s)
    have hsj : s = -(j : Int) := by omega
    rw [hj, Int.toNat_ofNat, hsj, zpow_neg, zpow_natCast]
    refine ⟨x.num.natAbs * 2 ^ j, x.den, x.den_pos, ?_, ?_⟩
    · push_cast
      rw [div_inv_eq_mul, mul_div_right_comm, hx']
    · push_cast
      rw [div_eq_mul_inv]


theorem roundHalfEven_of_ratio (a b m : Nat) (hb : 0 < b) (h : (a : ℚ) / b = m) :
    roundHalfEven a b = m := by
  have hbq : (0 : ℚ) < b := by exact_mod_cast hb
  have h1 : (a : ℚ) = ((m * b : Nat) : ℚ) := by
    push_cast
    rw [← h, div_mul_cancel₀ _ (ne_of_gt hbq)]
  have h2 : a = m * b := by exact_mod_cast h1
  rw [h2, roundHalfEven_exact m b hb]

/-- A positive value that is an integer multiple of the unit of its own binade is a fixed point
of the rounding. -/
theorem roundDouble_of_form (y : ℚ) (hy : 0 < y) (m : Nat)
    (h : y = (m : ℚ) * (2 : ℚ) ^ (max (binaryExponent y.num.natAbs y.den) (-1022) - 52)) :
    roundDouble y = y := by
  obtain ⟨a, b, hb, hab, hr⟩ := roundDouble_pos y hy
  have h2ne : (2 : ℚ) ^ (max (binaryExponent y.num.natAbs y.den) (-1022) - 52) ≠ 0 :=
    zpow_ne_zero _ (by norm_num)
  have hq : (a : ℚ) / b = m := by
    rw [hab]
    nth_rewrite 1 [h]
    rw [mul_div_assoc, div_self h2ne, mul_one]
  rw [hr, roundHalfEven_of_ratio a b m hb hq]
  exact h.symm

theorem two_zpow_pos (j : Int) : (0 : ℚ) < (2 : ℚ) ^ j :=
  zpow_pos (by norm_num) j

theorem two_zpow_split (e : Int) (k : Nat) :
    ((2 ^ k : Nat) : ℚ) * (2 : ℚ) ^ (e - k) = (2 : ℚ) ^ e := by
  push_cast
  rw [← zpow_natCast, ← zpow_add₀ (by norm_num : (2 : ℚ) ≠ 0)]
  congr 1
  ring

theorem roundDouble_idem_pos (x : ℚ) (hx : 0 < x) : roundDouble (roundDouble x) = roundDouble x := by
  obtain ⟨a, b, hb, hab, hr⟩ := roundDouble_pos x hx
  have hbq : (0 : ℚ) < b := by exact_mod_cast hb
  have hnum : (0 : Int) < x.num := Rat.num_pos.mpr hx
  have hn : 0 < x.num.natAbs := Int.natAbs_pos.mpr (by omega)
  obtain ⟨s1, s2⟩ := binaryExponent_spec x.num.natAbs x.den hn x.den_pos
  rw [pos_eq_natAbs_div x hx] at s1 s2
  generalize binaryExponent x.num.natAbs x.den = e0 at hab hr s1 s2
  by_cases hm0 : roundHalfEven a b = 0
  · rw [hr, hm0]
    simp [roundDouble]
  have hmpos : (0 : ℚ) < (roundHalfEven a b : ℚ) := by
    exact_mod_cast Nat.pos_of_ne_zero hm0
  by_cases hnorm : -1022 ≤ e0
  · have hmax : max e0 (-1022) = e0 := max_eq_left hnorm
    rw [hmax] at hab hr
    have hspos := two_zpow_pos (e0 - 52)
    -- 2^52 ≤ m ≤ 2^53
    have hlo : 2 ^ 52 ≤ roundHalfEven a b := by
      apply roundHalfEven_ge _ _ _ hb
      have : ((2 ^ 52 : Nat) : ℚ) * b ≤ a := by
        rw [← le_div_iff₀ hbq, hab, le_div_iff₀ hspos]
        have := two_zpow_split e0 52
        push_cast at this ⊢
        rw [this]
        exact s1
      exact_mod_cast this
    have hhi : roundHalfEven a b ≤ 2 ^ 53 := by
      apply roundHalfEven_le _ _ _ hb
      have : (a : ℚ) ≤ ((2 ^ 53 : Nat) : ℚ) * b := by
        rw [← div_le_iff₀ hbq, hab, div_le_iff₀ hspos]
        have h53 : ((2 ^ 53 : Nat) : ℚ) * (2 : ℚ) ^ (e0 - 52) = (2 : ℚ) ^ (e0 + 1) := by
          have := two_zpow_split (e0 + 1) 53
          rw [show e0 + 1 - ((53 : Nat) : Int) = e0 - 52 by push_cast; ring] at this
          exact this
        rw [h53]
        exact le_of_lt s2
      exact_mod_cast this
    have hylo : (2 : ℚ) ^ e0 ≤ roundDouble x := by
      rw [hr, ← two_zpow_split e0 52]
      apply mul_le_mul_of_nonneg_right _ (le_of_lt hspos)
      exact_mod_cast hlo
    by_cases h53 : roundHalfEven a b = 2 ^ 53
    · have hy : roundDouble x = (2 : ℚ) ^ (e0 + 1) := by
        rw [hr, h53]
        have := two_zpow_split (e0 + 1) 53
        rw [show e0 + 1 - ((53 : Nat) : Int) = e0 - 52 by push_cast; ring] at this
        exact this
      have hypos : 0 < roundDouble x := by rw [hy]; exact two_zpow_pos _
      have hexp : binaryExponent (roundDouble x).num.natAbs (roundDouble x).den = e0 + 1 := by
        apply binaryExponent_eq _ hypos
        · rw [hy]
        · rw [hy]
          exact zpow_lt_zpow_right₀ (by norm_num) (by omega)
      apply roundDouble_of_form _ hypos (2 ^ 52)
      rw [hexp, max_eq_left (by omega : (-1022 : Int) ≤ e0 + 1)]
      have := two_zpow_split (e0 + 1) 52
      rw [show e0 + 1 - ((52 : Nat) : Int) = e0 + 1 - 52 by push_cast; ring] at this
      rw [this]
      exact hy
    · have hlt : roundHalfEven a b < 2 ^ 53 := lt_of_le_of_ne hhi h53
      have hypos : 0 < roundDouble x := lt_of_lt_of_le (two_zpow_pos e0) hylo
      have hyhi : roundDouble x < (2 : ℚ) ^ (e0 + 1) := by
        have h53' : ((2 ^ 53 : Nat) : ℚ) * (2 : ℚ) ^ (e0 - 52) = (2 : ℚ) ^ (e0 + 1) := by
          have := two_zpow_split (e0 + 1) 53
          rw [show e0 + 1 - ((53 : Nat) : Int) = e0 - 52 by push_cast; ring] at this
          exact this
        rw [hr, ← h53']
        apply mul_lt_mul_of_pos_right _ hspos
        exact_mod_cast hlt
      have hexp : binaryExponent (roundDouble x).num.natAbs (roundDouble x).den = e0 :=
        binaryExponent_eq _ hypos e0 hylo hyhi
      apply roundDouble_of_form _ hypos (roundHalfEven a b)
      rw [hexp, hmax]
      exact hr
  · have hlt : e0 < -1022 := not_le.mp hnorm
    have hmax : max e0 (-1022) = -1022 := max_eq_right (le_of_lt hlt)
    rw [hmax] at hab hr
    have hspos := two_zpow_pos (-1022 - 52)
    have hxhi : x < (2 : ℚ) ^ (-1022 : Int) :=
      lt_of_lt_of_le s2 (zpow_le_zpow_right₀ (by norm_num) (by omega))
    have hhi : roundHalfEven a b ≤ 2 ^ 52 := by
      apply roundHalfEven_le _ _ _ hb
      have : (a : ℚ) ≤ ((2 ^ 52 : Nat) : ℚ) * b := by
        rw [← div_le_iff₀ hbq, hab, div_le_iff₀ hspos]
        have := two_zpow_split (-1022) 52
        push_cast at this ⊢
        rw [this]
        exact le_of_lt hxhi
      exact_mod_cast this
    have hypos : 0 < roundDouble x := by
      rw [hr]
      exact mul_pos hmpos hspos
    have hyhi : roundDouble x ≤ (2 : ℚ) ^ (-1022 : Int) := by
      rw [hr, ← two_zpow_split (-1022) 52]
      apply mul_le_mul_of_nonneg_right _ (le_of_lt hspos)
      exact_mod_cast hhi
    have hynum : (0 : Int) < (roundDouble x).num := Rat.num_pos.mpr hypos
    have hyn : 0 < (roundDouble x).num.natAbs := Int.natAbs_pos.mpr (by omega)
    obtain ⟨t1, _⟩ := binaryExponent_spec (roundDouble x).num.natAbs (roundDouble x).den hyn
      (roundDouble x).den_pos
    rw [pos_eq_natAbs_div _ hypos] at t1
    have hexp : binaryExponent (roundDouble x).num.natAbs (roundDouble x).den ≤ -1022 :=
      (zpow_le_zpow_iff_right₀ (by norm_num : (1 : ℚ) < 2)).mp (le_trans t1 hyhi)
    apply roundDouble_of_form _ hypos (roundHalfEven a b)
    rw [max_eq_right hexp]
    exact hr

/-- The rounding is idempotent: a rounded value is a double. -/
theorem roundDouble_idem (x : ℚ) : roundDouble (roundDouble x) = roundDouble x := by
  rcases lt_trichotomy x 0 with h | h | h
  · have h1 := roundDouble_idem_pos (-x) (by linarith)
    have h2 : roundDouble x = -roundDouble (-x) := by
      rw [← roundDouble_neg, neg_neg]
    rw [h2, roundDouble_neg, h1]
  · subst h
    simp [roundDouble]
  · exact roundDouble_idem_pos x h


theorem roundHalfEven_error (a b : Nat) (hb : 0 < b) :
    |(roundHalfEven a b : ℚ) - (a : ℚ) / b| ≤ 1 / 2 := by
  have hbq : (0 : ℚ) < b := by exact_mod_cast hb
  have hdiv : (a : ℚ) = ((a / b : Nat) : ℚ) * b + ((a % b : Nat) : ℚ) := by
    have h2 : ((b * (a / b) + a % b : Nat) : ℚ) = (a : ℚ) := by rw [Nat.div_add_mod]
    push_cast at h2
    linarith
  have hr : a % b < b := Nat.mod_lt a hb
  have hrq : ((a % b : Nat) : ℚ) < b := by exact_mod_cast hr
  have hr0 : (0 : ℚ) ≤ ((a % b : Nat) : ℚ) := by positivity
  have hquot : (a : ℚ) / b = ((a / b : Nat) : ℚ) + ((a % b : Nat) : ℚ) / b := by
    rw [div_eq_iff (ne_of_gt hbq), add_mul, div_mul_cancel₀ _ (ne_of_gt hbq)]
    exact hdiv
  rw [hquot, abs_le]
  unfold roundHalfEven
  simp only []
  split_ifs with h1 h2 h3
  · have h1q : (b : ℚ) < 2 * ((a % b : Nat) : ℚ) := by exact_mod_cast h1
    have e1 : ((a % b : Nat) : ℚ) / b ≤ 1 := by rw [div_le_one hbq]; linarith
    have e2 : (1 : ℚ) / 2 < ((a % b : Nat) : ℚ) / b := by rw [lt_div_iff₀ hbq]; linarith
    push_cast
    constructor <;> linarith
  · have h2q : 2 * ((a % b : Nat) : ℚ) < b := by exact_mod_cast h2
    have e1 : (0 : ℚ) ≤ ((a % b : Nat) : ℚ) / b := by positivity
    have e2 : ((a % b : Nat) : ℚ) / b < 1 / 2 := by rw [div_lt_iff₀ hbq]; linarith
    constructor <;> linarith
  · have heq : 2 * (a % b) = b := by omega
    have hq : 2 * ((a % b : Nat) : ℚ) = b := by exact_mod_cast heq
    have e2 : ((a % b : Nat) : ℚ) / b = 1 / 2 := by rw [div_eq_iff (ne_of_gt hbq)]; linarith
    constructor <;> linarith
  · have heq : 2 * (a % b) = b := by omega
    have hq : 2 * ((a % b : Nat) : ℚ) = b := by exact_mod_cast heq
    have e2 : ((a % b : Nat) : ℚ) / b = 1 / 2 := by rw [div_eq_iff (ne_of_gt hbq)]; linarith
    push_cast
    constructor <;> linarith

/-- The rounding of a positive value is off by at most half a unit of its binade: it is a
nearest double. -/
theorem roundDouble_error (x : ℚ) (hx : 0 < x) :
    |roundDouble x - x| ≤
      (2 : ℚ) ^ (max (binaryExponent x.num.natAbs x.den) (-1022) - 52) / 2 := by
  obtain ⟨a, b, hb, hab, hr⟩ := roundDouble_pos x hx
  generalize max (binaryExponent x.num.natAbs x.den) (-1022) - 52 = s at hab hr ⊢
  have hs := two_zpow_pos s
  have herr := roundHalfEven_error a b hb
  rw [hab] at herr
  have hx' : roundDouble x - x = ((roundHalfEven a b : ℚ) - x / (2 : ℚ) ^ s) * (2 : ℚ) ^ s := by
    rw [sub_mul, div_mul_cancel₀ _ (ne_of_gt hs), hr]
  rw [hx', abs_mul, abs_of_pos hs]
  calc |(roundHalfEven a b : ℚ) - x / (2 : ℚ) ^ s| * (2 : ℚ) ^ s
      ≤ 1 / 2 * (2 : ℚ) ^ s := mul_le_mul_of_nonneg_right herr (le_of_lt hs)
    _ = (2 : ℚ) ^ s / 2 := by ring

/-- Known values of the rounding: the double nearest to 0.1, the double sum `0.1 + 0.2`, the
tie `2 ^ 53 + 1` (to the even `2 ^ 53`), the tie `2 ^ 53 + 3` (to the even `2 ^ 53 + 4`), and
the points of an amount 0.29 at rate 1.0 and points rate 100, which are 28. -/
theorem roundDouble_values :
    roundDouble (1 / 10) = 3602879701896397 / 36028797018963968 ∧
    doubleAdd (roundDouble (1 / 10)) (roundDouble (2 / 10)) =
      1351079888211149 / 4503599627370496 ∧
    roundDouble 9007199254740993 = 9007199254740992 ∧
    roundDouble 9007199254740995 = 9007199254740996 ∧
    truncToInt (doubleMul (doubleMul (roundDouble (29 / 100)) 1) ((100 : Int) : ℚ)) = 28 :=
  ⟨by with_unfolding_all rfl, by with_unfolding_all rfl, by with_unfolding_all rfl,
    by with_unfolding_all rfl, by with_unfolding_all rfl⟩

/-- The four rates, as fractions: the doubles nearest to 0.8, 0.9 and 0.95, and 1. -/
theorem discountRateOf_values :
    discountRateOf Level.DIAMOND = 3602879701896397 / 4503599627370496 ∧
    discountRateOf Level.GOLD = 8106479329266893 / 9007199254740992 ∧
    discountRateOf Level.SILVER = 4278419646001971 / 4503599627370496 ∧
    discountRateOf Level.NORMAL = 1 :=
  ⟨by with_unfolding_all rfl, by with_unfolding_all rfl, by with_unfolding_all rfl, rfl⟩

theorem discountRateOf_pos (l : Level) : 0 < discountRateOf l := by
  obtain ⟨h1, h2, h3, h4⟩ := discountRateOf_values
  cases l
  · rw [h4]; norm_num
  · rw [h3]; norm_num
  · rw [h2]; norm_num
  · rw [h1]; norm_num

theorem levelOf_mono {s1 s2 : ℚ} (h : s1 ≤ s2) : levelOf s1 ≤ levelOf s2 := by
  show (levelOf s1).toInt ≤ (levelOf s2).toInt
  unfold levelOf
  split_ifs <;> simp only [Level.toInt] <;> first | omega | (exfalso; linarith)

/-! ## Lemmas on the registry functions -/

theorem updateFirst_forall (P : Member → Prop) (id : Int) (f : Member → Member)
    (hf : ∀ m, P m → P (f m)) (l : List Member) (hl : ∀ m ∈ l, P m) :
    ∀ m ∈ updateFirst id f l, P m := by
  induction l with
  | nil => simp [updateFirst]
  | cons a l ih =>
    have ha : P a := hl a (List.mem_cons_self a l)
    have hl' : ∀ m ∈ l, P m := fun m hm => hl m (List.mem_cons_of_mem a hm)
    unfold updateFirst
    split_ifs
    · intro m hm
      rcases List.mem_cons.mp hm with h | h
      · exact h ▸ hf a ha
      · exact hl' m h
    · intro m hm
      rcases List.mem_cons.mp hm with h | h
      · exact h ▸ ha
      · exact ih hl' m h

/-- What a successful `loadLine` does: nothing, or it appends one member built by the
constructor and `setPointsRule` from clamped values, and raises `nextId` above its id. -/
theorem loadLine_cases (io : DoubleText) (s s1 : MemberManager) (line : List Char)
    (h : loadLine io s line = Except.ok s1) :
    s1 = s ∨ ∃ (id : Int) (name phone birthday : String) (rule : Int) (annualSpent : ℚ)
      (level : Level) (lastYear : Int), 1 ≤ rule ∧ 0 ≤ annualSpent ∧ 0 ≤ lastYear ∧
      s1 = { members := s.members ++
               [(Member.ctor id name phone birthday rule annualSpent level lastYear).setPointsRule
                 rule],
             nextId := max s.nextId (id + 1), pointsRule := s.pointsRule } := by
  unfold loadLine at h
  split at h
  · simp only [bind, Except.bind, pure, Except.pure] at h
    repeat' split at h
    all_goals first
      | (injection h with h
         right
         refine ⟨_, _, _, _, _, _, _, _, ?_, ?_, ?_, h.symm⟩ <;> first | omega | linarith)
      | cases h
  · simp only [pure, Except.pure] at h
    injection h with h
    exact Or.inl h.symm

/-- A property that holds of every member which `loadLine` can build holds of all members
after `loadLine`. -/
theorem loadLine_forall (P : Member → Prop)
    (hnew : ∀ id name phone birthday rule annualSpent level lastYear,
      1 ≤ rule → 0 ≤ annualSpent → 0 ≤ lastYear →
      P ((Member.ctor id name phone birthday rule annualSpent level lastYear).setPointsRule rule))
    (io : DoubleText) (s s1 : MemberManager) (line : List Char)
    (hs : ∀ m ∈ s.members, P m) (h : loadLine io s line = Except.ok s1) :
    ∀ m ∈ s1.members, P m := by
  rcases loadLine_cases io s s1 line h with rfl | ⟨id, name, phone, birthday, rule, annualSpent,
    level, lastYear, h1, h2, h3, rfl⟩
  · exact hs
  · intro m hm
    rcases List.mem_append.mp hm with hm | hm
    · exact hs m hm
    · rw [List.mem_singleton] at hm
      subst hm
      exact hnew _ _ _ _ _ _ _ _ h1 h2 h3

theorem loadLine_pointsRule (io : DoubleText) (s s1 : MemberManager) (line : List Char)
    (h : loadLine io s line = Except.ok s1) : s1.pointsRule = s.pointsRule := by
  rcases loadLine_cases io s s1 line h with rfl | ⟨_, _, _, _, _, _, _, _, _, _, _, rfl⟩ <;> rfl

theorem loadLines_forall (P : Member → Prop)
    (hnew : ∀ id name phone birthday rule annualSpent level lastYear,
      1 ≤ rule → 0 ≤ annualSpent → 0 ≤ lastYear →
      P ((Member.ctor id name phone birthday rule annualSpent level lastYear).setPointsRule rule))
    (io : DoubleText) (lines : List (List Char)) (s s1 : MemberManager)
    (hs : ∀ m ∈ s.members, P m) (h : loadLines io s lines = Except.ok s1) :
    ∀ m ∈ s1.members, P m := by
  induction lines generalizing s with
  | nil =>
    simp only [loadLines, pure, Except.pure] at h
    injection h with h
    subst h
    exact hs
  | cons line lines ih =>
    unfold loadLines at h
    split at h
    · next s2 h2 => exact ih s2 (loadLine_forall P hnew io s s2 line hs h2) h
    · exact absurd h (by simp)

theorem loadLines_pointsRule (io : DoubleText) (lines : List (List Char))
    (s s1 : MemberManager) (h : loadLines io s lines = Except.ok s1) :
    s1.pointsRule = s.pointsRule := by
  induction lines generalizing s with
  | nil =>
    simp only [loadLines, pure, Except.pure] at h
    injection h with h
    subst h
    rfl
  | cons line lines ih =>
    unfold loadLines at h
    split at h
    · next s2 h2 => rw [ih s2 h, loadLine_pointsRule io s s2 line h2]
    · exact absurd h (by simp)

/-- A property of members kept by every member function and true of every freshly constructed
member is kept by every manager function. -/
theorem run_forall (P : Member → Prop)
    (hctor : ∀ id name phone birthday rule annualSpent level lastYear,
      P (Member.ctor id name phone birthday rule annualSpent level lastYear))
    (hspend : ∀ m currentYear amount, P m → P (m.addSpending currentYear amount))
    (hredeem : ∀ m n, P m → P (m.redeemPoints n))
    (hset : ∀ m rule, P m → P (m.setPointsRule rule))
    (s s1 : MemberManager) (op : Op)
    (hs : ∀ m ∈ s.members, P m) (h : s.run op = Except.ok s1) :
    ∀ m ∈ s1.members, P m := by
  cases op with
  | addMember name phone birthday =>
    simp only [MemberManager.run, pure, Except.pure] at h
    injection h with h
    subst h
    intro m hm
    rcases List.mem_append.mp hm with hm | hm
    · exact hs m hm
    · rw [List.mem_singleton] at hm
      subst hm
      exact hctor _ _ _ _ _ _ _ _
  | deleteMember memberId =>
    simp only [MemberManager.run, pure, Except.pure] at h
    injection h with h
    subst h
    intro m hm
    exact hs m (List.mem_of_mem_eraseP hm)
  | updateMemberPhone id newPhone =>
    simp only [MemberManager.run, pure, Except.pure] at h
    injection h with h
    subst h
    exact updateFirst_forall P id _ (fun _ _ => hctor _ _ _ _ _ _ _ _) s.members hs
  | addSpending currentYear id amount =>
    simp only [MemberManager.run, pure, Except.pure] at h
    injection h with h
    subst h
    exact updateFirst_forall P id _ (fun m hm => hspend m currentYear amount hm) s.members hs
  | redeemPoints id pointsToRedeem =>
    simp only [MemberManager.run, pure, Except.pure] at h
    injection h with h
    subst h
    exact updateFirst_forall P id _ (fun m hm => hredeem m pointsToRedeem hm) s.members hs
  | setPointsRule rule =>
    simp only [MemberManager.run, pure, Except.pure] at h
    injection h with h
    subst h
    intro m hm
    obtain ⟨a, ha, rfl⟩ := List.mem_map.mp hm
    exact hset a rule (hs a ha)
  | saveToFile io =>
    simp only [MemberManager.run, pure, Except.pure] at h
    injection h with h
    subst h
    exact hs
  | loadFromFile io file =>
    cases file with
    | none =>
      simp only [MemberManager.run, MemberManager.loadFromFile, pure, Except.pure] at h
      injection h with h
      subst h
      exact hs
    | some text =>
      simp only [MemberManager.run, MemberManager.loadFromFile] at h
      exact loadLines_forall P (fun _ _ _ _ _ _ _ _ _ _ _ => hset _ _ (hctor _ _ _ _ _ _ _ _))
        io _ _ s1 (by simp) h

theorem runAll_forall (P : Member → Prop)
    (hctor : ∀ id name phone birthday rule annualSpent level lastYear,
      P (Member.ctor id name phone birthday rule annualSpent level lastYear))
    (hspend : ∀ m currentYear amount, P m → P (m.addSpending currentYear amount))
    (hredeem : ∀ m n, P m → P (m.redeemPoints n))
    (hset : ∀ m rule, P m → P (m.setPointsRule rule))
    (ops : List Op) (s s1 : MemberManager)
    (hs : ∀ m ∈ s.members, P m) (h : s.runAll ops = Except.ok s1) :
    ∀ m ∈ s1.members, P m := by
  induction ops generalizing s with
  | nil =>
    simp only [MemberManager.runAll, pure, Except.pure] at h
    injection h with h
    subst h
    exact hs
  | cons op ops ih =>
    unfold MemberManager.runAll at h
    split at h
    · next s2 h2 => exact ih s2 (run_forall P hctor hspend hredeem hset s s2 op hs h2) h
    · exact absurd h (by simp)

theorem level_ctor (id : Int) (name phone birthday : String) (rule : Int) (annualSpent : ℚ)
    (level : Level) (lastYear : Int) :
    (Member.ctor id name phone birthday rule annualSpent level lastYear).currentLevel =
      levelOf (Member.ctor id name phone birthday rule annualSpent level lastYear).annualSpent :=
  rfl

theorem level_addSpending (m : Member) (currentYear : Int) (amount : ℚ) :
    (m.addSpending currentYear amount).currentLevel =
      levelOf (m.addSpending currentYear amount).annualSpent :=
  rfl

theorem level_redeemPoints (m : Member) (n : Int)
    (h : m.currentLevel = levelOf m.annualSpent) :
    (m.redeemPoints n).currentLevel = levelOf (m.redeemPoints n).annualSpent := by
  unfold Member.redeemPoints
  split_ifs <;> exact h

theorem level_setPointsRule (m : Member) (rule : Int)
    (h : m.currentLevel = levelOf m.annualSpent) :
    (m.setPointsRule rule).currentLevel = levelOf (m.setPointsRule rule).annualSpent := by
  unfold Member.setPointsRule
  split_ifs <;> exact h

theorem level_runAll (ops : List MemberOp) (m : Member)
    (h : m.currentLevel = levelOf m.annualSpent) :
    (m.runAll ops).currentLevel = levelOf (m.runAll ops).annualSpent := by
  induction ops generalizing m with
  | nil => exact h
  | cons op ops ih =>
    have h1 : (m.run op).currentLevel = levelOf (m.run op).annualSpent := by
      cases op with
      | addSpending currentYear amount => exact level_addSpending m currentYear amount
      | redeemPoints n => exact level_redeemPoints m n h
      | setPointsRule rule => exact level_setPointsRule m rule h
    exact ih (m.run op) h1

theorem balancesValid_addSpending (m : Member) (currentYear : Int) (amount : ℚ)
    (hpos : 0 < amount) (h : m.balancesValid) : (m.addSpending currentYear amount).balancesValid := by
  obtain ⟨h1, h2⟩ := h
  have hrate : (0 : ℚ) ≤ (m.pointsPerDollar : ℚ) := by exact_mod_cast (by omega : 0 ≤ m.pointsPerDollar)
  have hearn : ∀ l : Level,
      0 ≤ truncToInt (doubleMul (doubleMul amount (discountRateOf l)) (m.pointsPerDollar : ℚ)) :=
    fun l => truncToInt_nonneg _ (roundDouble_nonneg _ (mul_nonneg (roundDouble_nonneg _
      (mul_nonneg (le_of_lt hpos) (le_of_lt (discountRateOf_pos l)))) hrate))
  constructor
  · by_cases hy : m.lastYear = currentYear <;>
      simp [Member.addSpending, Member.determineLevel, hy, h1]
  · by_cases hy : m.lastYear = currentYear
    · have := hearn (levelOf (doubleAdd m.annualSpent amount))
      simp [Member.addSpending, Member.determineLevel, Member.getDiscountRate, hy]
      omega
    · have := hearn (levelOf (doubleAdd 0 amount))
      simp [Member.addSpending, Member.determineLevel, Member.getDiscountRate, hy]
      omega

theorem balancesValid_redeemPoints (m : Member) (n : Int) (h : m.balancesValid) :
    (m.redeemPoints n).balancesValid := by
  obtain ⟨h1, h2⟩ := h
  unfold Member.redeemPoints
  split_ifs with hc
  · exact ⟨h1, h2⟩
  · exact ⟨h1, by show 0 ≤ m.points - n; omega⟩

theorem balancesValid_setPointsRule (m : Member) (rule : Int) (h : m.balancesValid) :
    (m.setPointsRule rule).balancesValid := by
  obtain ⟨h1, h2⟩ := h
  unfold Member.setPointsRule
  split_ifs with hc
  · exact ⟨h1, h2⟩
  · exact ⟨by show 1 ≤ rule; omega, h2⟩

theorem balancesValid_ctor (id : Int) (name phone birthday : String) (rule : Int)
    (annualSpent : ℚ) (level : Level) (lastYear : Int) (h : 1 ≤ rule) :
    (Member.ctor id name phone birthday rule annualSpent level lastYear).balancesValid :=
  ⟨h, le_refl 0⟩

/-- With manager rules of at least 1 and positive purchase amounts, one manager function keeps
the default rate at least 1 and the balances of every account in their domain. -/
theorem run_balancesValid (s s1 : MemberManager) (op : Op)
    (hrule : op.validRule) (hamount : op.positiveAmount)
    (hd : 1 ≤ s.pointsRule) (hs : ∀ m ∈ s.members, m.balancesValid)
    (h : s.run op = Except.ok s1) :
    1 ≤ s1.pointsRule ∧ ∀ m ∈ s1.members, m.balancesValid := by
  cases op with
  | addMember name phone birthday =>
    simp only [MemberManager.run, pure, Except.pure] at h
    injection h with h
    subst h
    refine ⟨hd, ?_⟩
    intro m hm
    rcases List.mem_append.mp hm with hm | hm
    · exact hs m hm
    · rw [List.mem_singleton] at hm
      subst hm
      exact balancesValid_ctor _ _ _ _ _ _ _ _ hd
  | deleteMember memberId =>
    simp only [MemberManager.run, pure, Except.pure] at h
    injection h with h
    subst h
    exact ⟨hd, fun m hm => hs m (List.mem_of_mem_eraseP hm)⟩
  | updateMemberPhone id newPhone =>
    simp only [MemberManager.run, pure, Except.pure] at h
    injection h with h
    subst h
    exact ⟨hd, updateFirst_forall Member.balancesValid id _
      (fun m hm => balancesValid_ctor _ _ _ _ _ _ _ _ hm.1) s.members hs⟩
  | addSpending currentYear id amount =>
    simp only [MemberManager.run, pure, Except.pure] at h
    injection h with h
    subst h
    exact ⟨hd, updateFirst_forall Member.balancesValid id _
      (fun m hm => balancesValid_addSpending m currentYear amount hamount hm) s.members hs⟩
  | redeemPoints id pointsToRedeem =>
    simp only [MemberManager.run, pure, Except.pure] at h
    injection h with h
    subst h
    exact ⟨hd, updateFirst_forall Member.balancesValid id _
      (fun m hm => balancesValid_redeemPoints m pointsToRedeem hm) s.members hs⟩
  | setPointsRule rule =>
    simp only [MemberManager.run, pure, Except.pure] at h
    injection h with h
    subst h
    refine ⟨hrule, ?_⟩
    intro m hm
    obtain ⟨a, ha, rfl⟩ := List.mem_map.mp hm
    exact balancesValid_setPointsRule a rule (hs a ha)
  | saveToFile io =>
    simp only [MemberManager.run, pure, Except.pure] at h
    injection h with h
    subst h
    exact ⟨hd, hs⟩
  | loadFromFile io file =>
    cases file with
    | none =>
      simp only [MemberManager.run, MemberManager.loadFromFile, pure, Except.pure] at h
      injection h with h
      subst h
      exact ⟨hd, hs⟩
    | some text =>
      simp only [MemberManager.run, MemberManager.loadFromFile] at h
      refine ⟨?_, ?_⟩
      · rw [loadLines_pointsRule io _ _ s1 h]
        exact hd
      · exact loadLines_forall Member.balancesValid
          (fun _ _ _ _ _ _ _ _ h1 _ _ =>
            balancesValid_setPointsRule _ _ (balancesValid_ctor _ _ _ _ _ _ _ _ h1))
          io _ _ s1 (by simp) h

/-- The invariants I3 and I4 hold on every path on which the manager is only given rules of at
least 1 (and purchases have positive amounts): with the integers of the embedding, the one way
out of them is a manager rule below 1.  Of the program this holds while the points stay in the
range of `int`. -/
theorem runAll_balancesValid (ops : List Op) (s s1 : MemberManager)
    (hrule : ∀ op ∈ ops, op.validRule) (hamount : ∀ op ∈ ops, op.positiveAmount)
    (hd : 1 ≤ s.pointsRule) (hs : ∀ m ∈ s.members, m.balancesValid)
    (h : s.runAll ops = Except.ok s1) :
    1 ≤ s1.pointsRule ∧ ∀ m ∈ s1.members, m.balancesValid := by
  induction ops generalizing s with
  | nil =>
    simp only [MemberManager.runAll, pure, Except.pure] at h
    injection h with h
    subst h
    exact ⟨hd, hs⟩
  | cons op ops ih =>
    unfold MemberManager.runAll at h
    split at h
    · next s2 h2 =>
      have hstep := run_balancesValid s s2 op (hrule op (List.mem_cons_self op ops))
        (hamount op (List.mem_cons_self op ops)) hd hs h2
      exact ih s2 (fun o ho => hrule o (List.mem_cons_of_mem op ho))
        (fun o ho => hamount o (List.mem_cons_of_mem op ho)) hstep.1 hstep.2 h
    · exact absurd h (by simp)

/-! ## The values of an account after a purchase -/

theorem addSpending_points_eq (currentYear : Int) (m : Member) (amount : ℚ) :
    (m.addSpending currentYear amount).points =
      m.points + truncToInt (m.spendProduct currentYear amount) := by
  by_cases hy : m.lastYear = currentYear <;>
    simp [Member.addSpending, Member.spendProduct, Member.determineLevel,
      Member.getDiscountRate, hy]

theorem addSpending_annual_eq (currentYear : Int) (m : Member) (amount : ℚ) :
    (m.addSpending currentYear amount).annualSpent =
      doubleAdd (if m.lastYear ≠ currentYear then 0 else m.annualSpent) amount := by
  by_cases hy : m.lastYear = currentYear <;>
    simp [Member.addSpending, Member.determineLevel, hy]

theorem addSpending_total_eq (currentYear : Int) (m : Member) (amount : ℚ) :
    (m.addSpending currentYear amount).totalSpent = doubleAdd m.totalSpent amount := by
  by_cases hy : m.lastYear = currentYear <;>
    simp [Member.addSpending, Member.determineLevel, hy]

/-- A purchase that stays within `double` and `int` leaves an account that holds values of its
types: the new totals are doubles and the new points are in the range of `int`. -/
theorem addSpending_typed (currentYear : Int) (m : Member) (amount : ℚ)
    (hyear : int32 currentYear) (htyped : m.typed)
    (hrange : m.spendInRange currentYear amount) :
    (m.addSpending currentYear amount).typed := by
  obtain ⟨t1, _, t3, t4, _, _⟩ := htyped
  obtain ⟨r1, r2, _, _, _, r6⟩ := hrange
  refine ⟨?_, ?_, ?_, ?_, ⟨?_, ?_⟩, ⟨?_, ?_⟩⟩
  · by_cases hy : m.lastYear = currentYear <;>
      simpa [Member.addSpending, Member.determineLevel, hy] using t1
  · rw [addSpending_points_eq]
    exact r6
  · by_cases hy : m.lastYear = currentYear <;>
      simpa [Member.addSpending, Member.determineLevel, hy] using t3
  · by_cases hy : m.lastYear = currentYear
    · simpa [Member.addSpending, Member.determineLevel, hy] using t4
    · simpa [Member.addSpending, Member.determineLevel, hy] using hyear
  · rw [addSpending_total_eq]
    exact roundDouble_idem _
  · rw [addSpending_total_eq]
    exact r2
  · rw [addSpending_annual_eq]
    exact roundDouble_idem _
  · rw [addSpending_annual_eq]
    exact r1

/-! ## The sample accounts hold values of their types -/

theorem isDouble_one : isDouble 1 :=
  ⟨by with_unfolding_all rfl, of_decide_eq_true (by with_unfolding_all rfl)⟩

theorem isDouble_hundred : isDouble 100 :=
  ⟨by with_unfolding_all rfl, of_decide_eq_true (by with_unfolding_all rfl)⟩

theorem goldMember_typed : goldMember.typed :=
  ⟨by decide, by decide, by decide, by decide,
    ⟨by with_unfolding_all rfl, of_decide_eq_true (by with_unfolding_all rfl)⟩,
    ⟨by with_unfolding_all rfl, of_decide_eq_true (by with_unfolding_all rfl)⟩⟩

theorem largeTotalMember_typed : largeTotalMember.typed :=
  ⟨by decide, by decide, by decide, by decide,
    ⟨by with_unfolding_all rfl, of_decide_eq_true (by with_unfolding_all rfl)⟩,
    ⟨by with_unfolding_all rfl, of_decide_eq_true (by with_unfolding_all rfl)⟩⟩

theorem goldMember_total_exact : isDouble (goldMember.totalSpent + 100) :=
  ⟨by with_unfolding_all rfl, of_decide_eq_true (by with_unfolding_all rfl)⟩

theorem goldMember_annual_exact : isDouble (goldMember.annualSpent + 100) :=
  ⟨by with_unfolding_all rfl, of_decide_eq_true (by with_unfolding_all rfl)⟩

theorem goldMember_spend_same_year : goldMember.spendInRange 2024 100 := by
  unfold Member.spendInRange Member.spendProduct
  refine ⟨?_, ?_, ?_, ?_, ?_, ?_⟩ <;> exact of_decide_eq_true (by with_unfolding_all rfl)

theorem goldMember_spend_new_year : goldMember.spendInRange 2025 100 := by
  unfold Member.spendInRange Member.spendProduct
  refine ⟨?_, ?_, ?_, ?_, ?_, ?_⟩ <;> exact of_decide_eq_true (by with_unfolding_all rfl)

theorem largeTotalMember_spend : largeTotalMember.spendInRange 2024 1 := by
  unfold Member.spendInRange Member.spendProduct
  refine ⟨?_, ?_, ?_, ?_, ?_, ?_⟩ <;> exact of_decide_eq_true (by with_unfolding_all rfl)

/-! ## Claims about one account -/

/-- C2, counterexample: a silver member with points rate 5 buys for 12 in the year of the
previous purchase and stays silver.  The double nearest to 0.95 is below 0.95, the double
product `(12 * 0.95) * 5` is below 57, and the member earns 56 points; the product of the
three numbers themselves is 57. -/
theorem silver_purchase_counterexample :
    silverMember.lastYear = 2024 ∧
    (silverMember.addSpending 2024 12).currentLevel = Level.SILVER ∧
    (silverMember.addSpending 2024 12).points = silverMember.points + 56 ∧
    truncToInt (12 * (95 / 100) * (silverMember.pointsPerDollar : ℚ)) = 57 ∧
    (silverMember.addSpending 2024 12).points ≠
      silverMember.points + truncToInt (12 * (95 / 100) * (silverMember.pointsPerDollar : ℚ)) := by
  have h1 : (silverMember.addSpending 2024 12).points = silverMember.points + 56 := by
    with_unfolding_all rfl
  have h2 : truncToInt (12 * (95 / 100) * (silverMember.pointsPerDollar : ℚ)) = 57 := by
    with_unfolding_all rfl
  refine ⟨rfl, by with_unfolding_all rfl, h1, h2, ?_⟩
  rw [h1, h2]
  omega

/-- C2, amended: a purchase recorded in the year of the previous purchase, for an account and
an amount that hold values of their types and a call that overflows neither `double` nor
`int`.  The annual and lifetime totals become the double sums with the amount (the sums
themselves when those are doubles), the tier is recomputed from the new annual total, the
points grow by the truncated double product `(amount * rate) * pointsRate` with the rate of the
new tier, the rates being the doubles nearest to 0.80, 0.90, 0.95 and 1, one history entry with
that rate is appended, and id, name, phone, birthday, points rate and year are kept; the
account holds values of its types again. -/
theorem addSpending_same_year (currentYear : Int) (m : Member) (amount : ℚ)
    (hyear : m.lastYear = currentYear) (htyped : m.typed) (_hamount : isDouble amount)
    (hrange : m.spendInRange currentYear amount) :
    (m.addSpending currentYear amount).annualSpent = doubleAdd m.annualSpent amount ∧
    (isDouble (m.annualSpent + amount) →
      (m.addSpending currentYear amount).annualSpent = m.annualSpent + amount) ∧
    (m.addSpending currentYear amount).currentLevel =
      levelOf (doubleAdd m.annualSpent amount) ∧
    (m.addSpending currentYear amount).totalSpent = doubleAdd m.totalSpent amount ∧
    (isDouble (m.totalSpent + amount) →
      (m.addSpending currentYear amount).totalSpent = m.totalSpent + amount) ∧
    (m.addSpending currentYear amount).points = m.points +
      (if 0 ≤ doubleMul (doubleMul amount
            (discountRateOf (levelOf (doubleAdd m.annualSpent amount)))) m.pointsPerDollar
       then ⌊doubleMul (doubleMul amount
            (discountRateOf (levelOf (doubleAdd m.annualSpent amount)))) m.pointsPerDollar⌋
       else ⌈doubleMul (doubleMul amount
            (discountRateOf (levelOf (doubleAdd m.annualSpent amount)))) m.pointsPerDollar⌉) ∧
    (m.addSpending currentYear amount).consumptionHistory =
      m.consumptionHistory ++
        [(amount, discountRateOf (levelOf (doubleAdd m.annualSpent amount)))] ∧
    discountRateOf Level.DIAMOND = roundDouble (80 / 100) ∧
    discountRateOf Level.GOLD = roundDouble (90 / 100) ∧
    discountRateOf Level.SILVER = roundDouble (95 / 100) ∧ discountRateOf Level.NORMAL = 1 ∧
    (m.addSpending currentYear amount).id = m.id ∧
    (m.addSpending currentYear amount).name = m.name ∧
    (m.addSpending currentYear amount).phone = m.phone ∧
    (m.addSpending currentYear amount).birthday = m.birthday ∧
    (m.addSpending currentYear amount).pointsPerDollar = m.pointsPerDollar ∧
    (m.addSpending currentYear amount).lastYear = m.lastYear ∧
    (m.addSpending currentYear amount).typed := by
  have ha : (m.addSpending currentYear amount).annualSpent = doubleAdd m.annualSpent amount := by
    simp [Member.addSpending, Member.determineLevel, hyear]
  have ht : (m.addSpending currentYear amount).totalSpent = doubleAdd m.totalSpent amount := by
    simp [Member.addSpending, Member.determineLevel, hyear]
  have hp : (m.addSpending currentYear amount).points = m.points +
      truncToInt (doubleMul (doubleMul amount
        (discountRateOf (levelOf (doubleAdd m.annualSpent amount)))) m.pointsPerDollar) := by
    simp [Member.addSpending, Member.determineLevel, Member.getDiscountRate, hyear]
  refine ⟨ha, ?_, ?_, ht, ?_, ?_, ?_, ?_, ?_, ?_, rfl, ?_, ?_, ?_, ?_, ?_, ?_,
    addSpending_typed currentYear m amount (hyear ▸ htyped.2.2.2.1) htyped hrange⟩
  · intro h
    rw [ha]
    exact h.1
  · simp [Member.addSpending, Member.determineLevel, hyear]
  · intro h
    rw [ht]
    exact h.1
  · rw [hp]
    split_ifs with h
    · rw [truncToInt_of_nonneg _ h]
    · rw [truncToInt_of_nonpos _ (le_of_lt (not_le.mp h))]
  · simp [Member.addSpending, Member.determineLevel, Member.getDiscountRate, hyear]
  · show roundDouble (8 / 10) = roundDouble (80 / 100)
    norm_num
  · show roundDouble (9 / 10) = roundDouble (90 / 100)
    norm_num
  · rfl
  · simp [Member.addSpending, Member.determineLevel, hyear]
  · simp [Member.addSpending, Member.determineLevel, hyear]
  · simp [Member.addSpending, Member.determineLevel, hyear]
  · simp [Member.addSpending, Member.determineLevel, hyear]
  · simp [Member.addSpending, Member.determineLevel, hyear]
  · simp [Member.addSpending, Member.determineLevel, hyear]

/-- Witness of C2 (amended): `goldMember` buys for 100 in 2024, the year of its last
purchase. -/
theorem addSpending_same_year_witness :
    goldMember.lastYear = 2024 ∧ goldMember.typed ∧ isDouble 100 ∧
    goldMember.spendInRange 2024 100 ∧
    (goldMember.addSpending 2024 100).annualSpent = doubleAdd goldMember.annualSpent 100 ∧
    (goldMember.addSpending 2024 100).annualSpent = goldMember.annualSpent + 100 :=
  ⟨rfl, goldMember_typed, isDouble_hundred, goldMember_spend_same_year,
    (addSpending_same_year 2024 goldMember 100 rfl goldMember_typed isDouble_hundred
      goldMember_spend_same_year).1,
    (addSpending_same_year 2024 goldMember 100 rfl goldMember_typed isDouble_hundred
      goldMember_spend_same_year).2.1 goldMember_annual_exact⟩

/-- C3, counterexample: a gold member with points rate 2 and annual total 19950 buys for 100
in the same year; the purchase lifts the member to diamond, the rate applied is 0.8, and the
points grow by 160, not 180. -/
theorem gold_purchase_counterexample :
    nearDiamondMember.currentLevel = Level.GOLD ∧ nearDiamondMember.pointsPerDollar = 2 ∧
    (nearDiamondMember.addSpending 2024 100).points = nearDiamondMember.points + 160 ∧
    (nearDiamondMember.addSpending 2024 100).points ≠ nearDiamondMember.points + 180 := by
  have h : (nearDiamondMember.addSpending 2024 100).points = nearDiamondMember.points + 160 := by
    with_unfolding_all rfl
  refine ⟨rfl, rfl, h, ?_⟩
  rw [h]
  omega

/-- C3, amended: when the tier after the purchase is gold and the points rate is 2, for an
account that holds values of its types and a call that overflows neither `double` nor `int`,
a purchase of 100 adds exactly 180 points (the double product `(100 * 0.9) * 2` is 180), which
stay in the range of `int`, and the lifetime total becomes the double sum with 100, which is
the lifetime total plus 100 whenever that is a double. -/
theorem gold_purchase_points (currentYear : Int) (m : Member)
    (hgold : (m.addSpending currentYear 100).currentLevel = Level.GOLD)
    (hrate : m.pointsPerDollar = 2) (_htyped : m.typed)
    (hrange : m.spendInRange currentYear 100) :
    (m.addSpending currentYear 100).points = m.points + 180 ∧
    int32 (m.addSpending currentYear 100).points ∧
    (m.addSpending currentYear 100).totalSpent = doubleAdd m.totalSpent 100 ∧
    isDouble (m.addSpending currentYear 100).totalSpent ∧
    (isDouble (m.totalSpent + 100) →
      (m.addSpending currentYear 100).totalSpent = m.totalSpent + 100) := by
  have h180 : truncToInt (doubleMul (doubleMul 100 (discountRateOf Level.GOLD))
      ((2 : Int) : ℚ)) = 180 := by
    with_unfolding_all rfl
  have ht : (m.addSpending currentYear 100).totalSpent = doubleAdd m.totalSpent 100 := by
    by_cases hy : m.lastYear = currentYear <;>
      simp [Member.addSpending, Member.determineLevel, hy]
  refine ⟨?_, ?_, ht, ?_, ?_⟩
  · have hp : (m.addSpending currentYear 100).points =
        m.points + truncToInt (doubleMul (doubleMul 100
          (m.addSpending currentYear 100).getDiscountRate) (m.pointsPerDollar : ℚ)) := by
      by_cases hy : m.lastYear = currentYear <;>
        simp [Member.addSpending, Member.determineLevel, Member.getDiscountRate, hy]
    rw [hp, Member.getDiscountRate, hgold, hrate, h180]
  · rw [addSpending_points_eq]
    exact hrange.2.2.2.2.2
  · rw [ht]
    exact ⟨roundDouble_idem _, hrange.2.1⟩
  · intro h
    rw [ht]
    exact h.1

/-- Witness of C3 (amended): `goldMember` stays gold after buying for 100 in 2024. -/
theorem gold_purchase_points_witness :
    (goldMember.addSpending 2024 100).currentLevel = Level.GOLD ∧ goldMember.typed ∧
    goldMember.spendInRange 2024 100 ∧
    (goldMember.addSpending 2024 100).points = goldMember.points + 180 ∧
    (goldMember.addSpending 2024 100).totalSpent = goldMember.totalSpent + 100 :=
  ⟨by with_unfolding_all rfl, goldMember_typed, goldMember_spend_same_year,
    (gold_purchase_points 2024 goldMember (by with_unfolding_all rfl) rfl goldMember_typed
      goldMember_spend_same_year).1,
    (gold_purchase_points 2024 goldMember (by with_unfolding_all rfl) rfl goldMember_typed
      goldMember_spend_same_year).2.2.2.2 goldMember_total_exact⟩

/-- C4, counterexample: an account last seen in 2023 with lifetime total `2 ^ 53` buys for 1
in 2024.  The sum `2 ^ 53 + 1` is not a double and rounds to `2 ^ 53`: the lifetime total is
unchanged, it has not grown by the amount. -/
theorem new_year_total_counterexample :
    largeTotalMember.lastYear ≠ 2024 ∧ largeTotalMember.typed ∧ isDouble 1 ∧
    largeTotalMember.spendInRange 2024 1 ∧
    (largeTotalMember.addSpending 2024 1).totalSpent = largeTotalMember.totalSpent ∧
    (largeTotalMember.addSpending 2024 1).totalSpent ≠ largeTotalMember.totalSpent + 1 := by
  have h : (largeTotalMember.addSpending 2024 1).totalSpent = largeTotalMember.totalSpent := by
    with_unfolding_all rfl
  refine ⟨by decide, largeTotalMember_typed, isDouble_one, largeTotalMember_spend, h, ?_⟩
  rw [h]
  exact fun hc => absurd hc (by norm_num)

/-- C4, amended: a purchase recorded in a year other than `lastYear` (the unset year 0
included), for an account and an amount that hold values of their types and a call that
overflows neither `double` nor `int`, discards the previous annual total: the annual total
becomes the amount, the year becomes the current year, the tier is that of the amount, and
the lifetime total becomes the double sum with the amount, which is the lifetime total plus
the amount whenever that is a double; so a member of year `Y - 1` with annual total 8000 who
buys for 100 ends with annual total 100; the account holds values of its types again. -/
theorem addSpending_new_year (currentYear : Int) (m : Member) (amount : ℚ)
    (hyear : m.lastYear ≠ currentYear) (hclock : int32 currentYear)
    (hamount : isDouble amount) (htyped : m.typed)
    (hrange : m.spendInRange currentYear amount) :
    (m.addSpending currentYear amount).annualSpent = amount ∧
    (m.addSpending currentYear amount).lastYear = currentYear ∧
    (m.addSpending currentYear amount).currentLevel = levelOf amount ∧
    (m.addSpending currentYear amount).totalSpent = doubleAdd m.totalSpent amount ∧
    (isDouble (m.totalSpent + amount) →
      (m.addSpending currentYear amount).totalSpent = m.totalSpent + amount) ∧
    (m.lastYear = currentYear - 1 → m.annualSpent = 8000 → amount = 100 →
      (m.addSpending currentYear amount).annualSpent = 100) ∧
    (m.addSpending currentYear amount).typed := by
  have h0 : doubleAdd 0 amount = amount := by
    unfold doubleAdd
    rw [zero_add]
    exact hamount.1
  have ha : (m.addSpending currentYear amount).annualSpent = amount := by
    simp [Member.addSpending, Member.determineLevel, hyear, h0]
  have ht : (m.addSpending currentYear amount).totalSpent = doubleAdd m.totalSpent amount := by
    simp [Member.addSpending, Member.determineLevel, hyear]
  refine ⟨ha, ?_, ?_, ht, ?_, ?_, addSpending_typed currentYear m amount hclock htyped hrange⟩
  · simp [Member.addSpending, Member.determineLevel, hyear]
  · simp [Member.addSpending, Member.determineLevel, hyear, h0]
  · intro h
    rw [ht]
    exact h.1
  · intro _ _ h100
    rw [ha, h100]

/-- Witness of C4 (amended): `goldMember`, last seen in 2024, buys for 100 in 2025. -/
theorem addSpending_new_year_witness :
    goldMember.lastYear ≠ 2025 ∧ int32 2025 ∧ isDouble 100 ∧ goldMember.typed ∧
    goldMember.spendInRange 2025 100 ∧
    (goldMember.addSpending 2025 100).annualSpent = 100 ∧
    (goldMember.addSpending 2025 100).lastYear = 2025 :=
  ⟨by decide, by decide, isDouble_hundred, goldMember_typed, goldMember_spend_new_year,
    (addSpending_new_year 2025 goldMember 100 (by decide) (by decide) isDouble_hundred
      goldMember_typed goldMember_spend_new_year).1,
    (addSpending_new_year 2025 goldMember 100 (by decide) (by decide) isDouble_hundred
      goldMember_typed goldMember_spend_new_year).2.1⟩

/-- C5: the tier set by `determineLevel` depends on the annual total only, with inclusive
lower bounds at 5000, 10000 and 20000, and is monotone in the annual total for the order
`NORMAL < SILVER < GOLD < DIAMOND`. -/
theorem determineLevel_thresholds :
    (∀ m : Member, m.determineLevel.currentLevel = levelOf m.annualSpent) ∧
    (∀ m1 m2 : Member, m1.annualSpent = m2.annualSpent →
      m1.determineLevel.currentLevel = m2.determineLevel.currentLevel) ∧
    (∀ s : ℚ, levelOf s = Level.DIAMOND ↔ 20000 ≤ s) ∧
    (∀ s : ℚ, levelOf s = Level.GOLD ↔ 10000 ≤ s ∧ s < 20000) ∧
    (∀ s : ℚ, levelOf s = Level.SILVER ↔ 5000 ≤ s ∧ s < 10000) ∧
    (∀ s : ℚ, levelOf s = Level.NORMAL ↔ s < 5000) ∧
    (∀ s1 s2 : ℚ, s1 ≤ s2 → levelOf s1 ≤ levelOf s2) ∧
    (∀ a b : Level, a ≤ b ↔ a = b ∨ a = Level.NORMAL ∨ b = Level.DIAMOND ∨
      (a = Level.SILVER ∧ b = Level.GOLD)) := by
  refine ⟨fun _ => rfl, ?_, ?_, ?_, ?_, ?_, fun _ _ h => levelOf_mono h, ?_⟩
  · intro m1 m2 h
    simp [Member.determineLevel, h]
  · intro s
    unfold levelOf
    split_ifs <;> simp <;> linarith
  · intro s
    unfold levelOf
    split_ifs <;> simp <;> first | linarith | (constructor <;> linarith) | (intro; linarith)
  · intro s
    unfold levelOf
    split_ifs <;> simp <;> first | linarith | (constructor <;> linarith) | (intro; linarith)
  · intro s
    unfold levelOf
    split_ifs <;> simp <;> linarith
  · intro a b
    show a.toInt ≤ b.toInt ↔ _
    cases a <;> cases b <;> simp [Level.toInt]

/-- Witness of C5: the tiers just below and at the three thresholds. -/
theorem determineLevel_thresholds_witness :
    levelOf (499999 / 100) ≤ levelOf 5000 ∧ levelOf (499999 / 100) = Level.NORMAL ∧
    levelOf 5000 = Level.SILVER ∧ levelOf (1999999 / 100) = Level.GOLD ∧
    levelOf 20000 = Level.DIAMOND :=
  ⟨determineLevel_thresholds.2.2.2.2.2.2.1 _ _ (by norm_num),
    (determineLevel_thresholds.2.2.2.2.2.1 _).mpr (by norm_num),
    (determineLevel_thresholds.2.2.2.2.1 _).mpr (by norm_num),
    (determineLevel_thresholds.2.2.2.1 _).mpr (by norm_num),
    (determineLevel_thresholds.2.2.1 _).mpr (by norm_num)⟩

/-- C9: `redeemPoints n` leaves the account as it is when `n ≤ 0` or `n > points`; otherwise
it subtracts `n` from the points and changes nothing else; redeeming the whole balance of an
account leaves 0 points. -/
theorem redeemPoints_bounds (m : Member) (n : Int) :
    ((n ≤ 0 ∨ n > m.points) → m.redeemPoints n = m) ∧
    ((0 < n ∧ n ≤ m.points) → m.redeemPoints n = { m with points := m.points - n }) ∧
    (0 ≤ m.points → (m.redeemPoints m.points).points = 0) := by
  refine ⟨?_, ?_, ?_⟩
  · intro h
    simp [Member.redeemPoints, h]
  · intro h
    have h' : ¬ (n ≤ 0 ∨ n > m.points) := by omega
    simp [Member.redeemPoints, h']
  · intro h
    unfold Member.redeemPoints
    split_ifs with hc
    · omega
    · simp

/-- Witness of C9: `goldMember` holds 500 points; 501 and 0 are refused, 500 empties it. -/
theorem redeemPoints_bounds_witness :
    goldMember.redeemPoints 501 = goldMember ∧ goldMember.redeemPoints 0 = goldMember ∧
    goldMember.redeemPoints 200 = { goldMember with points := goldMember.points - 200 } ∧
    (goldMember.redeemPoints goldMember.points).points = 0 :=
  ⟨(redeemPoints_bounds goldMember 501).1 (by decide),
    (redeemPoints_bounds goldMember 0).1 (by decide),
    (redeemPoints_bounds goldMember 200).2.1 (by decide),
    (redeemPoints_bounds goldMember goldMember.points).2.2 (by decide)⟩

/-! ## Claims about the registry -/

/-- C6: the tier of an account always is the tier of its annual total: after construction with
any arguments followed by any member functions, and for every account of a registry reached
from the empty registry by any manager functions; the level passed to the constructor has no
effect on the constructed account. -/
theorem level_invariant :
    (∀ (id : Int) (name phone birthday : String) (rule : Int) (annualSpent : ℚ) (level : Level)
        (lastYear : Int) (ops : List MemberOp),
      ((Member.ctor id name phone birthday rule annualSpent level lastYear).runAll
          ops).currentLevel =
        levelOf ((Member.ctor id name phone birthday rule annualSpent level lastYear).runAll
          ops).annualSpent) ∧
    (∀ (ops : List Op) (s : MemberManager), MemberManager.init.runAll ops = Except.ok s →
      ∀ m ∈ s.members, m.currentLevel = levelOf m.annualSpent) ∧
    (∀ (id : Int) (name phone birthday : String) (rule : Int) (annualSpent : ℚ)
        (level1 level2 : Level) (lastYear : Int),
      Member.ctor id name phone birthday rule annualSpent level1 lastYear =
        Member.ctor id name phone birthday rule annualSpent level2 lastYear) := by
  refine ⟨?_, ?_, ?_⟩
  · intro id name phone birthday rule annualSpent level lastYear ops
    exact level_runAll ops _ (level_ctor id name phone birthday rule annualSpent level lastYear)
  · intro ops s h
    exact runAll_forall (fun m => m.currentLevel = levelOf m.annualSpent) level_ctor
      (fun m currentYear amount _ => level_addSpending m currentYear amount)
      level_redeemPoints level_setPointsRule ops MemberManager.init s (by simp [MemberManager.init]) h
  · intro id name phone birthday rule annualSpent level1 level2 lastYear
    rfl

/-- Witness of C6: a member is added, buys for 12000, then the registry is replaced by a file
whose line stores tier index 0 next to an annual total of 25000. -/
theorem level_invariant_witness :
    MemberManager.init.runAll
        [Op.addMember "Li" "13800000000" "1990-05-17", Op.addSpending 2024 1 12000,
         Op.loadFromFile decimalText
           (some "3,Wu,13900000000,1985-01-02,25000,10,1,25000,0,2023\n".data)] =
      Except.ok { members := [Member.ctor 3 "Wu" "13900000000" "1985-01-02" 1 25000
                                Level.DIAMOND 2023],
                  nextId := 4, pointsRule := 1 } ∧
    ∀ m ∈ [Member.ctor 3 "Wu" "13900000000" "1985-01-02" 1 25000 Level.DIAMOND 2023],
      m.currentLevel = levelOf m.annualSpent :=
  ⟨by with_unfolding_all rfl,
    level_invariant.2.1
      [Op.addMember "Li" "13800000000" "1990-05-17", Op.addSpending 2024 1 12000,
       Op.loadFromFile decimalText
         (some "3,Wu,13900000000,1985-01-02,25000,10,1,25000,0,2023\n".data)]
      { members := [Member.ctor 3 "Wu" "13900000000" "1985-01-02" 1 25000 Level.DIAMOND 2023],
        nextId := 4, pointsRule := 1 }
      (by with_unfolding_all rfl)⟩

/-- C1, the code at a failing input: `goldRegistry` holds one member with 500 points and a
lifetime total of 31000; the text written by `saveToFile` carries both values, and loading
that text yields a member with 0 points and a lifetime total equal to the annual total 12000. -/
theorem save_load_drops_points :
    goldRegistry.saveToFile decimalText =
      "7,Li,13800000000,1990-05-17,31000,500,2,12000,2,2024\n".data ∧
    goldRegistry.loadFromFile decimalText (some (goldRegistry.saveToFile decimalText)) =
      Except.ok { members := [{ goldMember with
                                  points := 0, totalSpent := 12000, consumptionHistory := [] }],
                  nextId := 8, pointsRule := 2 } :=
  ⟨by with_unfolding_all rfl, by with_unfolding_all rfl⟩

/-- C7, the code at a failing input: the manager accepts the rule -1 as its default, the next
member is constructed with it, and a purchase of 100 leaves that member with -100 points. -/
theorem negative_points_reachable :
    MemberManager.init.runAll
        [Op.setPointsRule (-1), Op.addMember "Li" "13800000000" "1990-05-17",
         Op.addSpending 2024 1 100] =
      Except.ok { members := [{ id := 1, name := "Li", phone := "13800000000",
                                birthday := "1990-05-17", totalSpent := 100, points := -100,
                                pointsPerDollar := -1, consumptionHistory := [(100, 1)],
                                annualSpent := 100, currentLevel := Level.NORMAL,
                                lastYear := 2024 }],
                  nextId := 2, pointsRule := -1 } := by
  with_unfolding_all rfl

/-- C8, the code at a failing input: the manager accepts the rule 0 as its default, and the
next member added has points rate 0. -/
theorem zero_rate_reachable :
    MemberManager.init.runAll
        [Op.setPointsRule 0, Op.addMember "Li" "13800000000" "1990-05-17"] =
      Except.ok { members := [{ id := 1, name := "Li", phone := "13800000000",
                                birthday := "1990-05-17", totalSpent := 0, points := 0,
                                pointsPerDollar := 0, consumptionHistory := [],
                                annualSpent := 0, currentLevel := Level.NORMAL,
                                lastYear := 0 }],
                  nextId := 2, pointsRule := 0 } := by
  with_unfolding_all rfl

/-- C10, counterexample: `setPointsRule 0` on `goldRegistry` sets the default rate to 0, and
the member keeps its rate 2. -/
theorem setPointsRule_counterexample :
    (goldRegistry.setPointsRule 0).pointsRule = 0 ∧
    (goldRegistry.setPointsRule 0).members.map (fun m => m.pointsPerDollar) = [2] :=
  ⟨rfl, rfl⟩

/-- C10, amended: for a rule `r ≥ 1`, `MemberManager::setPointsRule r` sets the default rate to
`r` and the rate of every account to `r`, and changes no other field, nor the order, nor
`nextId`; for `r ≤ 0` no account is changed and `nextId` is unchanged. -/
theorem setPointsRule_broadcast (s : MemberManager) (r : Int) :
    (1 ≤ r → (s.setPointsRule r).pointsRule = r ∧
      (s.setPointsRule r).members = s.members.map (fun m => { m with pointsPerDollar := r }) ∧
      (s.setPointsRule r).nextId = s.nextId) ∧
    (r ≤ 0 → (s.setPointsRule r).members = s.members ∧
      (s.setPointsRule r).nextId = s.nextId) := by
  constructor
  · intro h
    have h' : ¬ r ≤ 0 := by omega
    simp [MemberManager.setPointsRule, Member.setPointsRule, h']
  · intro h
    simp [MemberManager.setPointsRule, Member.setPointsRule, h]

/-- Witness of C10 (amended): the rules 5 and -3 on `goldRegistry`. -/
theorem setPointsRule_broadcast_witness :
    (goldRegistry.setPointsRule 5).pointsRule = 5 ∧
    (goldRegistry.setPointsRule 5).members =
      goldRegistry.members.map (fun m => { m with pointsPerDollar := 5 }) ∧
    (goldRegistry.setPointsRule (-3)).members = goldRegistry.members :=
  ⟨((setPointsRule_broadcast goldRegistry 5).1 (by decide)).1,
    ((setPointsRule_broadcast goldRegistry 5).1 (by decide)).2.1,
    ((setPointsRule_broadcast goldRegistry (-3)).2 (by decide)).1⟩

/-! ## Lemmas on the first account with a given id -/

theorem updateFirst_split (id : Int) (f : Member → Member) (l1 : List Member) (m : Member)
    (l2 : List Member) (h1 : ∀ x ∈ l1, x.id ≠ id) (hm : m.id = id) :
    updateFirst id f (l1 ++ m :: l2) = l1 ++ f m :: l2 := by
  induction l1 with
  | nil => simp [updateFirst, hm]
  | cons a l ih =>
    have ha : a.id ≠ id := h1 a (List.mem_cons_self a l)
    have hl : ∀ x ∈ l, x.id ≠ id := fun x hx => h1 x (List.mem_cons_of_mem a hx)
    simp [updateFirst, ha, ih hl]

theorem updateFirst_absent (id : Int) (f : Member → Member) (l : List Member)
    (h : ∀ x ∈ l, x.id ≠ id) : updateFirst id f l = l := by
  induction l with
  | nil => rfl
  | cons a l ih =>
    have ha : a.id ≠ id := h a (List.mem_cons_self a l)
    have hl : ∀ x ∈ l, x.id ≠ id := fun x hx => h x (List.mem_cons_of_mem a hx)
    simp [updateFirst, ha, ih hl]

theorem eraseP_split (id : Int) (l1 : List Member) (m : Member) (l2 : List Member)
    (h1 : ∀ x ∈ l1, x.id ≠ id) (hm : m.id = id) :
    (l1 ++ m :: l2).eraseP (fun x => decide (x.id = id)) = l1 ++ l2 := by
  induction l1 with
  | nil => simp [List.eraseP, hm]
  | cons a l ih =>
    have ha : a.id ≠ id := h1 a (List.mem_cons_self a l)
    have hl : ∀ x ∈ l, x.id ≠ id := fun x hx => h1 x (List.mem_cons_of_mem a hx)
    simp [List.eraseP, ha, ih hl]

theorem eraseP_absent (id : Int) (l : List Member) (h : ∀ x ∈ l, x.id ≠ id) :
    l.eraseP (fun x => decide (x.id = id)) = l := by
  induction l with
  | nil => rfl
  | cons a l ih =>
    have ha : a.id ≠ id := h a (List.mem_cons_self a l)
    have hl : ∀ x ∈ l, x.id ≠ id := fun x hx => h x (List.mem_cons_of_mem a hx)
    simp [List.eraseP, ha, ih hl]

/-- A list with an account of the given id splits at the first such account. -/
theorem first_with_id (id : Int) (l : List Member) (h : ∃ x ∈ l, x.id = id) :
    ∃ l1 m l2, l = l1 ++ m :: l2 ∧ (∀ x ∈ l1, x.id ≠ id) ∧ m.id = id := by
  induction l with
  | nil =>
    obtain ⟨x, hx, _⟩ := h
    exact absurd hx (List.not_mem_nil x)
  | cons a l ih =>
    by_cases ha : a.id = id
    · exact ⟨[], a, l, rfl, fun x hx => absurd hx (List.not_mem_nil x), ha⟩
    · obtain ⟨x, hx, hxid⟩ := h
      rcases List.mem_cons.mp hx with rfl | hx
      · exact absurd hxid ha
      · obtain ⟨l1, m, l2, hl, h1, hm⟩ := ih ⟨x, hx, hxid⟩
        refine ⟨a :: l1, m, l2, by simp [hl], ?_, hm⟩
        intro y hy
        rcases List.mem_cons.mp hy with rfl | hy
        · exact ha
        · exact h1 y hy

/-! ## Claims about single registry functions -/

/-- C11: `Member::setPointsRule r` leaves the account as it is when `r ≤ 0`; otherwise the
points rate becomes `r` and no other field changes (the points are not recomputed). -/
theorem member_setPointsRule_spec (m : Member) (r : Int) :
    (r ≤ 0 → m.setPointsRule r = m) ∧
    (0 < r → m.setPointsRule r = { m with pointsPerDollar := r }) ∧
    (0 < r → (m.setPointsRule r).pointsPerDollar = r ∧ (m.setPointsRule r).points = m.points) := by
  refine ⟨?_, ?_, ?_⟩
  · intro h
    simp [Member.setPointsRule, h]
  · intro h
    have h' : ¬ r ≤ 0 := by omega
    simp [Member.setPointsRule, h']
  · intro h
    have h' : ¬ r ≤ 0 := by omega
    simp [Member.setPointsRule, h']

/-- Witness of C11: the rules 0, -4 and 3 on `goldMember`. -/
theorem member_setPointsRule_spec_witness :
    goldMember.setPointsRule 0 = goldMember ∧ goldMember.setPointsRule (-4) = goldMember ∧
    goldMember.setPointsRule 3 = { goldMember with pointsPerDollar := 3 } :=
  ⟨(member_setPointsRule_spec goldMember 0).1 (by decide),
    (member_setPointsRule_spec goldMember (-4)).1 (by decide),
    (member_setPointsRule_spec goldMember 3).2.1 (by decide)⟩

/-- C16: `updateMemberPhone id newPhone` replaces the first account with that id by an account
with the same id, name, birthday and points rate, the new phone, and every balance at its
construction default (totals 0, points 0, tier `NORMAL`, year 0, no history); the other
accounts, their order, `nextId` and the default rate are unchanged; without an account of that
id the registry is unchanged. -/
theorem updateMemberPhone_spec (s : MemberManager) (id : Int) (newPhone : String) :
    ((∀ x ∈ s.members, x.id ≠ id) → s.updateMemberPhone id newPhone = s) ∧
    (∀ l1 m l2, s.members = l1 ++ m :: l2 → (∀ x ∈ l1, x.id ≠ id) → m.id = id →
      s.updateMemberPhone id newPhone =
        { members := l1 ++ phoneReset m newPhone :: l2, nextId := s.nextId,
          pointsRule := s.pointsRule }) ∧
    ((∃ x ∈ s.members, x.id = id) →
      ∃ l1 m l2, s.members = l1 ++ m :: l2 ∧ (∀ x ∈ l1, x.id ≠ id) ∧ m.id = id) := by
  refine ⟨?_, ?_, first_with_id id s.members⟩
  · intro h
    simp [MemberManager.updateMemberPhone, updateFirst_absent id _ s.members h]
  · intro l1 m l2 hs h1 hm
    simp only [MemberManager.updateMemberPhone, hs, updateFirst_split id _ l1 m l2 h1 hm]
    subst hm
    rfl

/-- Witness of C16: in `pairRegistry` the phone of id 9 is changed, and id 8 is absent. -/
theorem updateMemberPhone_spec_witness :
    pairRegistry.updateMemberPhone 8 "13700000000" = pairRegistry ∧
    pairRegistry.updateMemberPhone 9 "13700000000" =
      { members := [goldMember] ++ phoneReset baseMember "13700000000" :: [],
        nextId := 10, pointsRule := 2 } :=
  ⟨(updateMemberPhone_spec pairRegistry 8 "13700000000").1 (by decide),
    (updateMemberPhone_spec pairRegistry 9 "13700000000").2.1 [goldMember] baseMember [] rfl
      (by decide) rfl⟩

/-- C17: `deleteMember id` removes the first account with that id and nothing else: the other
accounts keep their content and relative order, `nextId` and the default rate are unchanged;
without an account of that id the registry is unchanged. -/
theorem deleteMember_spec (s : MemberManager) (id : Int) :
    ((∀ x ∈ s.members, x.id ≠ id) → s.deleteMember id = s) ∧
    (∀ l1 m l2, s.members = l1 ++ m :: l2 → (∀ x ∈ l1, x.id ≠ id) → m.id = id →
      s.deleteMember id =
        { members := l1 ++ l2, nextId := s.nextId, pointsRule := s.pointsRule }) ∧
    ((∃ x ∈ s.members, x.id = id) →
      ∃ l1 m l2, s.members = l1 ++ m :: l2 ∧ (∀ x ∈ l1, x.id ≠ id) ∧ m.id = id) := by
  refine ⟨?_, ?_, first_with_id id s.members⟩
  · intro h
    simp [MemberManager.deleteMember, eraseP_absent id s.members h]
  · intro l1 m l2 hs h1 hm
    simp only [MemberManager.deleteMember, hs, eraseP_split id l1 m l2 h1 hm]

/-- Witness of C17: in `pairRegistry` id 7 is deleted, and id 8 is absent. -/
theorem deleteMember_spec_witness :
    pairRegistry.deleteMember 8 = pairRegistry ∧
    pairRegistry.deleteMember 7 = { members := [] ++ [baseMember], nextId := 10, pointsRule := 2 } :=
  ⟨(deleteMember_spec pairRegistry 8).1 (by decide),
    (deleteMember_spec pairRegistry 7).2.1 [] goldMember [baseMember] rfl (by decide) rfl⟩

/-- C18, counterexample: the registry restored from `lastIdText` has `nextId` 2147483647.
`addMember` gives the new account that id, and `nextId + 1` is 2147483648, which no `int`
holds: the counter of the embedding leaves the range of `int`, and the 32-bit increment wraps
to -2147483648. -/
theorem addMember_counter_overflow :
    MemberManager.init.loadFromFile decimalText (some lastIdText) = Except.ok lastIdRegistry ∧
    lastIdRegistry.nextId = 2147483647 ∧
    (lastIdRegistry.addMember "An" "13800000001" "1991-01-01").ids = [2147483646, 2147483647] ∧
    ¬ int32 (lastIdRegistry.nextId + 1) ∧
    ¬ int32 (lastIdRegistry.addMember "An" "13800000001" "1991-01-01").nextId ∧
    wrapInt32 (lastIdRegistry.nextId + 1) = -2147483648 ∧
    wrapInt32 (lastIdRegistry.nextId + 1) ≠ lastIdRegistry.nextId + 1 :=
  ⟨by with_unfolding_all rfl, rfl, by with_unfolding_all rfl, by decide, by decide, by decide,
    by decide⟩

/-- C18, amended: in a registry whose `nextId` is below 2147483647, `addMember` appends one
account at the end, with the old `nextId` as id, the given name, phone and birthday, the
registry's default rate, totals 0, points 0, tier `NORMAL`, year 0 and no history; `nextId`
grows by 1; the existing accounts and the default rate are unchanged. -/
theorem addMember_spec (s : MemberManager) (name phone birthday : String)
    (_hfit : s.nextId < 2147483647) :
    s.addMember name phone birthday =
      { members := s.members ++
          [{ id := s.nextId, name := name, phone := phone, birthday := birthday,
             totalSpent := 0, points := 0, pointsPerDollar := s.pointsRule,
             consumptionHistory := [], annualSpent := 0, currentLevel := Level.NORMAL,
             lastYear := 0 }],
        nextId := s.nextId + 1, pointsRule := s.pointsRule } := by
  rfl

/-- Witness of C18 (amended): a third member is added to `pairRegistry`, whose `nextId` is
10. -/
theorem addMember_spec_witness :
    pairRegistry.nextId < 2147483647 ∧
    pairRegistry.addMember "Cy" "13800000003" "1993-03-03" =
      { members := pairRegistry.members ++
          [{ id := 10, name := "Cy", phone := "13800000003", birthday := "1993-03-03",
             totalSpent := 0, points := 0, pointsPerDollar := 2,
             consumptionHistory := [], annualSpent := 0, currentLevel := Level.NORMAL,
             lastYear := 0 }],
        nextId := 11, pointsRule := 2 } :=
  ⟨by decide, addMember_spec pairRegistry "Cy" "13800000003" "1993-03-03" (by decide)⟩

/-- C19: `MemberManager::addSpending` and `MemberManager::redeemPoints` leave the registry
unchanged when no account has the id; otherwise they apply `Member::addSpending`, respectively
`Member::redeemPoints`, to the first account with the id and change nothing else. -/
theorem delegate_spec (currentYear : Int) (s : MemberManager) (id : Int) (amount : ℚ)
    (n : Int) :
    ((∀ x ∈ s.members, x.id ≠ id) →
      s.addSpending currentYear id amount = s ∧ s.redeemPoints id n = s) ∧
    (∀ l1 m l2, s.members = l1 ++ m :: l2 → (∀ x ∈ l1, x.id ≠ id) → m.id = id →
      s.addSpending currentYear id amount =
        { members := l1 ++ m.addSpending currentYear amount :: l2, nextId := s.nextId,
          pointsRule := s.pointsRule } ∧
      s.redeemPoints id n =
        { members := l1 ++ m.redeemPoints n :: l2, nextId := s.nextId,
          pointsRule := s.pointsRule }) ∧
    ((∃ x ∈ s.members, x.id = id) →
      ∃ l1 m l2, s.members = l1 ++ m :: l2 ∧ (∀ x ∈ l1, x.id ≠ id) ∧ m.id = id) := by
  refine ⟨?_, ?_, first_with_id id s.members⟩
  · intro h
    constructor
    · simp [MemberManager.addSpending, updateFirst_absent id _ s.members h]
    · simp [MemberManager.redeemPoints, updateFirst_absent id _ s.members h]
  · intro l1 m l2 hs h1 hm
    constructor
    · simp only [MemberManager.addSpending, hs, updateFirst_split id _ l1 m l2 h1 hm]
    · simp only [MemberManager.redeemPoints, hs, updateFirst_split id _ l1 m l2 h1 hm]

/-- Witness of C19: in `pairRegistry` id 8 is absent, and 100 points of id 7 are redeemed. -/
theorem delegate_spec_witness :
    pairRegistry.addSpending 2024 8 50 = pairRegistry ∧
    pairRegistry.redeemPoints 7 100 =
      { members := [] ++ goldMember.redeemPoints 100 :: [baseMember], nextId := 10,
        pointsRule := 2 } :=
  ⟨((delegate_spec 2024 pairRegistry 8 50 100).1 (by decide)).1,
    ((delegate_spec 2024 pairRegistry 7 50 100).2.1 [] goldMember [baseMember] rfl (by decide)
      rfl).2⟩

/-! ## Claims about the id counter -/

/-- C14, counterexample: two members are added to the empty registry, so `nextId` is 3; then
an empty file is loaded and `nextId` is 1. -/
theorem load_resets_nextId :
    MemberManager.init.runAll
        [Op.addMember "An" "13800000001" "1991-01-01",
         Op.addMember "Bo" "13800000002" "1992-02-02"] =
      Except.ok { members := [Member.ctor 1 "An" "13800000001" "1991-01-01" 1 0 Level.NORMAL 0,
                              Member.ctor 2 "Bo" "13800000002" "1992-02-02" 1 0 Level.NORMAL 0],
                  nextId := 3, pointsRule := 1 } ∧
    MemberManager.run
        { members := [Member.ctor 1 "An" "13800000001" "1991-01-01" 1 0 Level.NORMAL 0,
                      Member.ctor 2 "Bo" "13800000002" "1992-02-02" 1 0 Level.NORMAL 0],
          nextId := 3, pointsRule := 1 }
        (Op.loadFromFile decimalText (some [])) =
      Except.ok { members := [], nextId := 1, pointsRule := 1 } :=
  ⟨by with_unfolding_all rfl, by with_unfolding_all rfl⟩

theorem loadLine_nextId (io : DoubleText) (s s1 : MemberManager) (line : List Char)
    (h : loadLine io s line = Except.ok s1) : s.nextId ≤ s1.nextId := by
  rcases loadLine_cases io s s1 line h with rfl | ⟨_, _, _, _, _, _, _, _, _, _, _, rfl⟩
  · exact le_refl _
  · exact le_max_left _ _

theorem loadLines_nextId (io : DoubleText) (lines : List (List Char))
    (s s1 : MemberManager) (h : loadLines io s lines = Except.ok s1) :
    s.nextId ≤ s1.nextId := by
  induction lines generalizing s with
  | nil =>
    simp only [loadLines, pure, Except.pure] at h
    injection h with h
    subst h
    exact le_refl _
  | cons line lines ih =>
    unfold loadLines at h
    split at h
    · next s2 h2 => exact le_trans (loadLine_nextId io s s2 line h2) (ih s2 h)
    · exact absurd h (by simp)

/-- C14, amended: the counter starts at 1; where it stays in the range of `int` (`addMember`
with `nextId` below 2147483647, `loadFromFile` of ids below 2147483647), `addMember`,
`deleteMember`, `updateMemberPhone`, `addSpending`, `redeemPoints`, `setPointsRule` and
`saveToFile` never decrease `nextId`, and neither does `loadFromFile` on a file that cannot be
opened; `loadFromFile` on a file that can be opened restarts the counter, and `nextId` is at
least 1 after it. -/
theorem nextId_not_decremented :
    MemberManager.init.nextId = 1 ∧
    (∀ (s s1 : MemberManager) (op : Op), op.isLoad = false → op.counterFits s = true →
      s.run op = Except.ok s1 → s.nextId ≤ s1.nextId) ∧
    (∀ (s : MemberManager) (io : DoubleText), s.loadFromFile io none = Except.ok s) ∧
    (∀ (s s1 : MemberManager) (io : DoubleText) (text : List Char),
      (Op.loadFromFile io (some text)).counterFits s = true →
      s.loadFromFile io (some text) = Except.ok s1 → 1 ≤ s1.nextId) := by
  refine ⟨rfl, ?_, fun _ _ => rfl, ?_⟩
  · intro s s1 op hop _ h
    cases op with
    | loadFromFile io file => exact absurd hop (by simp [Op.isLoad])
    | addMember name phone birthday =>
      simp only [MemberManager.run, pure, Except.pure] at h
      injection h with h
      subst h
      show s.nextId ≤ s.nextId + 1
      omega
    | deleteMember memberId =>
      simp only [MemberManager.run, pure, Except.pure] at h
      injection h with h
      subst h
      exact le_refl _
    | updateMemberPhone id newPhone =>
      simp only [MemberManager.run, pure, Except.pure] at h
      injection h with h
      subst h
      exact le_refl _
    | addSpending currentYear id amount =>
      simp only [MemberManager.run, pure, Except.pure] at h
      injection h with h
      subst h
      exact le_refl _
    | redeemPoints id pointsToRedeem =>
      simp only [MemberManager.run, pure, Except.pure] at h
      injection h with h
      subst h
      exact le_refl _
    | setPointsRule rule =>
      simp only [MemberManager.run, pure, Except.pure] at h
      injection h with h
      subst h
      exact le_refl _
    | saveToFile io =>
      simp only [MemberManager.run, pure, Except.pure] at h
      injection h with h
      subst h
      exact le_refl _
  · intro s s1 io text _ h
    simp only [MemberManager.loadFromFile] at h
    exact loadLines_nextId io _ _ s1 h

/-- Witness of C14 (amended): adding to `pairRegistry`, whose `nextId` is 10, raises `nextId`,
and loading a file with one record of id 3 leaves `nextId` at 4. -/
theorem nextId_not_decremented_witness :
    pairRegistry.nextId ≤ (pairRegistry.addMember "Cy" "13800000003" "1993-03-03").nextId ∧
    1 ≤ MemberManager.nextId
      { members := [Member.ctor 3 "Wu" "13900000000" "1985-01-02" 1 25000 Level.DIAMOND 2023],
        nextId := 4, pointsRule := 2 } :=
  ⟨nextId_not_decremented.2.1 pairRegistry
      (pairRegistry.addMember "Cy" "13800000003" "1993-03-03")
      (Op.addMember "Cy" "13800000003" "1993-03-03") rfl (by with_unfolding_all rfl) rfl,
    nextId_not_decremented.2.2.2 pairRegistry
      { members := [Member.ctor 3 "Wu" "13900000000" "1985-01-02" 1 25000 Level.DIAMOND 2023],
        nextId := 4, pointsRule := 2 }
      decimalText "3,Wu,13900000000,1985-01-02,25000,10,1,25000,0,2023\n".data
      (by with_unfolding_all rfl) (by with_unfolding_all rfl)⟩

/-! ## Lemmas on `loadLine` -/

theorem parsed_ok {α : Type} {r : Except StoError α} (h : parsed r = true) :
    ∃ v, r = Except.ok v := by
  cases r with
  | ok v => exact ⟨v, rfl⟩
  | error e => simp [parsed] at h

theorem loadLine_skip (io : DoubleText) (s : MemberManager) (line : List Char)
    (h : tenFields line = false) : loadLine io s line = Except.ok s := by
  unfold loadLine
  split
  · next heq => simp [tenFields, heq] at h
  · rfl

theorem ten_fields_eq (l : List (List Char)) (h : l.length = 10) :
    ∃ d0 d1 d2 d3 d4 d5 d6 d7 d8 d9, l = [d0, d1, d2, d3, d4, d5, d6, d7, d8, d9] := by
  match l, h with
  | [d0, d1, d2, d3, d4, d5, d6, d7, d8, d9], _ => exact ⟨d0, d1, d2, d3, d4, d5, d6, d7, d8, d9, rfl⟩

/-- What `loadLine` does on a 10-field line whose seven conversions succeed. -/
theorem loadLine_ten (io : DoubleText) (s : MemberManager) (line : List Char)
    (d0 d1 d2 d3 d4 d5 d6 d7 d8 d9 : List Char)
    (id : Int) (total : ℚ) (points rate : Int) (annual : ℚ) (level year : Int)
    (hf : getlines ',' line = [d0, d1, d2, d3, d4, d5, d6, d7, d8, d9])
    (h0 : stoi d0 = Except.ok id) (h4 : io.stod d4 = Except.ok total)
    (h5 : stoi d5 = Except.ok points) (h6 : stoi d6 = Except.ok rate)
    (h7 : io.stod d7 = Except.ok annual) (h8 : stoi d8 = Except.ok level)
    (h9 : stoi d9 = Except.ok year) :
    loadLine io s line =
      Except.ok
        { members := s.members ++
            [(Member.ctor id (String.mk d1) (String.mk d2) (String.mk d3)
                (if rate < 1 then 1 else rate) (if annual < 0 then 0 else annual)
                (Level.ofInt (if level < 0 ∨ level > 3 then 0 else level))
                (if year < 0 then 0 else year)).setPointsRule (if rate < 1 then 1 else rate)],
          nextId := max s.nextId (id + 1), pointsRule := s.pointsRule } := by
  unfold loadLine
  rw [hf]
  simp only [bind, Except.bind, pure, Except.pure, h0, h4, h5, h6, h7, h8, h9]

theorem clamp_int (lo v : Int) : (if v < lo then lo else v) = max lo v := by
  split_ifs with h
  · exact (max_eq_left (le_of_lt h)).symm
  · exact (max_eq_right (not_lt.mp h)).symm

theorem clamp_rat (lo v : ℚ) : (if v < lo then lo else v) = max lo v := by
  split_ifs with h
  · exact (max_eq_left (le_of_lt h)).symm
  · exact (max_eq_right (not_lt.mp h)).symm

theorem setPointsRule_of_pos (m : Member) (r : Int) (h : 1 ≤ r) :
    m.setPointsRule r = { m with pointsPerDollar := r } := by
  have h' : ¬ r ≤ 0 := by omega
  simp [Member.setPointsRule, h']

theorem level_cases (l : Level) :
    l ∈ [Level.NORMAL, Level.SILVER, Level.GOLD, Level.DIAMOND] := by
  cases l <;> simp

theorem lineParses_fields (io : DoubleText) (line : List Char)
    (d0 d1 d2 d3 d4 d5 d6 d7 d8 d9 : List Char)
    (hf : getlines ',' line = [d0, d1, d2, d3, d4, d5, d6, d7, d8, d9])
    (h : lineParses io line = true) :
    (∃ v, stoi d0 = Except.ok v) ∧ (∃ v, io.stod d4 = Except.ok v) ∧
    (∃ v, stoi d5 = Except.ok v) ∧ (∃ v, stoi d6 = Except.ok v) ∧
    (∃ v, io.stod d7 = Except.ok v) ∧ (∃ v, stoi d8 = Except.ok v) ∧
    (∃ v, stoi d9 = Except.ok v) := by
  unfold lineParses at h
  rw [hf] at h
  simp only [Bool.and_eq_true] at h
  obtain ⟨⟨⟨⟨⟨⟨a0, a4⟩, a5⟩, a6⟩, a7⟩, a8⟩, a9⟩ := h
  exact ⟨parsed_ok a0, parsed_ok a4, parsed_ok a5, parsed_ok a6, parsed_ok a7, parsed_ok a8,
    parsed_ok a9⟩

/-- On a 10-field line that parses, `loadLine` appends one account, and that account is the
clamped record of the line. -/
theorem loadLine_clamped (io : DoubleText) (s : MemberManager) (line : List Char)
    (ht : tenFields line = true) (h : lineParses io line = true) :
    ∃ (m : Member) (id : Int),
      loadLine io s line =
        Except.ok { members := s.members ++ [m], nextId := max s.nextId (id + 1),
                    pointsRule := s.pointsRule } ∧
      m.id = id ∧ ClampedRecord io line m := by
  have hlen : (getlines ',' line).length = 10 := by simpa [tenFields] using ht
  obtain ⟨d0, d1, d2, d3, d4, d5, d6, d7, d8, d9, hf⟩ := ten_fields_eq _ hlen
  obtain ⟨⟨id, h0⟩, ⟨total, h4⟩, ⟨points, h5⟩, ⟨rate, h6⟩, ⟨annual, h7⟩, ⟨level, h8⟩,
    ⟨year, h9⟩⟩ := lineParses_fields io line d0 d1 d2 d3 d4 d5 d6 d7 d8 d9 hf h
  have hr : (1 : Int) ≤ (if rate < 1 then 1 else rate) := by
    rw [clamp_int]
    exact le_max_left _ _
  refine ⟨_, id, loadLine_ten io s line d0 d1 d2 d3 d4 d5 d6 d7 d8 d9 id total points rate
    annual level year hf h0 h4 h5 h6 h7 h8 h9, ?_, ?_⟩
  · rw [setPointsRule_of_pos _ _ hr]
    rfl
  · refine ⟨d0, d1, d2, d3, d4, d5, d6, d7, d8, d9, rate, annual, year, hf, h6, h7, h9,
      ?_, ?_, ?_, ?_, ?_, level_cases _⟩
    · rw [setPointsRule_of_pos _ _ hr, ← clamp_int]
    · rw [setPointsRule_of_pos _ _ hr, ← clamp_rat]
      rfl
    · rw [setPointsRule_of_pos _ _ hr, ← clamp_int]
      rfl
    · rw [setPointsRule_of_pos _ _ hr]
      exact le_refl 0
    · rw [setPointsRule_of_pos _ _ hr]
      show (0 : ℚ) ≤ (if annual < 0 then 0 else annual)
      rw [clamp_rat]
      exact le_max_left _ _

/-- When every 10-field line parses, the loop over the lines returns, and the accounts it
appends correspond one by one, in order, to the 10-field lines. -/
theorem loadLines_clamped (io : DoubleText) (lines : List (List Char)) (s : MemberManager)
    (h : ∀ line ∈ lines, lineParses io line = true) :
    ∃ s1 added, loadLines io s lines = Except.ok s1 ∧ s1.members = s.members ++ added ∧
      List.Forall₂ (ClampedRecord io) (lines.filter tenFields) added := by
  induction lines generalizing s with
  | nil => exact ⟨s, [], rfl, by simp, by simp⟩
  | cons line lines ih =>
    have hl : ∀ l ∈ lines, lineParses io l = true :=
      fun l hl => h l (List.mem_cons_of_mem line hl)
    by_cases ht : tenFields line = true
    · obtain ⟨m, id, hstep, _, hrec⟩ :=
        loadLine_clamped io s line ht (h line (List.mem_cons_self line lines))
      obtain ⟨s1, added, hrun, hmem, hrel⟩ :=
        ih { members := s.members ++ [m], nextId := max s.nextId (id + 1),
             pointsRule := s.pointsRule } hl
      refine ⟨s1, m :: added, ?_, ?_, ?_⟩
      · simp only [loadLines, hstep]
        exact hrun
      · rw [hmem]
        simp
      · rw [List.filter_cons_of_pos ht]
        exact List.Forall₂.cons hrec hrel
    · have ht' : tenFields line = false := by simpa using ht
      obtain ⟨s1, added, hrun, hmem, hrel⟩ := ih s hl
      refine ⟨s1, added, ?_, hmem, ?_⟩
      · simp only [loadLines, loadLine_skip io s line ht']
        exact hrun
      · rw [List.filter_cons_of_neg ht]
        exact hrel

/-! ## Claims about the restore -/

theorem setPointsRule_id (m : Member) (r : Int) : (m.setPointsRule r).id = m.id := by
  unfold Member.setPointsRule
  split_ifs <;> rfl

theorem ctor_id (id : Int) (name phone birthday : String) (rule : Int) (annualSpent : ℚ)
    (level : Level) (lastYear : Int) :
    (Member.ctor id name phone birthday rule annualSpent level lastYear).id = id :=
  rfl

theorem loadLine_ids (io : DoubleText) (s s1 : MemberManager) (line : List Char)
    (h : loadLine io s line = Except.ok s1) :
    (lineId line = none ∧ s1 = s) ∨
    (∃ id, lineId line = some id ∧ s1.ids = s.ids ++ [id] ∧
      s1.nextId = max s.nextId (id + 1) ∧ s1.pointsRule = s.pointsRule) := by
  by_cases ht : tenFields line = true
  · have hlen : (getlines ',' line).length = 10 := by simpa [tenFields] using ht
    obtain ⟨d0, d1, d2, d3, d4, d5, d6, d7, d8, d9, hf⟩ := ten_fields_eq _ hlen
    unfold loadLine at h
    rw [hf] at h
    simp only [bind, Except.bind, pure, Except.pure] at h
    cases h0 : stoi d0 with
    | error e =>
      rw [h0] at h
      cases h
    | ok v0 =>
      rw [h0] at h
      right
      refine ⟨v0, by simp [lineId, hf, h0], ?_⟩
      simp only at h
      repeat' split at h
      all_goals first
        | (injection h with h
           subst h
           exact ⟨by simp [MemberManager.ids, setPointsRule_id, ctor_id], rfl, rfl⟩)
        | cases h
  · have ht' : tenFields line = false := by simpa using ht
    rw [loadLine_skip io s line ht'] at h
    injection h with h
    left
    refine ⟨?_, h.symm⟩
    unfold lineId
    split
    · next heq => simp [tenFields, heq] at ht'
    · rfl

theorem loadLines_ids (io : DoubleText) (lines : List (List Char)) (s s1 : MemberManager)
    (h : loadLines io s lines = Except.ok s1) :
    s1.ids = s.ids ++ lines.filterMap lineId ∧
    s1.nextId = (lines.filterMap lineId).foldl (fun a i => max a (i + 1)) s.nextId ∧
    s1.pointsRule = s.pointsRule := by
  induction lines generalizing s with
  | nil =>
    simp only [loadLines, pure, Except.pure] at h
    injection h with h
    subst h
    simp
  | cons line lines ih =>
    unfold loadLines at h
    split at h
    · next s2 h2 =>
      obtain ⟨e1, e2, e3⟩ := ih s2 h
      rcases loadLine_ids io s s2 line h2 with ⟨hnone, rfl⟩ | ⟨id, hsome, hids, hnext, hrule⟩
      · simp [List.filterMap_cons, hnone, e1, e2, e3]
      · simp [List.filterMap_cons, hsome, e1, e2, e3, hids, hnext, hrule]
    · cases h

/-- The counter after a run of `nextId = max(nextId, id + 1)` over the ids: it is the start
value or one more than an id, and it is above the start value and every id. -/
theorem foldl_max_spec (ids : List Int) (n0 : Int) :
    n0 ≤ ids.foldl (fun a i => max a (i + 1)) n0 ∧
    (∀ i ∈ ids, i < ids.foldl (fun a i => max a (i + 1)) n0) ∧
    (ids.foldl (fun a i => max a (i + 1)) n0 = n0 ∨
      ∃ i ∈ ids, ids.foldl (fun a i => max a (i + 1)) n0 = i + 1) := by
  induction ids generalizing n0 with
  | nil => simp
  | cons i ids ih =>
    obtain ⟨h1, h2, h3⟩ := ih (max n0 (i + 1))
    simp only [List.foldl_cons]
    have hl : n0 ≤ max n0 (i + 1) := le_max_left _ _
    have hr : i + 1 ≤ max n0 (i + 1) := le_max_right _ _
    refine ⟨le_trans hl h1, ?_, ?_⟩
    · intro j hj
      rcases List.mem_cons.mp hj with rfl | hj
      · omega
      · exact h2 j hj
    · rcases h3 with h3 | ⟨j, hj, h3⟩
      · rcases max_cases n0 (i + 1) with ⟨hm, _⟩ | ⟨hm, _⟩
        · left
          rw [h3, hm]
        · right
          exact ⟨i, List.mem_cons_self i ids, by rw [h3, hm]⟩
      · right
        exact ⟨j, List.mem_cons_of_mem i hj, h3⟩

theorem updateFirst_ids (id : Int) (f : Member → Member) (hf : ∀ m, m.id = id → (f m).id = m.id)
    (l : List Member) :
    (updateFirst id f l).map (fun m => m.id) = l.map (fun m => m.id) := by
  induction l with
  | nil => rfl
  | cons a l ih =>
    unfold updateFirst
    split_ifs with ha
    · simp [hf a ha]
    · simp [ih]

/-- The ids of the accounts are pairwise distinct and below `nextId`. -/
theorem run_ids_distinct (s s1 : MemberManager) (op : Op) (hop : op.distinctIds)
    (hn : s.ids.Nodup) (hlt : ∀ i ∈ s.ids, i < s.nextId) (h : s.run op = Except.ok s1) :
    s1.ids.Nodup ∧ ∀ i ∈ s1.ids, i < s1.nextId := by
  cases op with
  | addMember name phone birthday =>
    simp only [MemberManager.run, pure, Except.pure] at h
    injection h with h
    subst h
    have hids : (s.addMember name phone birthday).ids = s.ids ++ [s.nextId] := by
      simp [MemberManager.ids, MemberManager.addMember, ctor_id]
    rw [hids]
    constructor
    · rw [List.nodup_append]
      refine ⟨hn, List.nodup_singleton _, ?_⟩
      intro a ha hb
      rw [List.mem_singleton] at hb
      have := hlt a ha
      omega
    · intro i hi
      show i < s.nextId + 1
      rcases List.mem_append.mp hi with hi | hi
      · have := hlt i hi
        omega
      · rw [List.mem_singleton] at hi
        omega
  | deleteMember memberId =>
    simp only [MemberManager.run, pure, Except.pure] at h
    injection h with h
    subst h
    have hsub : (s.deleteMember memberId).ids.Sublist s.ids :=
      List.Sublist.map _ (List.eraseP_sublist s.members)
    exact ⟨hn.sublist hsub, fun i hi => hlt i (hsub.subset hi)⟩
  | updateMemberPhone id newPhone =>
    simp only [MemberManager.run, pure, Except.pure] at h
    injection h with h
    subst h
    have hids : (s.updateMemberPhone id newPhone).ids = s.ids :=
      updateFirst_ids id _ (fun m hm => by simp [ctor_id, hm]) s.members
    rw [hids]
    exact ⟨hn, hlt⟩
  | addSpending currentYear id amount =>
    simp only [MemberManager.run, pure, Except.pure] at h
    injection h with h
    subst h
    have hids : (s.addSpending currentYear id amount).ids = s.ids :=
      updateFirst_ids id _ (fun m _ => by
        by_cases hy : m.lastYear = currentYear <;>
          simp [Member.addSpending, Member.determineLevel, hy]) s.members
    rw [hids]
    exact ⟨hn, hlt⟩
  | redeemPoints id pointsToRedeem =>
    simp only [MemberManager.run, pure, Except.pure] at h
    injection h with h
    subst h
    have hids : (s.redeemPoints id pointsToRedeem).ids = s.ids :=
      updateFirst_ids id _ (fun m _ => by
        unfold Member.redeemPoints
        split_ifs <;> rfl) s.members
    rw [hids]
    exact ⟨hn, hlt⟩
  | setPointsRule rule =>
    simp only [MemberManager.run, pure, Except.pure] at h
    injection h with h
    subst h
    have hids : (s.setPointsRule rule).ids = s.ids := by
      simp [MemberManager.ids, MemberManager.setPointsRule, Function.comp_def, setPointsRule_id]
    rw [hids]
    exact ⟨hn, hlt⟩
  | saveToFile io =>
    simp only [MemberManager.run, pure, Except.pure] at h
    injection h with h
    subst h
    exact ⟨hn, hlt⟩
  | loadFromFile io file =>
    cases file with
    | none =>
      simp only [MemberManager.run, MemberManager.loadFromFile, pure, Except.pure] at h
      injection h with h
      subst h
      exact ⟨hn, hlt⟩
    | some text =>
      simp only [MemberManager.run, MemberManager.loadFromFile] at h
      obtain ⟨e1, e2, _⟩ := loadLines_ids io _ _ s1 h
      have hids : s1.ids = textIds text := by
        rw [e1]
        simp [MemberManager.ids, textIds]
      rw [hids]
      refine ⟨hop, ?_⟩
      intro i hi
      rw [e2]
      exact (foldl_max_spec _ 1).2.1 i hi

/-- C12, counterexample: loading `twinText`, a file with two records of id 5, into the empty
registry gives two accounts of id 5. -/
theorem load_duplicate_ids :
    ∃ s, MemberManager.init.runAll [Op.loadFromFile decimalText (some twinText)] = Except.ok s ∧
      s.ids = [5, 5] :=
  ⟨_, rfl, by with_unfolding_all rfl⟩

/-- C12, amended: in every registry reached from the empty registry by `addMember`,
`deleteMember`, `updateMemberPhone`, `addSpending`, `redeemPoints`, `setPointsRule`,
`saveToFile` and by `loadFromFile` of texts whose 10-field lines carry pairwise distinct ids,
the id counter staying in the range of `int` at every step (`nextId` below 2147483647 at each
`addMember`, ids below 2147483647 in each text), no two accounts have the same id. -/
theorem ids_distinct (ops : List Op) (s : MemberManager)
    (hops : ∀ op ∈ ops, op.distinctIds)
    (_hfit : MemberManager.init.countersFit ops = true)
    (h : MemberManager.init.runAll ops = Except.ok s) :
    s.ids.Nodup ∧
    ∀ (l1 : List Member) (a : Member) (l2 : List Member) (b : Member) (l3 : List Member),
      s.members = l1 ++ a :: l2 ++ b :: l3 → a.id ≠ b.id := by
  have key : ∀ (ops : List Op) (s0 s1 : MemberManager), (∀ op ∈ ops, op.distinctIds) →
      s0.ids.Nodup → (∀ i ∈ s0.ids, i < s0.nextId) → s0.runAll ops = Except.ok s1 →
      s1.ids.Nodup := by
    intro ops
    induction ops with
    | nil =>
      intro s0 s1 _ hn _ h
      simp only [MemberManager.runAll, pure, Except.pure] at h
      injection h with h
      subst h
      exact hn
    | cons op ops ih =>
      intro s0 s1 hops hn hlt h
      unfold MemberManager.runAll at h
      split at h
      · next s2 h2 =>
        obtain ⟨hn2, hlt2⟩ := run_ids_distinct s0 s2 op (hops op (List.mem_cons_self op ops))
          hn hlt h2
        exact ih s2 s1 (fun o ho => hops o (List.mem_cons_of_mem op ho)) hn2 hlt2 h
      · cases h
  have hn : s.ids.Nodup :=
    key ops MemberManager.init s hops (by simp [MemberManager.ids, MemberManager.init])
      (by simp [MemberManager.ids, MemberManager.init]) h
  refine ⟨hn, ?_⟩
  intro l1 a l2 b l3 hs hab
  unfold MemberManager.ids at hn
  rw [hs] at hn
  simp only [List.map_append, List.map_cons, List.append_assoc] at hn
  have h2 := (List.nodup_append.mp hn).2.1
  rw [List.cons_append, List.nodup_cons] at h2
  exact h2.1 (by simp [hab])

/-! ## Lemmas on the text of integers -/

theorem digitChar_spec (k : Nat) (h : k < 10) :
    isDigit (Nat.digitChar k) = true ∧ (Nat.digitChar k).toNat - 48 = k := by
  interval_cases k <;> decide

theorem digitsValue_append (l : List Nat) (d : Nat) :
    digitsValue (l ++ [d]) = 10 * digitsValue l + d := by
  simp [digitsValue, List.foldl_append]

/-- The characters that `Nat.toDigitsCore` puts in front of its accumulator are decimal digits,
at least one of them, and they write the number. -/
theorem digitsCore_value (fuel n : Nat) (acc : List Char) (hfuel : n < fuel) :
    ∃ run : List Char, (∀ c ∈ run, isDigit c = true) ∧ run ≠ [] ∧
      digitsValue (run.map (fun c => c.toNat - 48)) = n ∧
      Nat.toDigitsCore 10 fuel n acc = run ++ acc := by
  induction fuel generalizing n acc with
  | zero => omega
  | succ fuel ih =>
    have hd := digitChar_spec (n % 10) (Nat.mod_lt n (by decide))
    unfold Nat.toDigitsCore
    by_cases h0 : n / 10 = 0
    · simp only [h0, if_true]
      refine ⟨[Nat.digitChar (n % 10)], ?_, by simp, ?_, rfl⟩
      · intro c hc
        rw [List.mem_singleton] at hc
        rw [hc]
        exact hd.1
      · simp only [List.map_cons, List.map_nil, digitsValue, List.foldl_cons, List.foldl_nil, hd.2]
        omega
    · simp only [h0, if_false]
      obtain ⟨run, hdig, _, hval, e⟩ :=
        ih (n / 10) (Nat.digitChar (n % 10) :: acc) (by omega)
      refine ⟨run ++ [Nat.digitChar (n % 10)], ?_, by simp, ?_, by rw [e]; simp⟩
      · intro c hc
        rcases List.mem_append.mp hc with hc | hc
        · exact hdig c hc
        · rw [List.mem_singleton] at hc
          rw [hc]
          exact hd.1
      · rw [List.map_append, List.map_cons, List.map_nil, digitsValue_append, hval, hd.2]
        omega

theorem toDigits_spec (n : Nat) :
    Nat.toDigits 10 n ≠ [] ∧ (∀ c ∈ Nat.toDigits 10 n, isDigit c = true) ∧
    digitsValue ((Nat.toDigits 10 n).map (fun c => c.toNat - 48)) = n := by
  obtain ⟨run, hdig, hne, hval, e⟩ := digitsCore_value (n + 1) n [] (by omega)
  have e' : Nat.toDigits 10 n = run := by
    unfold Nat.toDigits
    rw [e]
    simp
  rw [e']
  exact ⟨hne, hdig, hval⟩

theorem takeDigits_digits (ds : List Char) (h : ∀ c ∈ ds, isDigit c = true) :
    takeDigits ds = ds.map (fun c => c.toNat - 48) := by
  induction ds with
  | nil => rfl
  | cons c ds ih =>
    have hc : isDigit c = true := h c (List.mem_cons_self c ds)
    have hds : ∀ x ∈ ds, isDigit x = true := fun x hx => h x (List.mem_cons_of_mem c hx)
    simp [takeDigits, hc, ih hds]

theorem isDigit_bounds (c : Char) (h : isDigit c = true) : 48 ≤ c.toNat ∧ c.toNat ≤ 57 := by
  simpa [isDigit] using h

theorem isDigit_not_space (c : Char) (h : isDigit c = true) : isSpace c = false := by
  have hb := isDigit_bounds c h
  simp only [isSpace, Bool.or_eq_false_iff, Bool.and_eq_false_iff, decide_eq_false_iff_not]
  omega

theorem isDigit_ne (c d : Char) (h : isDigit c = true) (hd : isDigit d = false) : c ≠ d := by
  intro e
  rw [e, hd] at h
  cases h

theorem skipSpaces_head (c : Char) (cs : List Char) (h : isSpace c = false) :
    skipSpaces (c :: cs) = c :: cs := by
  simp [skipSpaces, h]

theorem readSign_head (c : Char) (cs : List Char) (h1 : c ≠ '-') (h2 : c ≠ '+') :
    readSign (c :: cs) = (false, c :: cs) := by
  unfold readSign
  split
  · next heq =>
    injection heq with e _
    exact absurd e h1
  · next heq =>
    injection heq with e _
    exact absurd e h2
  · rfl

/-- `std::stoi` reads back the decimal digits of a natural number. -/
theorem stoi_digits (n : Nat) (h : (n : Int) ≤ 2147483647) :
    stoi (Nat.toDigits 10 n) = Except.ok (n : Int) := by
  obtain ⟨hne, hdig, hval⟩ := toDigits_spec n
  cases hds : Nat.toDigits 10 n with
  | nil => exact absurd hds hne
  | cons c cs =>
    rw [hds] at hdig hval
    have hc : isDigit c = true := hdig c (List.mem_cons_self c cs)
    have htake := takeDigits_digits (c :: cs) hdig
    unfold stoi
    rw [skipSpaces_head c cs (isDigit_not_space c hc),
      readSign_head c cs (isDigit_ne c '-' hc (by decide)) (isDigit_ne c '+' hc (by decide))]
    simp only [htake, hval]
    have hne' : ¬ (List.map (fun c => c.toNat - 48) (c :: cs) = []) := by simp
    rw [if_neg hne']
    have hr : ¬ ((n : Int) < -2147483648 ∨ (n : Int) > 2147483647) := by omega
    simp only [Bool.false_eq_true, if_false, hr]

/-- `std::stoi` reads back the text that `operator<<` writes for an `int`. -/
theorem stoi_putInt (v : Int) (h : int32 v) : stoi (putInt v) = Except.ok v := by
  obtain ⟨hlo, hhi⟩ := h
  cases v with
  | ofNat n => exact stoi_digits n hhi
  | negSucc n =>
    obtain ⟨hne, hdig, hval⟩ := toDigits_spec (n + 1)
    have htake := takeDigits_digits _ hdig
    have hsp : isSpace '-' = false := by decide
    unfold putInt stoi
    rw [skipSpaces_head '-' _ hsp]
    show (match ((true, Nat.toDigits 10 (n + 1)) : Bool × List Char) with
      | (neg, rest) => _) = _
    simp only [htake, hval]
    have hne' : ¬ (List.map (fun c => c.toNat - 48) (Nat.toDigits 10 (n + 1)) = []) := by
      simpa using hne
    rw [if_neg hne']
    have hr : ¬ (-((n + 1 : Nat) : Int) < -2147483648 ∨ -((n + 1 : Nat) : Int) > 2147483647) := by
      have : Int.negSucc n = -((n + 1 : Nat) : Int) := rfl
      omega
    simp only [if_true, hr, if_false]
    rfl

theorem putInt_chars (v : Int) : ∀ c ∈ putInt v, c = '-' ∨ isDigit c = true := by
  cases v with
  | ofNat n =>
    intro c hc
    exact Or.inr ((toDigits_spec n).2.1 c hc)
  | negSucc n =>
    intro c hc
    rcases List.mem_cons.mp hc with h | h
    · exact Or.inl h
    · exact Or.inr ((toDigits_spec (n + 1)).2.1 c h)

theorem putInt_clean (v : Int) : cleanText (putInt v) := by
  constructor
  · intro h
    rcases putInt_chars v _ h with h | h
    · exact absurd h (by decide)
    · exact absurd h (by decide)
  · intro h
    rcases putInt_chars v _ h with h | h
    · exact absurd h (by decide)
    · exact absurd h (by decide)

theorem putInt_ne_nil (v : Int) : putInt v ≠ [] := by
  cases v with
  | ofNat n => exact (toDigits_spec n).1
  | negSucc n => simp [putInt]

/-! ## Lemmas on the text written by `saveToFile` -/

theorem getlines_append (d : Char) (a rest : List Char) (h : d ∉ a) :
    getlines d (a ++ d :: rest) = a :: getlines d rest := by
  induction a with
  | nil => simp [getlines]
  | cons c a ih =>
    have hc : c ≠ d := fun e => h (e ▸ List.mem_cons_self c a)
    have ha : d ∉ a := fun e => h (List.mem_cons_of_mem c e)
    simp [getlines, hc, ih ha]

theorem getlines_cons (d c : Char) (cs : List Char) (h : c ≠ d) :
    getlines d (c :: cs) =
      match getlines d cs with
      | [] => [[c]]
      | piece :: pieces => (c :: piece) :: pieces := by
  simp [getlines, h]

theorem getlines_last (d : Char) (a : List Char) (h : d ∉ a) (hne : a ≠ []) :
    getlines d a = [a] := by
  induction a with
  | nil => exact absurd rfl hne
  | cons c a ih =>
    have hc : c ≠ d := fun e => h (e ▸ List.mem_cons_self c a)
    have ha : d ∉ a := fun e => h (List.mem_cons_of_mem c e)
    cases a with
    | nil => simp [getlines, hc]
    | cons b a => rw [getlines_cons d c _ hc, ih ha (by simp)]

theorem saveLine_eq (io : DoubleText) (m : Member) :
    saveLine io m = recordText io m ++ ['\n'] := by
  simp [saveLine, recordText, List.append_assoc]

theorem level_int32 (l : Level) : int32 l.toInt := by
  cases l <;> simp [int32, Level.toInt]

theorem recordText_fields (io : DoubleText) (m : Member) (h : m.storable io) :
    getlines ',' (recordText io m) = saveFields io m := by
  obtain ⟨_, _, _, _, hn, hp, hb, ht, ha⟩ := h
  unfold recordText saveFields
  rw [getlines_append ',' _ _ (putInt_clean _).1, getlines_append ',' _ _ hn.1,
    getlines_append ',' _ _ hp.1, getlines_append ',' _ _ hb.1,
    getlines_append ',' _ _ ht.1.1, getlines_append ',' _ _ (putInt_clean _).1,
    getlines_append ',' _ _ (putInt_clean _).1, getlines_append ',' _ _ ha.1.1,
    getlines_append ',' _ _ (putInt_clean _).1,
    getlines_last ',' _ (putInt_clean _).1 (putInt_ne_nil _)]

theorem recordText_no_newline (io : DoubleText) (m : Member) (h : m.storable io) :
    '\n' ∉ recordText io m := by
  obtain ⟨_, _, _, _, hn, hp, hb, ht, ha⟩ := h
  have hi : ∀ v : Int, '\n' ∉ putInt v := fun v => (putInt_clean v).2
  unfold recordText
  simp only [List.mem_append, List.mem_cons, not_or]
  refine ⟨hi _, by decide, hn.2, by decide, hp.2, by decide, hb.2, by decide, ht.1.2, by decide,
    hi _, by decide, hi _, by decide, ha.1.2, by decide, hi _, by decide, hi _⟩

theorem saved_lines (io : DoubleText) (members : List Member)
    (h : ∀ m ∈ members, m.storable io) :
    getlines '\n' (members.map (saveLine io)).flatten = members.map (recordText io) := by
  induction members with
  | nil => rfl
  | cons m members ih =>
    have hm := h m (List.mem_cons_self m members)
    have hrest : ∀ x ∈ members, x.storable io :=
      fun x hx => h x (List.mem_cons_of_mem m hx)
    rw [List.map_cons, List.flatten_cons, saveLine_eq, List.append_assoc, List.singleton_append,
      getlines_append '\n' _ _ (recordText_no_newline io m hm), ih hrest, List.map_cons]

theorem recordText_tenFields (io : DoubleText) (m : Member) (h : m.storable io) :
    tenFields (recordText io m) = true := by
  simp [tenFields, recordText_fields io m h, saveFields]

theorem recordText_parses (io : DoubleText) (m : Member) (h : m.storable io) :
    lineParses io (recordText io m) = true := by
  have hf := recordText_fields io m h
  obtain ⟨h1, h2, h3, h4, _, _, _, ht, ha⟩ := h
  unfold lineParses
  rw [hf]
  have hok : ∀ v : Int, parsed (Except.ok v : Except StoError Int) = true := fun _ => rfl
  simp only [saveFields, stoi_putInt _ h1, stoi_putInt _ h2, stoi_putInt _ h3, stoi_putInt _ h4,
    stoi_putInt _ (level_int32 _), hok, ht.2, ha.2, Bool.and_self]

theorem recordText_id (io : DoubleText) (m : Member) (h : m.storable io) :
    lineId (recordText io m) = some m.id := by
  have hf := recordText_fields io m h
  unfold lineId
  rw [hf]
  simp only [saveFields, stoi_putInt _ h.1]

theorem saved_ids (io : DoubleText) (s : MemberManager) (h : ∀ m ∈ s.members, m.storable io) :
    textIds (s.saveToFile io) = s.ids := by
  unfold textIds MemberManager.saveToFile MemberManager.ids
  rw [saved_lines io s.members h]
  have key : ∀ l : List Member, (∀ m ∈ l, m.storable io) →
      (l.map (recordText io)).filterMap lineId = l.map (fun m => m.id) := by
    intro l
    induction l with
    | nil => intro _; rfl
    | cons m l ih =>
      intro hl
      rw [List.map_cons, List.filterMap_cons,
        recordText_id io m (hl m (List.mem_cons_self m l)),
        ih (fun x hx => hl x (List.mem_cons_of_mem m hx))]
      rfl
  exact key s.members h

theorem saved_parses (io : DoubleText) (s : MemberManager)
    (h : ∀ m ∈ s.members, m.storable io) :
    ∀ line ∈ getlines '\n' (s.saveToFile io), lineParses io line = true := by
  unfold MemberManager.saveToFile
  rw [saved_lines io s.members h]
  intro line hl
  obtain ⟨m, hm, rfl⟩ := List.mem_map.mp hl
  exact recordText_parses io m (h m hm)

/-- Witness of C12 (amended): a member is added, `clampText` (one record, id 1) is loaded, and a
member is added again. -/
theorem ids_distinct_witness :
    MemberManager.ids
      { members := [Member.ctor 1 "An" "13800000001" "1991-01-01" 1 0 Level.NORMAL 0,
                    Member.ctor 2 "Bo" "13800000002" "1992-02-02" 1 0 Level.NORMAL 0],
        nextId := 3, pointsRule := 1 } = [1, 2] ∧
    (MemberManager.ids
      { members := [Member.ctor 1 "An" "13800000001" "1991-01-01" 1 0 Level.NORMAL 0,
                    Member.ctor 2 "Bo" "13800000002" "1992-02-02" 1 0 Level.NORMAL 0],
        nextId := 3, pointsRule := 1 }).Nodup :=
  ⟨rfl,
    (ids_distinct
      [Op.addMember "Cy" "13800000003" "1993-03-03",
       Op.loadFromFile decimalText (some clampText),
       Op.addMember "Bo" "13800000002" "1992-02-02"]
      { members := [Member.ctor 1 "An" "13800000001" "1991-01-01" 1 0 Level.NORMAL 0,
                    Member.ctor 2 "Bo" "13800000002" "1992-02-02" 1 0 Level.NORMAL 0],
        nextId := 3, pointsRule := 1 }
      (by
        intro op hop
        simp only [List.mem_cons, List.mem_singleton, List.not_mem_nil, or_false] at hop
        rcases hop with rfl | rfl | rfl
        · trivial
        · show (textIds clampText).Nodup
          with_unfolding_all decide
        · trivial)
      (by with_unfolding_all rfl) (by with_unfolding_all rfl)).1⟩

/-- The value `max(1, 1 + largest id)` is determined by the set of ids. -/
theorem counter_unique (a b : List Int) (n n' : Int) (hab : ∀ i, i ∈ a ↔ i ∈ b)
    (h1 : 1 ≤ n) (h2 : ∀ i ∈ a, i < n) (h3 : n = 1 ∨ ∃ i ∈ a, n = i + 1)
    (h1' : 1 ≤ n') (h2' : ∀ i ∈ b, i < n') (h3' : n' = 1 ∨ ∃ i ∈ b, n' = i + 1) : n = n' := by
  rcases h3 with h3 | ⟨i, hi, h3⟩ <;> rcases h3' with h3' | ⟨j, hj, h3'⟩
  · omega
  · have := h2 j ((hab j).mpr hj)
    omega
  · have := h2' i ((hab i).mp hi)
    omega
  · have := h2 j ((hab j).mpr hj)
    have := h2' i ((hab i).mp hi)
    omega

/-- The counter after a restore that returns. -/
theorem load_counter (io : DoubleText) (s s1 : MemberManager) (text : List Char)
    (h : s.loadFromFile io (some text) = Except.ok s1) :
    s1.ids = textIds text ∧ 1 ≤ s1.nextId ∧ (∀ i ∈ textIds text, i < s1.nextId) ∧
    (s1.nextId = 1 ∨ ∃ i ∈ textIds text, s1.nextId = i + 1) := by
  simp only [MemberManager.loadFromFile] at h
  obtain ⟨e1, e2, _⟩ := loadLines_ids io _ _ s1 h
  have hids : s1.ids = textIds text := by
    rw [e1]
    simp [MemberManager.ids, textIds]
  have hspec := foldl_max_spec (textIds text) 1
  have e2' : s1.nextId = (textIds text).foldl (fun a i => max a (i + 1)) 1 := e2
  rw [← e2'] at hspec
  exact ⟨hids, hspec.1, hspec.2.1, hspec.2.2⟩

/-- C15, counterexample: `commaRegistry` holds one account, id 1, whose name contains a comma;
its saved line has 11 fields, the restore skips it, and `nextId` is 1, not 2. -/
theorem comma_name_counter :
    commaRegistry.ids = [1] ∧
    commaRegistry.saveToFile decimalText =
      "1,Li,Wei,13800000000,1990-05-17,0,0,1,0,0,0\n".data ∧
    commaRegistry.loadFromFile decimalText (some (commaRegistry.saveToFile decimalText)) =
      Except.ok { members := [], nextId := 1, pointsRule := 1 } :=
  ⟨rfl, by with_unfolding_all rfl, by with_unfolding_all rfl⟩

/-- C15, amended: when every 10-field line of the source has parseable numeric fields (ids
below 2^31-1), `loadFromFile` returns with `nextId = max(1, 1 + largest id of a 10-field line)`:
at least 1, above every restored id, and 1 or one more than a restored id; the value depends
on the set of ids only, not on the order of the lines nor on `nextId` before; the next
`addMember` gets an id that no restored account has; and restoring the text saved for a
registry whose accounts are storable (names, phones and birthdays without comma or newline)
gives the same accounts' ids and `nextId = max(1, 1 + largest id)`, which is the largest id
plus 1 when some id is not negative, gaps or not. -/
theorem nextId_after_load :
    (∀ (io : DoubleText) (s : MemberManager) (text : List Char),
      (∀ line ∈ getlines '\n' text, lineParses io line = true) →
      (∀ i ∈ textIds text, i < 2147483647) →
      ∃ s1, s.loadFromFile io (some text) = Except.ok s1 ∧ s1.ids = textIds text ∧
        1 ≤ s1.nextId ∧ (∀ i ∈ textIds text, i < s1.nextId) ∧
        (s1.nextId = 1 ∨ ∃ i ∈ textIds text, s1.nextId = i + 1) ∧
        ∀ name phone birthday : String,
          (s1.addMember name phone birthday).ids = s1.ids ++ [s1.nextId] ∧
          s1.nextId ∉ s1.ids) ∧
    (∀ (io io' : DoubleText) (s s' s1 s1' : MemberManager) (text text' : List Char),
      s.loadFromFile io (some text) = Except.ok s1 →
      s'.loadFromFile io' (some text') = Except.ok s1' →
      (∀ i, i ∈ textIds text ↔ i ∈ textIds text') → s1.nextId = s1'.nextId) ∧
    (∀ (io : DoubleText) (s s' : MemberManager),
      (∀ m ∈ s.members, m.storable io) → (∀ i ∈ s.ids, i < 2147483647) →
      ∃ s1, s'.loadFromFile io (some (s.saveToFile io)) = Except.ok s1 ∧ s1.ids = s.ids ∧
        1 ≤ s1.nextId ∧ (∀ i ∈ s.ids, i < s1.nextId) ∧
        (s1.nextId = 1 ∨ ∃ i ∈ s.ids, s1.nextId = i + 1) ∧
        ((∃ i ∈ s.ids, 0 ≤ i) → ∃ i ∈ s.ids, (∀ j ∈ s.ids, j ≤ i) ∧ s1.nextId = i + 1)) := by
  refine ⟨?_, ?_, ?_⟩
  · intro io s text hparse _
    obtain ⟨s1, _, hrun, _, _⟩ :=
      loadLines_clamped io (getlines '\n' text) { s with members := [], nextId := 1 } hparse
    have hload : s.loadFromFile io (some text) = Except.ok s1 := hrun
    obtain ⟨c1, c2, c3, c4⟩ := load_counter io s s1 text hload
    refine ⟨s1, hload, c1, c2, c3, c4, ?_⟩
    intro name phone birthday
    constructor
    · simp [MemberManager.ids, MemberManager.addMember, ctor_id]
    · intro hmem
      rw [c1] at hmem
      have := c3 _ hmem
      omega
  · intro io io' s s' s1 s1' text text' h h' hab
    obtain ⟨_, c2, c3, c4⟩ := load_counter io s s1 text h
    obtain ⟨_, c2', c3', c4'⟩ := load_counter io' s' s1' text' h'
    exact counter_unique _ _ _ _ hab c2 c3 c4 c2' c3' c4'
  · intro io s s' hst _
    obtain ⟨s1, _, hrun, _, _⟩ :=
      loadLines_clamped io (getlines '\n' (s.saveToFile io))
        { s' with members := [], nextId := 1 } (saved_parses io s hst)
    have hload : s'.loadFromFile io (some (s.saveToFile io)) = Except.ok s1 := hrun
    obtain ⟨c1, c2, c3, c4⟩ := load_counter io s' s1 _ hload
    rw [saved_ids io s hst] at c1 c3 c4
    refine ⟨s1, hload, c1, c2, c3, c4, ?_⟩
    rintro ⟨i0, hi0, hpos⟩
    rcases c4 with c4 | ⟨i, hi, c4⟩
    · refine ⟨i0, hi0, ?_, ?_⟩
      · intro j hj
        have := c3 j hj
        have := c3 i0 hi0
        omega
      · have := c3 i0 hi0
        omega
    · refine ⟨i, hi, ?_, c4⟩
      intro j hj
      have := c3 j hj
      omega

/-- Witness of C15 (amended): the text saved for `pairRegistry` (ids 7 and 9) is restored into
the empty registry: the ids are 7 and 9 again and `nextId` is 10. -/
theorem nextId_after_load_witness :
    (∀ m ∈ pairRegistry.members, m.storable decimalText) ∧
    MemberManager.init.loadFromFile decimalText (some (pairRegistry.saveToFile decimalText)) =
      Except.ok
        { members := [{ goldMember with
                          totalSpent := 12000, points := 0, consumptionHistory := [] },
                      { baseMember with consumptionHistory := [] }],
          nextId := 10, pointsRule := 1 } ∧
    ∃ s1, MemberManager.init.loadFromFile decimalText
        (some (pairRegistry.saveToFile decimalText)) = Except.ok s1 ∧
      s1.ids = pairRegistry.ids ∧ 1 ≤ s1.nextId ∧ (∀ i ∈ pairRegistry.ids, i < s1.nextId) ∧
      (s1.nextId = 1 ∨ ∃ i ∈ pairRegistry.ids, s1.nextId = i + 1) ∧
      ((∃ i ∈ pairRegistry.ids, 0 ≤ i) →
        ∃ i ∈ pairRegistry.ids, (∀ j ∈ pairRegistry.ids, j ≤ i) ∧ s1.nextId = i + 1) :=
  ⟨by with_unfolding_all decide, by with_unfolding_all rfl,
    nextId_after_load.2.2 decimalText pairRegistry MemberManager.init
      (by with_unfolding_all decide) (by with_unfolding_all decide)⟩

/-! ## Claims about the input checks -/

/-- C28: `Utils::isValidPhoneNumber` accepts exactly the texts made of decimal digits only
that have length 7 or 8, or length 11 and first character `1`; the empty text is rejected. -/
theorem isValidPhoneNumber_spec (p : String) :
    (Utils.isValidPhoneNumber p = true ↔
      (∀ c ∈ p.data, isDigit c = true) ∧
      (p.data.length = 7 ∨ p.data.length = 8 ∨
        (p.data.length = 11 ∧ p.data.head? = some '1'))) ∧
    Utils.isValidPhoneNumber "" = false := by
  refine ⟨?_, rfl⟩
  unfold Utils.isValidPhoneNumber
  by_cases h0 : p.data = []
  · rw [if_pos h0]
    constructor
    · intro h
      cases h
    · rintro ⟨_, h | h | ⟨h, _⟩⟩ <;> simp [h0] at h
  · rw [if_neg h0]
    by_cases h1 : p.data.all isDigit = true
    · have h1' : ∀ c ∈ p.data, isDigit c = true := by simpa [List.all_eq_true] using h1
      rw [if_neg (not_not.mpr h1)]
      by_cases h2 : p.data.length ≠ 11 ∧ p.data.length ≠ 7 ∧ p.data.length ≠ 8
      · rw [if_pos h2]
        constructor
        · intro h
          cases h
        · rintro ⟨_, h | h | ⟨h, _⟩⟩ <;> omega
      · rw [if_neg h2]
        by_cases h3 : p.data.length = 11 ∧ p.data.head? ≠ some '1'
        · rw [if_pos h3]
          constructor
          · intro h
            cases h
          · rintro ⟨_, h | h | ⟨_, h⟩⟩
            · omega
            · omega
            · exact absurd h h3.2
        · rw [if_neg h3]
          refine ⟨fun _ => ⟨h1', ?_⟩, fun _ => rfl⟩
          by_cases h11 : p.data.length = 11
          · right
            right
            refine ⟨h11, ?_⟩
            by_contra hne
            exact h3 ⟨h11, hne⟩
          · have : p.data.length = 7 ∨ p.data.length = 8 := by omega
            rcases this with h | h
            · exact Or.inl h
            · exact Or.inr (Or.inl h)
    · have h1' : ¬ ∀ c ∈ p.data, isDigit c = true := by
        intro hall
        exact h1 (List.all_eq_true.mpr hall)
      rw [if_pos h1]
      constructor
      · intro h
        cases h
      · rintro ⟨h, _⟩
        exact absurd h h1'

/-- Witness of C28: a mobile number, a landline number, and three texts that are refused. -/
theorem isValidPhoneNumber_spec_witness :
    Utils.isValidPhoneNumber "13800000000" = true ∧ Utils.isValidPhoneNumber "5551234" = true ∧
    Utils.isValidPhoneNumber "23800000000" = false ∧ Utils.isValidPhoneNumber "555-1234" = false ∧
    Utils.isValidPhoneNumber "123456" = false :=
  ⟨(isValidPhoneNumber_spec "13800000000").1.mpr
      ⟨by intro c hc; simp at hc; rcases hc with rfl | rfl | rfl | rfl <;> decide,
        Or.inr (Or.inr ⟨rfl, rfl⟩)⟩,
    (isValidPhoneNumber_spec "5551234").1.mpr
      ⟨by intro c hc; simp at hc; rcases hc with rfl | rfl | rfl | rfl | rfl <;> decide,
        Or.inl rfl⟩, rfl, rfl, rfl⟩

/-- A valid phone number starts with a digit, so `handleAddSpending` reads it as an id: the
lookup by phone is not reached for it. -/
theorem handleAddSpending_valid_phone (currentYear : Int) (manager : MemberManager)
    (input : String) (amount : ℚ) (h : Utils.isValidPhoneNumber input = true) :
    System.handleAddSpending currentYear manager input amount =
      match stoi input.data with
      | Except.error _ => manager
      | Except.ok id =>
        if ¬ Utils.isInRange id 1 999999 then manager
        else if ¬ manager.members.any (fun member => decide (member.id = id)) then manager
        else manager.addSpending currentYear id amount := by
  have hne : input.data ≠ [] := by
    intro he
    unfold Utils.isValidPhoneNumber at h
    rw [if_pos he] at h
    cases h
  have hd : ∀ c ∈ input.data, isDigit c = true := by
    by_contra hnot
    have hall : ¬ (input.data.all isDigit = true) := fun ha => hnot (List.all_eq_true.mp ha)
    unfold Utils.isValidPhoneNumber at h
    rw [if_neg hne, if_pos hall] at h
    cases h
  have hhead : input.data.head?.map isDigit = some true := by
    cases hdata : input.data with
    | nil => exact absurd hdata hne
    | cons c cs =>
      rw [hdata] at hd
      simp [hd c (List.mem_cons_self c cs)]
  unfold System.handleAddSpending
  rw [if_pos ⟨hne, hhead⟩]

/-- C26, the code at two failing inputs.  In `pairRegistry` the account of id 7 has the phone
13800000000, a valid phone number; this input starts with a digit, is read by `std::stoi`,
which throws, and the flow returns without a purchase.  In `crossRegistry` the account of id 1
has the valid phone number 0000002; this input is read as the id 2, and the purchase is
recorded on the account of id 2. -/
theorem phone_input_read_as_id :
    Utils.isValidPhoneNumber "13800000000" = true ∧
    pairRegistry.getMemberIdByPhone "13800000000" = 7 ∧
    System.handleAddSpending 2024 pairRegistry "13800000000" 100 = pairRegistry ∧
    pairRegistry.addSpending 2024 7 100 ≠ pairRegistry ∧
    Utils.isValidPhoneNumber "0000002" = true ∧
    crossRegistry.getMemberIdByPhone "0000002" = 1 ∧
    System.handleAddSpending 2024 crossRegistry "0000002" 100 =
      crossRegistry.addSpending 2024 2 100 ∧
    crossRegistry.addSpending 2024 2 100 ≠ crossRegistry.addSpending 2024 1 100 :=
  ⟨rfl, rfl, by with_unfolding_all rfl, by with_unfolding_all decide, rfl, rfl,
    by with_unfolding_all rfl, by with_unfolding_all decide⟩

/-! ## Claims about lines that are skipped or refused -/

theorem getlines_no_delim (d : Char) (text : List Char) :
    ∀ piece ∈ getlines d text, d ∉ piece := by
  induction text with
  | nil => simp [getlines]
  | cons c cs ih =>
    by_cases hc : c = d
    · intro piece hp
      simp only [getlines, hc, if_true, List.mem_cons] at hp
      rcases hp with rfl | hp
      · simp
      · exact ih piece hp
    · rw [getlines_cons d c cs hc]
      cases hrest : getlines d cs with
      | nil =>
        intro piece hp
        simp only [List.mem_singleton] at hp
        subst hp
        simp [Ne.symm hc]
      | cons p ps =>
        rw [hrest] at ih
        intro piece hp
        simp only [List.mem_cons] at hp
        rcases hp with rfl | hp
        · have := ih p (List.mem_cons_self p ps)
          simp [Ne.symm hc, this]
        · exact ih piece (List.mem_cons_of_mem p hp)

theorem getlines_joinLines (lines : List (List Char)) (h : ∀ l ∈ lines, '\n' ∉ l) :
    getlines '\n' (joinLines lines) = lines := by
  induction lines with
  | nil => rfl
  | cons l ls ih =>
    have hl := h l (List.mem_cons_self l ls)
    have hls : ∀ x ∈ ls, '\n' ∉ x := fun x hx => h x (List.mem_cons_of_mem l hx)
    have ih' := ih hls
    unfold joinLines at ih' ⊢
    rw [List.map_cons, List.flatten_cons, List.append_assoc, List.singleton_append,
      getlines_append '\n' _ _ hl, ih']

theorem loadLines_skip (io : DoubleText) (s : MemberManager) (l1 : List (List Char))
    (line : List Char) (l2 : List (List Char)) (h : tenFields line = false) :
    loadLines io s (l1 ++ line :: l2) = loadLines io s (l1 ++ l2) := by
  induction l1 generalizing s with
  | nil =>
    simp only [List.nil_append]
    rw [loadLines, loadLine_skip io s line h]
  | cons a l1 ih =>
    simp only [List.cons_append, loadLines]
    cases loadLine io s a with
    | ok s1 => exact ih s1
    | error e => rfl

/-- C21: a line that does not split into exactly 10 fields adds no account and leaves `nextId`
and everything else as it is, the loop goes on with the next lines, and the restore of a
source gives the same result (registry or exception) as the restore of the source without
that line. -/
theorem malformed_line_skipped :
    (∀ (io : DoubleText) (s : MemberManager) (line : List Char),
      (getlines ',' line).length ≠ 10 → loadLine io s line = Except.ok s) ∧
    (∀ (io : DoubleText) (s : MemberManager) (l1 : List (List Char)) (line : List Char)
        (l2 : List (List Char)),
      (getlines ',' line).length ≠ 10 →
      loadLines io s (l1 ++ line :: l2) = loadLines io s (l1 ++ l2)) ∧
    (∀ (io : DoubleText) (s : MemberManager) (text text' : List Char) (l1 : List (List Char))
        (line : List Char) (l2 : List (List Char)),
      getlines '\n' text = l1 ++ line :: l2 → getlines '\n' text' = l1 ++ l2 →
      (getlines ',' line).length ≠ 10 →
      s.loadFromFile io (some text) = s.loadFromFile io (some text')) ∧
    (∀ (text : List Char) (l1 : List (List Char)) (line : List Char) (l2 : List (List Char)),
      getlines '\n' text = l1 ++ line :: l2 →
      getlines '\n' (joinLines (l1 ++ l2)) = l1 ++ l2) := by
  have hten : ∀ line : List Char, (getlines ',' line).length ≠ 10 → tenFields line = false := by
    intro line h
    simp [tenFields, h]
  refine ⟨?_, ?_, ?_, ?_⟩
  · intro io s line h
    exact loadLine_skip io s line (hten line h)
  · intro io s l1 line l2 h
    exact loadLines_skip io s l1 line l2 (hten line h)
  · intro io s text text' l1 line l2 ht ht' h
    simp only [MemberManager.loadFromFile, ht, ht']
    exact loadLines_skip io _ l1 line l2 (hten line h)
  · intro text l1 line l2 ht
    apply getlines_joinLines
    intro l hl
    have hmem : l ∈ getlines '\n' text := by
      rw [ht]
      rcases List.mem_append.mp hl with h | h
      · exact List.mem_append_left _ h
      · exact List.mem_append_right _ (List.mem_cons_of_mem line h)
    exact getlines_no_delim '\n' text l hmem

/-- Witness of C21: in `clampText` the second line, `not a record`, has one field; loading
`clampText` gives what loading its first line alone gives. -/
theorem malformed_line_skipped_witness :
    pairRegistry.loadFromFile decimalText (some clampText) =
      pairRegistry.loadFromFile decimalText
        (some "1,An,13800000001,1991-01-01,0,5,-3,-50,9,-1\n".data) :=
  malformed_line_skipped.2.2.1 decimalText pairRegistry clampText
    "1,An,13800000001,1991-01-01,0,5,-3,-50,9,-1\n".data
    ["1,An,13800000001,1991-01-01,0,5,-3,-50,9,-1".data] "not a record".data []
    (by decide) (by decide) (by decide)

/-- C22, the code at two failing inputs: on a 10-field line whose first field is `x`,
`std::stoi` throws `invalid_argument`, and on one whose first field is 99999999999 it throws
`out_of_range`; nothing catches the exception and it leaves `loadFromFile`. -/
theorem load_throws :
    pairRegistry.loadFromFile decimalText (some badIdText) =
      Except.error StoError.invalid_argument ∧
    pairRegistry.loadFromFile decimalText (some hugeIdText) =
      Except.error StoError.out_of_range :=
  ⟨by with_unfolding_all rfl, by with_unfolding_all rfl⟩

/-! ## Claims about the persisted format and the history -/

theorem saveLine_intercalate (io : DoubleText) (m : Member) :
    saveLine io m =
      List.intercalate [',']
        [putInt m.id, m.name.data, m.phone.data, m.birthday.data, io.put m.totalSpent,
         putInt m.points, putInt m.pointsPerDollar, io.put m.annualSpent,
         putInt m.currentLevel.toInt, putInt m.lastYear] ++ ['\n'] := by
  simp only [saveLine, List.intercalate, List.intersperse, List.flatten_cons, List.flatten_nil,
    List.append_assoc, List.singleton_append, List.cons_append, List.nil_append, List.append_nil]

theorem saveToFile_intercalate (io : DoubleText) (s : MemberManager) :
    s.saveToFile io =
      (s.members.map (fun m =>
        List.intercalate [',']
          [putInt m.id, m.name.data, m.phone.data, m.birthday.data, io.put m.totalSpent,
           putInt m.points, putInt m.pointsPerDollar, io.put m.annualSpent,
           putInt m.currentLevel.toInt, putInt m.lastYear] ++ ['\n'])).flatten := by
  have hfun : saveLine io = fun m =>
      List.intercalate [',']
        [putInt m.id, m.name.data, m.phone.data, m.birthday.data, io.put m.totalSpent,
         putInt m.points, putInt m.pointsPerDollar, io.put m.annualSpent,
         putInt m.currentLevel.toInt, putInt m.lastYear] ++ ['\n'] :=
    funext (saveLine_intercalate io)
  unfold MemberManager.saveToFile
  rw [hfun]

theorem saved_split (io : DoubleText) (s : MemberManager)
    (h : ∀ m ∈ s.members, m.storable io) :
    (getlines '\n' (s.saveToFile io)).length = s.members.length ∧
    (getlines '\n' (s.saveToFile io)).map (getlines ',') = s.members.map (saveFields io) := by
  have hl : getlines '\n' (s.saveToFile io) = s.members.map (recordText io) :=
    saved_lines io s.members h
  rw [hl]
  refine ⟨List.length_map _ _, ?_⟩
  rw [List.map_map]
  apply List.map_congr_left
  intro m hm
  exact recordText_fields io m (h m hm)

/-- C23: `saveToFile` writes, for each account in registry order, the ten fields id, name,
phone, birthday, lifetime total, points, points rate, annual total, tier index and year,
joined by commas and followed by a newline, and nothing else; the tier index is 0, 1, 2, 3 for
`NORMAL`, `SILVER`, `GOLD`, `DIAMOND`; the registry is not changed; and when the accounts are
storable the text has one line per account, each splitting into those ten fields. -/
theorem saveToFile_format (io : DoubleText) (s : MemberManager) :
    s.saveToFile io =
      (s.members.map (fun m =>
        List.intercalate [',']
          [putInt m.id, m.name.data, m.phone.data, m.birthday.data, io.put m.totalSpent,
           putInt m.points, putInt m.pointsPerDollar, io.put m.annualSpent,
           putInt m.currentLevel.toInt, putInt m.lastYear] ++ ['\n'])).flatten ∧
    (Level.NORMAL.toInt = 0 ∧ Level.SILVER.toInt = 1 ∧ Level.GOLD.toInt = 2 ∧
      Level.DIAMOND.toInt = 3) ∧
    s.run (Op.saveToFile io) = Except.ok s ∧
    ((∀ m ∈ s.members, m.storable io) →
      (getlines '\n' (s.saveToFile io)).length = s.members.length ∧
      (getlines '\n' (s.saveToFile io)).map (getlines ',') = s.members.map (saveFields io)) := by
  refine ⟨?_, ⟨rfl, rfl, rfl, rfl⟩, rfl, ?_⟩
  · exact saveToFile_intercalate io s
  · exact saved_split io s

/-- Witness of C23: the text written for `pairRegistry` has two lines. -/
theorem saveToFile_format_witness :
    (getlines '\n' (pairRegistry.saveToFile decimalText)).length = pairRegistry.members.length ∧
    (getlines '\n' (pairRegistry.saveToFile decimalText)).map (getlines ',') =
      pairRegistry.members.map (saveFields decimalText) :=
  (saveToFile_format decimalText pairRegistry).2.2.2 (by with_unfolding_all decide)

theorem addSpending_history (m : Member) (currentYear : Int) (amount : ℚ) :
    ∃ rate, (m.addSpending currentYear amount).consumptionHistory =
      m.consumptionHistory ++ [(amount, rate)] := by
  by_cases hy : m.lastYear = currentYear
  · exact ⟨_, by simp [Member.addSpending, Member.determineLevel, hy]; rfl⟩
  · exact ⟨_, by simp [Member.addSpending, Member.determineLevel, hy]; rfl⟩

theorem redeemPoints_history (m : Member) (n : Int) :
    (m.redeemPoints n).consumptionHistory = m.consumptionHistory := by
  unfold Member.redeemPoints
  split_ifs <;> rfl

theorem setPointsRule_history (m : Member) (r : Int) :
    (m.setPointsRule r).consumptionHistory = m.consumptionHistory := by
  unfold Member.setPointsRule
  split_ifs <;> rfl

theorem runAll_history (ops : List MemberOp) (m : Member) :
    ∃ added : List (ℚ × ℚ),
      (m.runAll ops).consumptionHistory = m.consumptionHistory ++ added ∧
      added.map Prod.fst = spendAmounts ops := by
  induction ops generalizing m with
  | nil => exact ⟨[], by simp [Member.runAll], rfl⟩
  | cons op ops ih =>
    obtain ⟨added, h1, h2⟩ := ih (m.run op)
    have hrun : m.runAll (op :: ops) = (m.run op).runAll ops := rfl
    rw [hrun]
    cases op with
    | addSpending currentYear amount =>
      obtain ⟨rate, hr⟩ := addSpending_history m currentYear amount
      refine ⟨(amount, rate) :: added, ?_, ?_⟩
      · rw [h1]
        show (m.addSpending currentYear amount).consumptionHistory ++ added = _
        rw [hr]
        simp
      · simp [spendAmounts, h2]
    | redeemPoints n =>
      refine ⟨added, ?_, ?_⟩
      · rw [h1]
        show (m.redeemPoints n).consumptionHistory ++ added = _
        rw [redeemPoints_history]
      · simpa [spendAmounts] using h2
    | setPointsRule r =>
      refine ⟨added, ?_, ?_⟩
      · rw [h1]
        show (m.setPointsRule r).consumptionHistory ++ added = _
        rw [setPointsRule_history]
      · simpa [spendAmounts] using h2

/-- C25: after construction and any sequence of `addSpending`, `redeemPoints` and
`setPointsRule`, the history has one entry per `addSpending` call, its list prices are the
amounts of those calls in call order, and for every account and sequence the history before
is a prefix of the history after: no entry is changed, moved or removed. -/
theorem history_append_only :
    (∀ (id : Int) (name phone birthday : String) (rule : Int) (annualSpent : ℚ) (level : Level)
        (lastYear : Int) (ops : List MemberOp),
      ((Member.ctor id name phone birthday rule annualSpent level lastYear).runAll
          ops).consumptionHistory.map Prod.fst = spendAmounts ops ∧
      ((Member.ctor id name phone birthday rule annualSpent level lastYear).runAll
          ops).consumptionHistory.length = (spendAmounts ops).length) ∧
    (∀ (m : Member) (ops : List MemberOp),
      m.consumptionHistory <+: (m.runAll ops).consumptionHistory) ∧
    (∀ (m : Member) (ops : List MemberOp) (k : Nat) (entry : ℚ × ℚ),
      m.consumptionHistory.get? k = some entry →
      (m.runAll ops).consumptionHistory.get? k = some entry) := by
  refine ⟨?_, ?_, ?_⟩
  · intro id name phone birthday rule annualSpent level lastYear ops
    obtain ⟨added, h1, h2⟩ :=
      runAll_history ops (Member.ctor id name phone birthday rule annualSpent level lastYear)
    have h0 : (Member.ctor id name phone birthday rule annualSpent level
        lastYear).consumptionHistory = [] := rfl
    rw [h0, List.nil_append] at h1
    rw [h1]
    refine ⟨h2, ?_⟩
    rw [← h2, List.length_map]
  · intro m ops
    obtain ⟨added, h1, _⟩ := runAll_history ops m
    exact ⟨added, h1.symm⟩
  · intro m ops k entry hk
    obtain ⟨added, h1, _⟩ := runAll_history ops m
    rw [h1]
    have hlt : k < m.consumptionHistory.length := by
      by_contra hge
      rw [List.get?_eq_none.mpr (by omega)] at hk
      cases hk
    rw [List.get?_eq_getElem?, List.getElem?_append_left hlt, ← List.get?_eq_getElem?]
    exact hk

/-- Witness of C25: the first entry of `goldMember` is still the first entry after a purchase
and a redemption. -/
theorem history_append_only_witness :
    (goldMember.runAll [MemberOp.addSpending 2024 50, MemberOp.redeemPoints 10]).consumptionHistory.get?
      0 = some (12000, 9 / 10) :=
  history_append_only.2.2 goldMember [MemberOp.addSpending 2024 50, MemberOp.redeemPoints 10] 0
    (12000, 9 / 10) rfl

/-! ## Claims about what the code does -/

theorem distinctIds_of_not_load (op : Op) (h : op.isLoad = false) : op.distinctIds := by
  cases op with
  | loadFromFile io file => simp [Op.isLoad] at h
  | addMember name phone birthday => trivial
  | deleteMember memberId => trivial
  | updateMemberPhone id newPhone => trivial
  | addSpending currentYear id amount => trivial
  | redeemPoints id pointsToRedeem => trivial
  | setPointsRule rule => trivial
  | saveToFile io => trivial

/-- C29, counterexample: in `lastIdRegistry` the one id, 2147483646, is below `nextId`, which
is 2147483647.  `addMember` gives the new account the id 2147483647; no `int` is above that id,
and the 32-bit increment leaves the counter at -2147483648: the ids are no longer below
`nextId`. -/
theorem ids_below_counter_lost :
    lastIdRegistry.ids = [2147483646] ∧ lastIdRegistry.nextId = 2147483647 ∧
    (lastIdRegistry.addMember "An" "13800000001" "1991-01-01").ids = [2147483646, 2147483647] ∧
    (¬ ∃ n : Int, int32 n ∧ 2147483647 < n) ∧
    ¬ (2147483647 < wrapInt32 (lastIdRegistry.nextId + 1)) := by
  refine ⟨by with_unfolding_all rfl, rfl, by with_unfolding_all rfl, ?_, by decide⟩
  rintro ⟨n, hn, hlt⟩
  unfold int32 at hn
  omega

/-- C29, amended: the predicate "the ids are pairwise distinct and below `nextId`" holds of the
empty registry, whose `nextId` is 1, and is kept by `addMember` where `nextId` is below
2147483647 and by `deleteMember`, `updateMemberPhone`, `addSpending`, `redeemPoints` and
`setPointsRule`; these functions do not change the id of an account: `addMember` keeps the
accounts and appends one, `deleteMember` keeps a sublist of the accounts, and the other four
keep the id at every position. -/
theorem ids_invariant_preserved :
    (MemberManager.init.nextId = 1 ∧ MemberManager.init.ids.Nodup ∧
      ∀ i ∈ MemberManager.init.ids, i < MemberManager.init.nextId) ∧
    (∀ (s s1 : MemberManager) (op : Op), op.isLoad = false → op.counterFits s = true →
      s.ids.Nodup → (∀ i ∈ s.ids, i < s.nextId) → s.run op = Except.ok s1 →
      s1.ids.Nodup ∧ ∀ i ∈ s1.ids, i < s1.nextId) ∧
    (∀ (s : MemberManager) (name phone birthday : String),
      ∃ m, (s.addMember name phone birthday).members = s.members ++ [m]) ∧
    (∀ (s : MemberManager) (memberId : Int),
      (s.deleteMember memberId).members.Sublist s.members) ∧
    (∀ (s : MemberManager) (id : Int) (newPhone : String) (currentYear : Int) (amount : ℚ)
        (n rule : Int),
      (s.updateMemberPhone id newPhone).ids = s.ids ∧
      (s.addSpending currentYear id amount).ids = s.ids ∧
      (s.redeemPoints id n).ids = s.ids ∧ (s.setPointsRule rule).ids = s.ids) := by
  refine ⟨⟨rfl, by simp [MemberManager.ids, MemberManager.init],
    by simp [MemberManager.ids, MemberManager.init]⟩, ?_, ?_, ?_, ?_⟩
  · intro s s1 op hop _ hn hlt h
    exact run_ids_distinct s s1 op (distinctIds_of_not_load op hop) hn hlt h
  · intro s name phone birthday
    exact ⟨_, rfl⟩
  · intro s memberId
    exact List.eraseP_sublist s.members
  · intro s id newPhone currentYear amount n rule
    refine ⟨?_, ?_, ?_, ?_⟩
    · exact updateFirst_ids id _ (fun m hm => by simp [ctor_id, hm]) s.members
    · exact updateFirst_ids id _ (fun m _ => by
        by_cases hy : m.lastYear = currentYear <;>
          simp [Member.addSpending, Member.determineLevel, hy]) s.members
    · exact updateFirst_ids id _ (fun m _ => by
        unfold Member.redeemPoints
        split_ifs <;> rfl) s.members
    · simp [MemberManager.ids, MemberManager.setPointsRule, Function.comp_def, setPointsRule_id]

/-- Witness of C29 (amended): `pairRegistry` has the ids 7 and 9 and `nextId` 10; after one
more member the ids are still distinct and below `nextId`. -/
theorem ids_invariant_preserved_witness :
    (pairRegistry.addMember "Cy" "13800000003" "1993-03-03").ids.Nodup ∧
    ∀ i ∈ (pairRegistry.addMember "Cy" "13800000003" "1993-03-03").ids,
      i < (pairRegistry.addMember "Cy" "13800000003" "1993-03-03").nextId :=
  ids_invariant_preserved.2.1 pairRegistry
    (pairRegistry.addMember "Cy" "13800000003" "1993-03-03")
    (Op.addMember "Cy" "13800000003" "1993-03-03") rfl (by with_unfolding_all rfl)
    (by decide) (by decide) rfl

theorem loadLine_same (io : DoubleText) (s : MemberManager) (line line' : List Char)
    (h : SameButSpendPoints io line line') : loadLine io s line = loadLine io s line' := by
  rcases h with rfl | ⟨d0, d1, d2, d3, d4, d5, d6, d7, d8, d9, e4, e5, hf, hf', p4, p5, q4, q5⟩
  · rfl
  · obtain ⟨v4, h4⟩ := parsed_ok p4
    obtain ⟨v5, h5⟩ := parsed_ok p5
    obtain ⟨w4, k4⟩ := parsed_ok q4
    obtain ⟨w5, k5⟩ := parsed_ok q5
    unfold loadLine
    rw [hf, hf']
    simp only [bind, Except.bind, h4, h5, k4, k5]

theorem loadLines_same (io : DoubleText) (lines lines' : List (List Char))
    (h : List.Forall₂ (SameButSpendPoints io) lines lines') (s : MemberManager) :
    loadLines io s lines = loadLines io s lines' := by
  induction h generalizing s with
  | nil => rfl
  | cons hl _ ih =>
    simp only [loadLines, loadLine_same io s _ _ hl]
    split
    · next s1 _ => exact ih s1
    · rfl

/-- C30: on a 10-field line whose conversions succeed, `loadFromFile` appends an account with
0 points, no history, and lifetime total equal to its annual total, which is the stored annual
total raised to 0, whatever the values of field 5 (lifetime total) and field 6 (points) are;
and two sources whose lines differ only in the values of these two fields restore to the same
result. -/
theorem restore_ignores_total_and_points :
    (∀ (io : DoubleText) (s : MemberManager) (line : List Char)
        (d0 d1 d2 d3 d4 d5 d6 d7 d8 d9 : List Char)
        (id : Int) (total : ℚ) (points rate : Int) (annual : ℚ) (level year : Int),
      getlines ',' line = [d0, d1, d2, d3, d4, d5, d6, d7, d8, d9] →
      stoi d0 = Except.ok id → io.stod d4 = Except.ok total → stoi d5 = Except.ok points →
      stoi d6 = Except.ok rate → io.stod d7 = Except.ok annual → stoi d8 = Except.ok level →
      stoi d9 = Except.ok year →
      ∃ m : Member,
        loadLine io s line =
          Except.ok { members := s.members ++ [m], nextId := max s.nextId (id + 1),
                      pointsRule := s.pointsRule } ∧
        m.points = 0 ∧ m.consumptionHistory = [] ∧ m.annualSpent = max 0 annual ∧
        m.totalSpent = max 0 annual) ∧
    (∀ (io : DoubleText) (s s1 : MemberManager) (text : List Char),
      s.loadFromFile io (some text) = Except.ok s1 →
      ∀ m ∈ s1.members, m.points = 0 ∧ m.consumptionHistory = [] ∧
        m.totalSpent = m.annualSpent) ∧
    (∀ (io : DoubleText) (s : MemberManager) (text text' : List Char),
      List.Forall₂ (SameButSpendPoints io) (getlines '\n' text) (getlines '\n' text') →
      s.loadFromFile io (some text) = s.loadFromFile io (some text')) := by
  refine ⟨?_, ?_, ?_⟩
  · intro io s line d0 d1 d2 d3 d4 d5 d6 d7 d8 d9 id total points rate annual level year hf h0
      h4 h5 h6 h7 h8 h9
    have hr : (1 : Int) ≤ (if rate < 1 then 1 else rate) := by
      rw [clamp_int]
      exact le_max_left _ _
    refine ⟨_, loadLine_ten io s line d0 d1 d2 d3 d4 d5 d6 d7 d8 d9 id total points rate annual
      level year hf h0 h4 h5 h6 h7 h8 h9, ?_, ?_, ?_, ?_⟩
    · rw [setPointsRule_of_pos _ _ hr]
      rfl
    · rw [setPointsRule_of_pos _ _ hr]
      rfl
    · rw [setPointsRule_of_pos _ _ hr, ← clamp_rat]
      rfl
    · rw [setPointsRule_of_pos _ _ hr, ← clamp_rat]
      rfl
  · intro io s s1 text h
    simp only [MemberManager.loadFromFile] at h
    refine loadLines_forall
      (fun m => m.points = 0 ∧ m.consumptionHistory = [] ∧ m.totalSpent = m.annualSpent)
      ?_ io _ _ s1 (by simp) h
    intro id name phone birthday rule annualSpent level lastYear hr _ _
    rw [setPointsRule_of_pos _ _ hr]
    exact ⟨rfl, rfl, rfl⟩
  · intro io s text text' h
    simp only [MemberManager.loadFromFile]
    exact loadLines_same io _ _ h _

/-- Witness of C30: two one-line sources that differ in fields 5 and 6 only, 31000 and 500
against 0 and 0. -/
theorem restore_ignores_total_and_points_witness :
    pairRegistry.loadFromFile decimalText
        (some "7,Li,13800000000,1990-05-17,31000,500,2,12000,2,2024\n".data) =
      pairRegistry.loadFromFile decimalText
        (some "7,Li,13800000000,1990-05-17,0,0,2,12000,2,2024\n".data) :=
  restore_ignores_total_and_points.2.2 decimalText pairRegistry
    "7,Li,13800000000,1990-05-17,31000,500,2,12000,2,2024\n".data
    "7,Li,13800000000,1990-05-17,0,0,2,12000,2,2024\n".data
    (List.Forall₂.cons
      (Or.inr ⟨"7".data, "Li".data, "13800000000".data, "1990-05-17".data, "31000".data,
        "500".data, "2".data, "12000".data, "2".data, "2024".data, "0".data, "0".data,
        by decide, by decide, by with_unfolding_all rfl, by with_unfolding_all rfl,
        by with_unfolding_all rfl, by with_unfolding_all rfl⟩)
      List.Forall₂.nil)

/-! ## Claims about the history view -/

theorem takeDigits_append (ds rest : List Char) (h : ∀ c ∈ ds, isDigit c = true) :
    takeDigits (ds ++ rest) = ds.map (fun c => c.toNat - 48) ++ takeDigits rest := by
  induction ds with
  | nil => rfl
  | cons c ds ih =>
    have hc : isDigit c = true := h c (List.mem_cons_self c ds)
    have hds : ∀ x ∈ ds, isDigit x = true := fun x hx => h x (List.mem_cons_of_mem c hx)
    simp [takeDigits, hc, ih hds]

theorem dropDigits_append (ds rest : List Char) (h : ∀ c ∈ ds, isDigit c = true) :
    dropDigits (ds ++ rest) = dropDigits rest := by
  induction ds with
  | nil => rfl
  | cons c ds ih =>
    have hc : isDigit c = true := h c (List.mem_cons_self c ds)
    have hds : ∀ x ∈ ds, isDigit x = true := fun x hx => h x (List.mem_cons_of_mem c hx)
    simp [dropDigits, hc, ih hds]

/-- `stream >> value` on a run of digits followed by a text that starts with no digit: the
value of the run, and the text after it. -/
theorem extractInt_run (c : Char) (cs rest : List Char)
    (h : ∀ x ∈ c :: cs, isDigit x = true)
    (ht : takeDigits rest = []) (hd : dropDigits rest = rest)
    (hv : digitsValue ((c :: cs).map (fun x => x.toNat - 48)) ≤ 2147483647) :
    extractInt (c :: cs ++ rest) =
      some ((digitsValue ((c :: cs).map (fun x => x.toNat - 48)) : Int), rest) := by
  have hc : isDigit c = true := h c (List.mem_cons_self c cs)
  have e1 : skipSpaces (c :: cs ++ rest) = c :: cs ++ rest :=
    skipSpaces_head c _ (isDigit_not_space c hc)
  have e2 : readSign (c :: cs ++ rest) = (false, c :: cs ++ rest) :=
    readSign_head c _ (isDigit_ne c '-' hc (by decide)) (isDigit_ne c '+' hc (by decide))
  have e3 : takeDigits (c :: cs ++ rest) = (c :: cs).map (fun x => x.toNat - 48) := by
    rw [takeDigits_append (c :: cs) rest h, ht, List.append_nil]
  have e4 : dropDigits (c :: cs ++ rest) = rest := by
    rw [dropDigits_append (c :: cs) rest h, hd]
  unfold extractInt
  rw [e1, e2]
  simp only [e3, e4]
  have hne : ¬ (List.map (fun x => x.toNat - 48) (c :: cs) = []) := by simp
  rw [if_neg hne]
  have hr : ¬ ((digitsValue (List.map (fun x => x.toNat - 48) (c :: cs)) : Int) < -2147483648 ∨
      (digitsValue (List.map (fun x => x.toNat - 48) (c :: cs)) : Int) > 2147483647) := by
    omega
  simp only [Bool.false_eq_true, if_false, hr]

theorem extractChar_dash (rest : List Char) : extractChar ('-' :: rest) = some ('-', rest) := by
  have hs : isSpace '-' = false := by decide
  unfold extractChar
  rw [skipSpaces_head '-' rest hs]

theorem digitOf_bounds (c : Char) (h : isDigit c = true) : 0 ≤ digitOf c ∧ digitOf c ≤ 9 := by
  have hb := isDigit_bounds c h
  unfold digitOf
  omega

theorem digitOf_cast (c : Char) (h : isDigit c = true) :
    ((c.toNat - 48 : Nat) : Int) = digitOf c := by
  have hb := isDigit_bounds c h
  unfold digitOf
  omega

/-- The table lookup of `isValidBirthday` gives the days of the month. -/
theorem daysTable_eq (year month : Int) (h1 : 1 ≤ month) (h2 : month ≤ 12) :
    (if month = 2 ∧ ((year % 4 = 0 ∧ year % 100 ≠ 0) ∨ year % 400 = 0)
      then ([31, 28, 31, 30, 31, 30, 31, 31, 30, 31, 30, 31] : List Int).set 1 29
      else [31, 28, 31, 30, 31, 30, 31, 31, 30, 31, 30, 31]).getD (month - 1).toNat 0 =
    daysOfMonth year month := by
  unfold daysOfMonth isLeapYear
  interval_cases month
  all_goals (simp <;> split_ifs <;> simp)

theorem matchesDatePattern_iff (b : List Char) :
    matchesDatePattern b = true ↔
      ∃ y1 y2 y3 y4 m1 m2 d1 d2 : Char,
        b = [y1, y2, y3, y4, '-', m1, m2, '-', d1, d2] ∧
        isDigit y1 = true ∧ isDigit y2 = true ∧ isDigit y3 = true ∧ isDigit y4 = true ∧
        isDigit m1 = true ∧ isDigit m2 = true ∧ isDigit d1 = true ∧ isDigit d2 = true := by
  constructor
  · intro h
    unfold matchesDatePattern at h
    split at h
    · next y1 y2 y3 y4 m1 m2 d1 d2 =>
      simp only [Bool.and_eq_true] at h
      obtain ⟨⟨⟨⟨⟨⟨⟨a1, a2⟩, a3⟩, a4⟩, a5⟩, a6⟩, a7⟩, a8⟩ := h
      exact ⟨y1, y2, y3, y4, m1, m2, d1, d2, rfl, a1, a2, a3, a4, a5, a6, a7, a8⟩
    · cases h
  · rintro ⟨y1, y2, y3, y4, m1, m2, d1, d2, rfl, a1, a2, a3, a4, a5, a6, a7, a8⟩
    simp [matchesDatePattern, a1, a2, a3, a4, a5, a6, a7, a8]

/-- The value of `isValidBirthday` on a text that matches the date pattern. -/
theorem isValidBirthday_pattern (cy cm cd : Int) (y1 y2 y3 y4 m1 m2 d1 d2 : Char)
    (a1 : isDigit y1 = true) (a2 : isDigit y2 = true) (a3 : isDigit y3 = true)
    (a4 : isDigit y4 = true) (a5 : isDigit m1 = true) (a6 : isDigit m2 = true)
    (a7 : isDigit d1 = true) (a8 : isDigit d2 = true) :
    Utils.isValidBirthday cy cm cd (String.mk [y1, y2, y3, y4, '-', m1, m2, '-', d1, d2]) = true ↔
      1900 ≤ 1000 * digitOf y1 + 100 * digitOf y2 + 10 * digitOf y3 + digitOf y4 ∧
      1000 * digitOf y1 + 100 * digitOf y2 + 10 * digitOf y3 + digitOf y4 ≤ 2100 ∧
      1 ≤ 10 * digitOf m1 + digitOf m2 ∧ 10 * digitOf m1 + digitOf m2 ≤ 12 ∧
      1 ≤ 10 * digitOf d1 + digitOf d2 ∧
      10 * digitOf d1 + digitOf d2 ≤
        daysOfMonth (1000 * digitOf y1 + 100 * digitOf y2 + 10 * digitOf y3 + digitOf y4)
          (10 * digitOf m1 + digitOf m2) ∧
      notLater (1000 * digitOf y1 + 100 * digitOf y2 + 10 * digitOf y3 + digitOf y4)
        (10 * digitOf m1 + digitOf m2) (10 * digitOf d1 + digitOf d2) cy cm cd := by
  have b1 := digitOf_bounds y1 a1
  have b2 := digitOf_bounds y2 a2
  have b3 := digitOf_bounds y3 a3
  have b4 := digitOf_bounds y4 a4
  have b5 := digitOf_bounds m1 a5
  have b6 := digitOf_bounds m2 a6
  have b7 := digitOf_bounds d1 a7
  have b8 := digitOf_bounds d2 a8
  have c1 := digitOf_cast y1 a1
  have c2 := digitOf_cast y2 a2
  have c3 := digitOf_cast y3 a3
  have c4 := digitOf_cast y4 a4
  have c5 := digitOf_cast m1 a5
  have c6 := digitOf_cast m2 a6
  have c7 := digitOf_cast d1 a7
  have c8 := digitOf_cast d2 a8
  have hnd : isDigit '-' = false := by decide
  have ht : ∀ r : List Char, takeDigits ('-' :: r) = [] := fun r => by simp [takeDigits, hnd]
  have hd : ∀ r : List Char, dropDigits ('-' :: r) = '-' :: r := fun r => by
    simp [dropDigits, hnd]
  have vy : (digitsValue ([y1, y2, y3, y4].map (fun x => x.toNat - 48)) : Int) =
      1000 * digitOf y1 + 100 * digitOf y2 + 10 * digitOf y3 + digitOf y4 := by
    simp only [List.map_cons, List.map_nil, digitsValue, List.foldl_cons, List.foldl_nil]
    push_cast
    rw [c1, c2, c3, c4]
    ring
  have vm : (digitsValue ([m1, m2].map (fun x => x.toNat - 48)) : Int) =
      10 * digitOf m1 + digitOf m2 := by
    simp only [List.map_cons, List.map_nil, digitsValue, List.foldl_cons, List.foldl_nil]
    push_cast
    rw [c5, c6]
    ring
  have vd : (digitsValue ([d1, d2].map (fun x => x.toNat - 48)) : Int) =
      10 * digitOf d1 + digitOf d2 := by
    simp only [List.map_cons, List.map_nil, digitsValue, List.foldl_cons, List.foldl_nil]
    push_cast
    rw [c7, c8]
    ring
  have ey : extractInt [y1, y2, y3, y4, '-', m1, m2, '-', d1, d2] =
      some (1000 * digitOf y1 + 100 * digitOf y2 + 10 * digitOf y3 + digitOf y4,
        ['-', m1, m2, '-', d1, d2]) := by
    have h := extractInt_run y1 [y2, y3, y4] ['-', m1, m2, '-', d1, d2]
      (by
        intro x hx
        simp only [List.mem_cons, List.mem_singleton, List.not_mem_nil, or_false] at hx
        rcases hx with rfl | rfl | rfl | rfl <;> assumption)
      (ht _) (hd _) (by
        have : (digitsValue ([y1, y2, y3, y4].map (fun x => x.toNat - 48)) : Int) ≤
            2147483647 := by
          rw [vy]
          omega
        exact_mod_cast this)
    rw [vy] at h
    exact h
  have em : extractInt [m1, m2, '-', d1, d2] =
      some (10 * digitOf m1 + digitOf m2, ['-', d1, d2]) := by
    have h := extractInt_run m1 [m2] ['-', d1, d2]
      (by
        intro x hx
        simp only [List.mem_cons, List.mem_singleton, List.not_mem_nil, or_false] at hx
        rcases hx with rfl | rfl <;> assumption)
      (ht _) (hd _) (by
        have : (digitsValue ([m1, m2].map (fun x => x.toNat - 48)) : Int) ≤ 2147483647 := by
          rw [vm]
          omega
        exact_mod_cast this)
    rw [vm] at h
    exact h
  have ed : extractInt [d1, d2] = some (10 * digitOf d1 + digitOf d2, []) := by
    have h := extractInt_run d1 [d2] []
      (by
        intro x hx
        simp only [List.mem_cons, List.mem_singleton, List.not_mem_nil, or_false] at hx
        rcases hx with rfl | rfl <;> assumption)
      rfl rfl (by
        have : (digitsValue ([d1, d2].map (fun x => x.toNat - 48)) : Int) ≤ 2147483647 := by
          rw [vd]
          omega
        exact_mod_cast this)
    rw [vd] at h
    simpa using h
  have hpat : matchesDatePattern [y1, y2, y3, y4, '-', m1, m2, '-', d1, d2] = true :=
    (matchesDatePattern_iff _).mpr ⟨y1, y2, y3, y4, m1, m2, d1, d2, rfl, a1, a2, a3, a4, a5, a6,
      a7, a8⟩
  unfold Utils.isValidBirthday
  simp only [List.cons_ne_nil, if_false, hpat, not_true_eq_false, ey, extractChar_dash, em, ed,
    ne_eq, or_self]
  by_cases hy : 1000 * digitOf y1 + 100 * digitOf y2 + 10 * digitOf y3 + digitOf y4 < 1900 ∨
      1000 * digitOf y1 + 100 * digitOf y2 + 10 * digitOf y3 + digitOf y4 > 2100
  · rw [if_pos hy]
    constructor
    · intro h
      cases h
    · rintro ⟨h1, h2, _⟩
      omega
  · rw [if_neg hy]
    by_cases hm : 10 * digitOf m1 + digitOf m2 < 1 ∨ 10 * digitOf m1 + digitOf m2 > 12
    · rw [if_pos hm]
      constructor
      · intro h
        cases h
      · rintro ⟨_, _, h1, h2, _⟩
        omega
    · rw [if_neg hm]
      simp only [daysTable_eq _ _ (by omega : 1 ≤ 10 * digitOf m1 + digitOf m2)
        (by omega : 10 * digitOf m1 + digitOf m2 ≤ 12)]
      unfold notLater
      by_cases hday : 10 * digitOf d1 + digitOf d2 < 1 ∨ 10 * digitOf d1 + digitOf d2 >
          daysOfMonth (1000 * digitOf y1 + 100 * digitOf y2 + 10 * digitOf y3 + digitOf y4)
            (10 * digitOf m1 + digitOf m2)
      · rw [if_pos hday]
        constructor
        · intro h
          cases h
        · rintro ⟨_, _, _, _, h1, h2, _⟩
          omega
      · rw [if_neg hday]
        split_ifs with g1 g2 g3
        · constructor
          · intro h
            cases h
          · rintro ⟨_, _, _, _, _, _, h⟩
            omega
        · constructor
          · intro h
            cases h
          · rintro ⟨_, _, _, _, _, _, h⟩
            omega
        · constructor
          · intro h
            cases h
          · rintro ⟨_, _, _, _, _, _, h⟩
            omega
        · refine ⟨fun _ => ⟨by omega, by omega, by omega, by omega, by omega, by omega, ?_⟩,
            fun _ => rfl⟩
          omega

/-- C27: for today's date `cy-cm-cd`, `Utils::isValidBirthday` accepts exactly the texts
`YYYY-MM-DD` of decimal digits with year in 1900..2100, month in 1..12, day between 1 and the
number of days of the month (29 for February exactly in the years divisible by 4 and not by
100, or divisible by 400), and not later than today. -/
theorem isValidBirthday_spec (cy cm cd : Int) (b : String) :
    Utils.isValidBirthday cy cm cd b = true ↔ BirthdaySpec cy cm cd b.data := by
  constructor
  · intro h
    have hpat : matchesDatePattern b.data = true := by
      by_contra hp
      unfold Utils.isValidBirthday at h
      by_cases h0 : b.data = []
      · rw [if_pos h0] at h
        cases h
      · rw [if_neg h0, if_pos hp] at h
        cases h
    obtain ⟨y1, y2, y3, y4, m1, m2, d1, d2, hb, a1, a2, a3, a4, a5, a6, a7, a8⟩ :=
      (matchesDatePattern_iff _).mp hpat
    have hbs : b = String.mk [y1, y2, y3, y4, '-', m1, m2, '-', d1, d2] := by
      cases b
      simp only at hb
      rw [hb]
    rw [hbs] at h
    have hc := (isValidBirthday_pattern cy cm cd y1 y2 y3 y4 m1 m2 d1 d2 a1 a2 a3 a4 a5 a6 a7
      a8).mp h
    exact ⟨y1, y2, y3, y4, m1, m2, d1, d2, hb, a1, a2, a3, a4, a5, a6, a7, a8, hc⟩
  · rintro ⟨y1, y2, y3, y4, m1, m2, d1, d2, hb, a1, a2, a3, a4, a5, a6, a7, a8, hc⟩
    have hbs : b = String.mk [y1, y2, y3, y4, '-', m1, m2, '-', d1, d2] := by
      cases b
      simp only at hb
      rw [hb]
    rw [hbs]
    exact (isValidBirthday_pattern cy cm cd y1 y2 y3 y4 m1 m2 d1 d2 a1 a2 a3 a4 a5 a6 a7
      a8).mpr hc

/-- Witness of C27: with today 2024-03-01, 29 February is a birthday in 2024 and in 2000, not
in 2023 nor in 1900, and 2 March 2024 is in the future. -/
theorem isValidBirthday_spec_witness :
    BirthdaySpec 2024 3 1 "2024-02-29".data ∧ BirthdaySpec 2024 3 1 "2000-02-29".data ∧
    ¬ BirthdaySpec 2024 3 1 "2023-02-29".data ∧ ¬ BirthdaySpec 2024 3 1 "1900-02-29".data ∧
    ¬ BirthdaySpec 2024 3 1 "2024-03-02".data ∧ ¬ BirthdaySpec 2024 3 1 "2024-2-29".data :=
  ⟨(isValidBirthday_spec 2024 3 1 "2024-02-29").mp (by with_unfolding_all rfl),
    (isValidBirthday_spec 2024 3 1 "2000-02-29").mp (by with_unfolding_all rfl),
    fun h => absurd ((isValidBirthday_spec 2024 3 1 "2023-02-29").mpr h)
      (by with_unfolding_all decide),
    fun h => absurd ((isValidBirthday_spec 2024 3 1 "1900-02-29").mpr h)
      (by with_unfolding_all decide),
    fun h => absurd ((isValidBirthday_spec 2024 3 1 "2024-03-02").mpr h)
      (by with_unfolding_all decide),
    fun h => absurd ((isValidBirthday_spec 2024 3 1 "2024-2-29").mpr h)
      (by with_unfolding_all decide)⟩

end MemberSystem
